import Mathlib

/-!
# Cascade: node cache and compute-pass orchestration

A shallow embedding of the parts of the Cascade image editor that drive the
GPU compute passes of a node (`VulkanRenderer::processNode`,
`processReadNode`, `displayNode` in `src/renderer/vulkanrenderer.cpp`), of the
node cache slot (`src/nodebase.h`) and of the node graph (`src/nodegraph.h`),
of the properties panel (`src/nodeproperties.cpp`, `src/uientities/`) and of
the project manager (`src/projectmanager.cpp`).

Conventions of the embedding:

* heap objects (`CsImage`) live in an arena `heap : Nat → CsImage`; a
  pointer is a `Nat`, a nullable pointer an `Option Nat`, and
  `new CsImage` takes the next identifier `nextId`, which no earlier
  allocation has used;
* nodes live in an arena `nodes : Nat → NodeBase`, a `NodeBase*` being the
  index of the node;
* every call on the device, the settings buffer, the command buffer, the
  window or a node is appended to `events`, in program order;
* the values held in `float` slots (settings, pixels) range over an arbitrary
  type `F` with `0`, `1` and `+`; no law of `F` is assumed;
* a function returns `none` where the C++ dereferences a null pointer or
  indexes out of range.
-/

namespace Cascade

/-! ## Handles and tables -/

/-- The node types the renderer distinguishes (`nodedefinitions.h` is not
part of the sources; only the enumerators named in the renderer are kept
apart, every other type is `other n`). -/
inductive NodeType where
  | read
  | shader
  | isf
  | other (n : Nat)
  deriving DecidableEq, Repr

/-- The entry of `getPropertiesForType` the renderer reads. -/
structure NodeInitProperties where
  numShaderPasses : Int
  deriving DecidableEq, Repr

/-- The compute pipeline bound to a dispatch: `pipelines[nodeType]`,
`computePipelineUser` built from a shader source, or `computePipelineNoop`. -/
inductive Pipeline where
  | ofType (t : NodeType)
  | user (code : String)
  | noop
  deriving DecidableEq, Repr

structure QSize where
  width : Int
  height : Int
  deriving DecidableEq, Repr

/-- Conversion of an `int` argument to a `uint32_t` parameter. -/
def toUInt32 (i : Int) : Nat := (i % 4294967296).toNat

/-- A GPU image: `CsImage(window, device, physicalDevice, width, height,
isLinear, name)` with its device memory, one `float` per index. -/
structure CsImage (F : Type) where
  width : Nat
  height : Nat
  isLinear : Bool
  name : String
  memory : Nat → F

/-- The CPU image of OpenImageIO: one list of channel values per pixel. -/
structure ImageBuf (F : Type) where
  nchannels : Nat
  xend : Int
  yend : Int
  pixels : List (List F)

/-- The node fields the renderer touches. `cachedImage` and `needsUpdate`
carry the in-class initialisers of `nodebase.h`. -/
structure NodeBase where
  nodeType : NodeType
  cachedImage : Option Nat := none
  needsUpdate : Bool := true
  allPropertyValues : String := ""
  shaderCode : String := ""
  upstreamNodeBack : Option Nat := none

/-- What `recordGeneric` stores in the generic command buffer. -/
structure GenericCommand where
  back : Nat
  front : Option Nat
  output : Nat
  pipeline : Pipeline
  numShaderPasses : Int
  currentShaderPass : Int
  deriving DecidableEq, Repr

/-- One submitted kernel dispatch: the recorded command together with the
settings payload the kernel reads. -/
structure Dispatch (F : Type) where
  back : Nat
  front : Option Nat
  output : Nat
  pipeline : Pipeline
  numShaderPasses : Int
  currentShaderPass : Int
  settings : List F
  deriving DecidableEq, Repr

/-- The image-load command of `recordImageLoad`. -/
structure ImageLoadCommand where
  staging : Option Nat
  tmp : Nat
  output : Nat
  deriving DecidableEq, Repr

/-- Calls observed on the collaborators of the renderer, in program order. -/
inductive Event (F : Type) where
  | waitIdle
  | fillBuffer (props : String)
  | appendValue (v : F)
  | incrementLastValue
  | newImage (id : Nat) (name : String)
  | renderTargetHasBeenCreated (width height : Nat)
  | updateDescriptorSets (binding0 binding1 binding2 : Nat)
  | updateGraphicsDescriptors (image upstream : Nat)
  | updateVertexData (width height : Int)
  | createVertexBuffer
  | recordGeneric (cmd : GenericCommand)
  | submitGeneric (d : Dispatch F)
  | recordImageLoad (cmd : ImageLoadCommand)
  | submitImageLoad (cmd : ImageLoadCommand)
  | requestUpdate
  | setCachedImage (node : Nat) (image : Option Nat)
  | flushCache (node : Nat)
  | recordImageSave (image : Nat)
  | submitImageSave
  | mapMemory (ok : Bool)
  | unmapMemory
  | writeImage (path : String) (ok : Bool)
  deriving DecidableEq, Repr

/-- The collaborators the renderer does not own: the node-type table, the
settings parser, the compute kernels run by the device, the file system, the
image library, the colour service and the device. `kernel p b0 b1 s` is
the image a dispatch of pipeline `p` writes to binding 2 when bindings 0 and
1 hold `b0` and `b1` and the settings buffer holds `s`; `uninitialised id`
is what the memory of image `id` holds when it is allocated. -/
structure Env (F : Type) where
  getPropertiesForType : NodeType → NodeInitProperties
  fillBuffer : String → List F
  kernel : Pipeline → (Nat → F) → (Nat → F) → List F → (Nat → F)
  uninitialised : Nat → Nat → F
  fileExists : String → Bool
  isFile : String → Bool
  readImage : String → ImageBuf F × Bool
  colorSpaces : List String
  applyColorSpace : String → String → ImageBuf F → ImageBuf F
  canSampleLinear : Bool
  canSampleOptimal : Bool
  rowPitch : Nat → Nat
  mapMemoryOk : Nat → Bool

/-- The renderer, the device memory and the node arena. -/
structure World (F : Type) where
  heap : Nat → CsImage F
  nextId : Nat
  nodes : Nat → NodeBase
  events : List (Event F)
  settingsBuffer : List F
  computeRenderTarget : Option Nat
  tmpCacheImage : Option Nat
  loadImageStaging : Option Nat
  cpuImage : Option (ImageBuf F)
  imagePath : String
  shaderUser : Option String
  computePipelineUser : Option String
  computeDescriptorSet : Option (Nat × Nat × Nat)
  graphicsDescriptorSet : Option (Nat × Nat)
  commandBufferGeneric : Option GenericCommand
  commandBufferImageLoad : Option ImageLoadCommand
  currentRenderSize : Nat × Nat
  clearScreen : Bool

/-! ## Device, settings buffer, command buffer -/

section Operations

variable {F : Type}

def World.log (w : World F) (e : Event F) : World F :=
  { w with events := w.events ++ [e] }

/-- The call `device.waitIdle()`. -/
def waitIdle (w : World F) : World F :=
  w.log Event.waitIdle

/-- The allocation `new CsImage(window, &device, &physicalDevice, width,
height, isLinear, name)`: the image takes the next free identifier; its
memory holds whatever the allocation holds. -/
def newCsImage (env : Env F) (width height : Nat) (isLinear : Bool) (name : String)
    (w : World F) : Nat × World F :=
  (w.nextId,
    { w with
      heap := Function.update w.heap w.nextId
        { width := width, height := height, isLinear := isLinear, name := name,
          memory := env.uninitialised w.nextId }
      nextId := w.nextId + 1
      events := w.events ++ [Event.newImage w.nextId name] })

/-- Modelled from the spec: `CsSettingsBuffer::appendValue`
(`cssettingsbuffer.h` is not part of the sources) adds one value at the end
of the settings payload. -/
def appendValue (v : F) (w : World F) : World F :=
  { w with
    settingsBuffer := w.settingsBuffer ++ [v]
    events := w.events ++ [Event.appendValue v] }

/-- The last value of a payload increased by one; an empty payload stays
empty. -/
def incrementLast [One F] [Add F] : List F → List F
  | [] => []
  | [x] => [x + 1]
  | x :: y :: rest => x :: incrementLast (y :: rest)

/-- Modelled from the spec: `CsSettingsBuffer::incrementLastValue`
(`cssettingsbuffer.h` is not part of the sources) adds one to the last value
of the settings payload. -/
def incrementLastValue [One F] [Add F] (w : World F) : World F :=
  { w with
    settingsBuffer := incrementLast w.settingsBuffer
    events := w.events ++ [Event.incrementLastValue] }

/-- `VulkanRenderer::fillSettingsBuffer`: the payload becomes the values
parsed from the property string of the node. -/
def fillSettingsBuffer (env : Env F) (node : Nat) (w : World F) : World F :=
  let props := (w.nodes node).allPropertyValues
  { w with
    settingsBuffer := env.fillBuffer props
    events := w.events ++ [Event.fillBuffer props] }

/-- `VulkanRenderer::createComputeRenderTarget`: always succeeds. -/
def createComputeRenderTarget (env : Env F) (width height : Nat) (w : World F) :
    World F × Bool :=
  let (id, w1) := newCsImage env width height false "Compute Render Target" w
  ({ w1 with
      computeRenderTarget := some id
      currentRenderSize := (width, height)
      events := w1.events ++ [Event.renderTargetHasBeenCreated width height] },
    true)

/-- `VulkanRenderer::updateComputeDescriptors`: waits for the device, then
writes bindings 0 (back), 1 (front, or back when there is no front) and
2 (output); binding 3 is the settings buffer. Dereferences `inputImageBack`
and `outputImage`. -/
def updateComputeDescriptors (inputImageBack inputImageFront outputImage : Option Nat)
    (w : World F) : Option (World F) :=
  let w1 := waitIdle w
  match inputImageBack, outputImage with
  | some back, some out =>
    let front :=
      match inputImageFront with
      | some f => f
      | none => back
    some { w1 with
      computeDescriptorSet := some (back, front, out)
      events := w1.events ++ [Event.updateDescriptorSets back front out] }
  | _, _ => none

/-- Modelled from the spec: `CsCommandBuffer::recordGeneric`
(`cscommandbuffer.h` is not part of the sources) records one dispatch of
`pipeline` reading `back` and `front` and writing `output`. -/
def recordGeneric (inputImageBack inputImageFront outputImage : Option Nat)
    (pipeline : Pipeline) (numShaderPasses currentShaderPass : Int)
    (w : World F) : Option (World F) :=
  match inputImageBack, outputImage with
  | some back, some out =>
    let cmd : GenericCommand :=
      { back := back, front := inputImageFront, output := out, pipeline := pipeline,
        numShaderPasses := numShaderPasses, currentShaderPass := currentShaderPass }
    some { w with
      commandBufferGeneric := some cmd
      events := w.events ++ [Event.recordGeneric cmd] }
  | _, _ => none

/-- What the device does with a dispatch: the kernel of the pipeline reads
the images of bindings 0 and 1 and the settings payload and writes the image
of binding 2. -/
def runKernel (env : Env F) (pipeline : Pipeline) (w : World F) : World F :=
  match w.computeDescriptorSet with
  | some (b0, b1, b2) =>
    { w with
      heap := Function.update w.heap b2
        { w.heap b2 with
          memory := env.kernel pipeline (w.heap b0).memory (w.heap b1).memory
            w.settingsBuffer } }
  | none => w

/-- Modelled from the spec: `CsCommandBuffer::submitGeneric`
(`cscommandbuffer.h` is not part of the sources) submits the recorded
dispatch to the compute queue (Kernel Executor, section 4.3). -/
def submitGeneric (env : Env F) (w : World F) : Option (World F) :=
  match w.commandBufferGeneric with
  | some cmd =>
    let d : Dispatch F :=
      { back := cmd.back, front := cmd.front, output := cmd.output, pipeline := cmd.pipeline,
        numShaderPasses := cmd.numShaderPasses, currentShaderPass := cmd.currentShaderPass,
        settings := w.settingsBuffer }
    some (runKernel env cmd.pipeline { w with events := w.events ++ [Event.submitGeneric d] })
  | none => none

/-- The call `window->requestUpdate()`. -/
def requestUpdate (w : World F) : World F :=
  w.log Event.requestUpdate

/-- Modelled from the spec: `NodeBase::getCachedImage` (`nodebase.cpp` is
not part of the sources) returns the image of the cache slot, or null. -/
def getCachedImage (node : Nat) (w : World F) : Option Nat :=
  (w.nodes node).cachedImage

/-- Modelled from the spec: `node->setCachedImage(std::move(computeRenderTarget))`
(`nodebase.cpp` is not part of the sources): the cache slot of the node takes
over the image of the render-target slot, which is left empty. -/
def setCachedImageFromRenderTarget (node : Nat) (w : World F) : World F :=
  { w with
    nodes := Function.update w.nodes node
      { w.nodes node with cachedImage := w.computeRenderTarget }
    computeRenderTarget := none
    events := w.events ++ [Event.setCachedImage node w.computeRenderTarget] }

/-- Modelled from the spec: `NodeBase::flushCache` (`nodebase.cpp` is not
part of the sources) empties the cache slot of the node. -/
def flushCache (node : Nat) (w : World F) : World F :=
  { w with
    nodes := Function.update w.nodes node { w.nodes node with cachedImage := none }
    events := w.events ++ [Event.flushCache node] }

/-! ## `VulkanRenderer::processNode` -/

/-- The pipeline `processNode` dispatches: `pipelines[nodeType]`, except for
shader and ISF nodes, which get a pipeline built from their code, or the
no-op pipeline when they have none. -/
def selectPipeline (node : Nat) (w : World F) : Pipeline × World F :=
  let n := w.nodes node
  if n.nodeType = NodeType.shader ∨ n.nodeType = NodeType.isf then
    if n.shaderCode.length ≠ 0 then
      (Pipeline.user n.shaderCode,
        { w with shaderUser := some n.shaderCode, computePipelineUser := some n.shaderCode })
    else
      (Pipeline.noop, w)
  else
    (Pipeline.ofType n.nodeType, w)

/-- The part of `processNode` before the passes: device wait, settings
payload, first render target, mask flag, and the temporary back image of a
node without back input. Returns the back image the passes use. -/
def processNodeSetup [Zero F] [One F] [Add F] (env : Env F) (node : Nat)
    (inputImageBack inputImageFront : Option Nat) (targetSize : QSize)
    (w : World F) : Nat × World F :=
  let w := waitIdle w
  let w := fillSettingsBuffer env node w
  let w := (createComputeRenderTarget env (toUInt32 targetSize.width)
    (toUInt32 targetSize.height) w).1
  let w := appendValue 0 w
  let w := if inputImageFront.isSome then incrementLastValue w else w
  match inputImageBack with
  | some back => (back, w)
  | none =>
    let (id, w) := newCsImage env (toUInt32 targetSize.width) (toUInt32 targetSize.height)
      false "Tmp Cache Image" w
    (id, { w with tmpCacheImage := some id })

/-- The branch `numShaderPasses == 1` of `processNode`. -/
def singlePass (env : Env F) (node : Nat) (inputImageBack : Nat)
    (inputImageFront : Option Nat) (pipeline : Pipeline) (numShaderPasses : Int)
    (currentShaderPass : Int) (w : World F) : Option (World F) := do
  let w ← updateComputeDescriptors (some inputImageBack) inputImageFront w.computeRenderTarget w
  let w ← recordGeneric (some inputImageBack) inputImageFront w.computeRenderTarget pipeline
    numShaderPasses currentShaderPass w
  let w ← submitGeneric env w
  let w := requestUpdate w
  let w := waitIdle w
  pure (setCachedImageFromRenderTarget node w)

/-- One iteration of the loop `for (int i = 1; i <= numShaderPasses; ++i)` of
`processNode`; the state is `currentShaderPass` and the world. -/
def multiPassStep [Zero F] [One F] [Add F] (env : Env F) (node : Nat) (inputImageBack : Nat)
    (inputImageFront : Option Nat) (targetSize : QSize) (pipeline : Pipeline)
    (numShaderPasses : Int) (s : Int × World F) : Option (Int × World F) := do
  let currentShaderPass := s.1
  let w := s.2
  let w ←
    if currentShaderPass = 1 then do
      let w := appendValue 0 w
      let w ← updateComputeDescriptors (some inputImageBack) inputImageFront
        w.computeRenderTarget w
      let w ← recordGeneric (some inputImageBack) inputImageFront w.computeRenderTarget
        pipeline numShaderPasses currentShaderPass w
      submitGeneric env w
    else if currentShaderPass ≤ numShaderPasses then do
      let w := incrementLastValue w
      let w := (createComputeRenderTarget env (toUInt32 targetSize.width)
        (toUInt32 targetSize.height) w).1
      let w ← updateComputeDescriptors (getCachedImage node w) inputImageFront
        w.computeRenderTarget w
      let w ← recordGeneric (getCachedImage node w) inputImageFront w.computeRenderTarget
        pipeline numShaderPasses currentShaderPass w
      submitGeneric env w
    else
      pure w
  let w := waitIdle w
  let w := setCachedImageFromRenderTarget node w
  pure (currentShaderPass + 1, w)

/-- The loop of the multi-pass branch, run `n` times. -/
def multiPassLoop [Zero F] [One F] [Add F] (env : Env F) (node : Nat) (inputImageBack : Nat)
    (inputImageFront : Option Nat) (targetSize : QSize) (pipeline : Pipeline)
    (numShaderPasses : Int) : Nat → Int × World F → Option (Int × World F)
  | 0, s => some s
  | n + 1, s =>
    (multiPassStep env node inputImageBack inputImageFront targetSize pipeline
      numShaderPasses s).bind
      (multiPassLoop env node inputImageBack inputImageFront targetSize pipeline
        numShaderPasses n)

/-- `VulkanRenderer::processNode`. The loop counter `i` runs from 1 to
`numShaderPasses` and is not read by the body, so the loop runs
`numShaderPasses` times (not at all for a count below 1). -/
def processNode [Zero F] [One F] [Add F] (env : Env F) (node : Nat)
    (inputImageBack inputImageFront : Option Nat) (targetSize : QSize)
    (w : World F) : Option (World F) := do
  let (back, w) := processNodeSetup env node inputImageBack inputImageFront targetSize w
  let (pipeline, w) := selectPipeline node w
  let numShaderPasses := (env.getPropertiesForType (w.nodes node).nodeType).numShaderPasses
  let currentShaderPass : Int := 1
  if numShaderPasses = 1 then
    singlePass env node back inputImageFront pipeline numShaderPasses currentShaderPass w
  else do
    let s ← multiPassLoop env node back inputImageFront targetSize pipeline numShaderPasses
      numShaderPasses.toNat (currentShaderPass, w)
    pure (requestUpdate s.2)

/-! ## `VulkanRenderer::displayNode` -/

/-- `VulkanRenderer::updateVertexData`: the quad is resized to `w` by `h`. -/
def updateVertexData (width height : Int) (w : World F) : World F :=
  w.log (Event.updateVertexData width height)

/-- `VulkanRenderer::createVertexBuffer`: waits for the device, then rebuilds
the vertex buffer. -/
def createVertexBuffer (w : World F) : World F :=
  (waitIdle w).log Event.createVertexBuffer

/-- `VulkanRenderer::updateGraphicsDescriptors`. -/
def updateGraphicsDescriptors (outputImage upstreamImage : Nat) (w : World F) : World F :=
  { w with
    graphicsDescriptorSet := some (outputImage, upstreamImage)
    events := w.events ++ [Event.updateGraphicsDescriptors outputImage upstreamImage] }

/-- `VulkanRenderer::doClearScreen`. -/
def doClearScreen (w : World F) : World F :=
  requestUpdate { w with clearScreen := true }

/-- Modelled from the spec: `NodeBase::getUpstreamNodeBack` (`nodebase.cpp` is
not part of the sources) is the node connected to the back input, or null. -/
def getUpstreamNodeBack (node : Nat) (w : World F) : Option Nat :=
  (w.nodes node).upstreamNodeBack

/-- `VulkanRenderer::displayNode`. -/
def displayNode (env : Env F) (node : Nat) (w : World F) : Option (World F) :=
  match getCachedImage node w with
  | some image => do
    let w := { w with clearScreen := false }
    let w := updateVertexData (w.heap image).width (w.heap image).height w
    let w := createVertexBuffer w
    let w := (createComputeRenderTarget env (w.heap image).width (w.heap image).height w).1
    let upstreamImage : Option Nat :=
      match getUpstreamNodeBack node w with
      | some up => getCachedImage up w
      | none => none
    let upstreamImage : Nat :=
      match upstreamImage with
      | some u => u
      | none => image
    let w := updateGraphicsDescriptors image upstreamImage w
    let w ← updateComputeDescriptors (some image) none w.computeRenderTarget w
    let w ← recordGeneric (some image) none w.computeRenderTarget Pipeline.noop 1 1 w
    let w ← submitGeneric env w
    pure (requestUpdate w)
  | none => some (doClearScreen w)

/-! ## Reading an image: `processReadNode` -/

/-- The fields of a string between commas (`QString::split(",")`): an empty
string has one empty field. -/
def splitOnComma : List Char → List (List Char)
  | [] => [[]]
  | c :: cs =>
    if c = ',' then [] :: splitOnComma cs
    else
      match splitOnComma cs with
      | [] => [[c]]
      | field :: fields => (c :: field) :: fields

def qSplit (s : String) : List String :=
  (splitOnComma s.data).map String.mk

/-- The value of a string of decimal digits, most significant first. -/
def digitsValue : List Char → Nat → Option Nat
  | [], acc => some acc
  | c :: cs, acc =>
    if '0' ≤ c ∧ c ≤ '9' then digitsValue cs (acc * 10 + (c.toNat - 48)) else none

def trimSpaces (cs : List Char) : List Char :=
  ((cs.dropWhile (fun c => c = ' ')).reverse.dropWhile (fun c => c = ' ')).reverse

/-- `QString::toInt()`: the decimal value of the string, with an optional
sign and surrounding blanks; `0` when the string is not a number or the
number does not fit an `int`. -/
def qToInt (s : String) : Int :=
  let value : Option Int :=
    match trimSpaces s.data with
    | [] => none
    | '-' :: ds => if ds = [] then none else (digitsValue ds 0).map (fun n => - (n : Int))
    | '+' :: ds => if ds = [] then none else (digitsValue ds 0).map (fun n => (n : Int))
    | ds => (digitsValue ds 0).map (fun n => (n : Int))
  match value with
  | some v => if -2147483648 ≤ v ∧ v ≤ 2147483647 then v else 0
  | none => 0

/-- Indexing with an `int`, as `operator[]` and `at` do; out of range is a
fault. -/
def qAt {α : Type} (l : List α) (i : Int) : Option α :=
  if 0 ≤ i then l[i.toNat]? else none

/-- `ImageBufAlgo::channels(src, n, order, values)`: channel `c` of the result
is channel `order[c]` of the source, or `values[c]` when `order[c]` is
negative. -/
def channelsOp (src : ImageBuf F) (order : List Int) (values : List F) : ImageBuf F :=
  { src with
    nchannels := order.length
    pixels := src.pixels.map (fun px =>
      (order.zip values).map (fun ov => if 0 ≤ ov.1 then px.getD ov.1.toNat ov.2 else ov.2)) }

def toUInt64 (i : Int) : Nat := (i % 18446744073709551616).toNat

/-- Conversion of an unsigned value to `int`. -/
def toInt32 (n : Nat) : Int :=
  if n % 4294967296 < 2147483648 then (n % 4294967296 : Nat)
  else ((n % 4294967296 : Nat) : Int) - 4294967296

/-- The call `memcpy(p, pixels, 4 * n)` on `float` pointers: `n` floats of
`src` from offset `sOff` land at offset `dOff` of the mapped memory. -/
def memcpyFloats (dst : Nat → F) (dOff : Int) (src : List F) (sOff : Int) (n : Nat) :
    Nat → F :=
  fun j =>
    if dOff ≤ (j : Int) ∧ (j : Int) < dOff + n then
      match qAt src ((j : Int) - dOff + sOff) with
      | some v => v
      | none => dst j
    else dst j

/-- What an `int` holds after an `int` computation whose exact result is
`i`: the value wraps around at 32 bits. -/
def wrapInt32 (i : Int) : Int :=
  toInt32 (toUInt32 i)

/-- The row loop of `writeLinearImage`: `rows` rows left, `pixels` and `p`
as offsets in floats. `lineWidth = width * 16`, `w * 4` and `w * 4 + pad`
are computed in `int`; `memcpy` takes `lineWidth` as a `size_t`. -/
def copyRows (src : List F) (width pad : Int) : Nat → Int → Int → (Nat → F) → (Nat → F)
  | 0, _, _, mem => mem
  | rows + 1, pixels, p, mem =>
    copyRows src width pad rows (pixels + wrapInt32 (width * 4))
      (p + wrapInt32 (wrapInt32 (width * 4) + pad))
      (memcpyFloats mem p src pixels (toUInt64 (wrapInt32 (width * 16)) / 4))

/-- `VulkanRenderer::writeLinearImage`: copies the tightly packed rows of
`imgStart` into the mapped memory of `image`, one row every `rowPitch`
bytes. The padding is the 64-bit difference `rowPitch - width * 16`,
divided by 4 and stored in an `int`. -/
def writeLinearImage (env : Env F) (imgStart : List F) (imgSize : QSize) (image : Nat)
    (w : World F) : World F × Bool :=
  if env.mapMemoryOk image then
    let rowPitch := env.rowPitch image
    let pad : Int :=
      toInt32 (((rowPitch + 18446744073709551616
          - toUInt64 (wrapInt32 (imgSize.width * 16)))
        % 18446744073709551616) / 4)
    ({ w with
        heap := Function.update w.heap image
          { w.heap image with
            memory := copyRows imgStart imgSize.width pad imgSize.height.toNat 0 0
              (w.heap image).memory } },
      true)
  else
    (w, false)

/-- `VulkanRenderer::createImageFromFile`; `none` when `colorSpaces.at`
is out of range. -/
def createImageFromFile [Zero F] [One F] (env : Env F) (path : String) (colorSpace : Int)
    (w : World F) : Option (World F × Bool) := do
  let image := (env.readImage path).1
  let image :=
    if image.nchannels = 3 then channelsOp image [0, 1, 2, -1] [0, 0, 0, 1] else image
  let fromSpace ← qAt env.colorSpaces colorSpace
  let image := env.applyColorSpace fromSpace "linear" image
  let w := { w with cpuImage := some image }
  let w := updateVertexData image.xend image.yend w
  if !env.canSampleLinear && !env.canSampleOptimal then
    pure (w, false)
  else
    let (staging, w) := newCsImage env (toUInt32 image.xend) (toUInt32 image.yend) true
      "Load Image Staging" w
    let w := { w with loadImageStaging := some staging }
    let (w, ok) := writeLinearImage env image.pixels.flatten ⟨image.xend, image.yend⟩ staging w
    if !ok then pure (w, false) else pure (w, true)

/-- Modelled from the spec: `CsCommandBuffer::recordImageLoad`
(`cscommandbuffer.h` is not part of the sources) records the copy of the
staging image into the temporary image and the dispatch of the read pipeline
from the temporary image into the render target. -/
def recordImageLoad (staging tmp outputImage : Option Nat) (w : World F) : Option (World F) :=
  match tmp, outputImage with
  | some t, some out =>
    let cmd : ImageLoadCommand := { staging := staging, tmp := t, output := out }
    some { w with
      commandBufferImageLoad := some cmd
      events := w.events ++ [Event.recordImageLoad cmd] }
  | _, _ => none

/-- Modelled from the spec: `CsCommandBuffer::submitImageLoad`
(`cscommandbuffer.h` is not part of the sources) submits the recorded image
load. -/
def submitImageLoad (env : Env F) (w : World F) : Option (World F) :=
  match w.commandBufferImageLoad with
  | some cmd =>
    let w := { w with events := w.events ++ [Event.submitImageLoad cmd] }
    let w :=
      match cmd.staging with
      | some st =>
        { w with
          heap := Function.update w.heap cmd.tmp
            { w.heap cmd.tmp with memory := (w.heap st).memory } }
      | none => w
    some (runKernel env (Pipeline.ofType NodeType.read) w)
  | none => none

/-- The second half of the load branch of `processReadNode`: the image load
from the staging image into a new render target, which becomes the cached
image of the node. -/
def processReadNodeUpload (env : Env F) (node : Nat) (cpuImage : ImageBuf F)
    (w : World F) : Option (World F) := do
  let (tmp, w) := newCsImage env (toUInt32 cpuImage.xend) (toUInt32 cpuImage.yend) false
    "Tmp Cache Image" w
  let w := { w with tmpCacheImage := some tmp }
  let w := (createComputeRenderTarget env (toUInt32 cpuImage.xend)
    (toUInt32 cpuImage.yend) w).1
  let w ← updateComputeDescriptors w.tmpCacheImage none w.computeRenderTarget w
  let w ← recordImageLoad w.loadImageStaging w.tmpCacheImage w.computeRenderTarget w
  let w ← submitImageLoad env w
  let w := setCachedImageFromRenderTarget node w
  let w := waitIdle w
  pure { w with loadImageStaging := none }

/-- The branch of `processReadNode` taken when the selected path names an
existing file: the file is read and uploaded. -/
def processReadNodeLoad [Zero F] [One F] (env : Env F) (node : Nat) (path : String)
    (colorSpace : Int) (w : World F) : Option (World F) := do
  let w := { w with imagePath := path }
  let w := (← createImageFromFile env w.imagePath colorSpace w).1
  let cpuImage ← w.cpuImage
  processReadNodeUpload env node cpuImage w

/-- `VulkanRenderer::processReadNode`; `none` when an index is out of
range. -/
def processReadNode [Zero F] [One F] (env : Env F) (node : Nat) (w : World F) :
    Option (World F) := do
  let parts := qSplit (w.nodes node).allPropertyValues
  let indexField ← qAt parts ((parts.length : Int) - 2)
  let index := qToInt indexField
  let index := if index < 0 then 0 else index
  let path ← qAt parts index
  let lastField ← parts.getLast?
  let colorSpace := qToInt lastField
  if path ≠ "" ∧ env.fileExists path = true ∧ env.isFile path = true then
    processReadNodeLoad env node path colorSpace w
  else
    pure (flushCache node w)

/-! ## Reading the event log -/

/-- The kernel dispatches submitted in a sequence of events. -/
def dispatches : List (Event F) → List (Dispatch F)
  | [] => []
  | Event.submitGeneric d :: rest => d :: dispatches rest
  | _ :: rest => dispatches rest

/-- The images handed to `setCachedImage` in a sequence of events. -/
def cacheWrites : List (Event F) → List (Option Nat)
  | [] => []
  | Event.setCachedImage _ image :: rest => image :: cacheWrites rest
  | _ :: rest => cacheWrites rest

/-- The images written to bindings 0, 1 and 2 by the descriptor updates in a
sequence of events. -/
def descriptorWrites : List (Event F) → List (Nat × Nat × Nat)
  | [] => []
  | Event.updateDescriptorSets b0 b1 b2 :: rest => (b0, b1, b2) :: descriptorWrites rest
  | _ :: rest => descriptorWrites rest

/-- The image loads submitted in a sequence of events. -/
def imageLoads : List (Event F) → List ImageLoadCommand
  | [] => []
  | Event.submitImageLoad cmd :: rest => cmd :: imageLoads rest
  | _ :: rest => imageLoads rest

/-- The images installed in a node cache while a dispatch is still to come:
the cache writes that are followed by a later dispatch submission. -/
def cacheWritesBeforeDispatch : List (Event F) → List (Option Nat)
  | [] => []
  | Event.setCachedImage _ image :: rest =>
    if (dispatches rest).isEmpty then cacheWritesBeforeDispatch rest
    else image :: cacheWritesBeforeDispatch rest
  | _ :: rest => cacheWritesBeforeDispatch rest

/-- Whether an event creates or rebinds a resource a pass uses: a change of
the settings payload, the creation of an image, a descriptor update. -/
def Event.touchesPassResources : Event F → Bool
  | Event.fillBuffer _ => true
  | Event.appendValue _ => true
  | Event.incrementLastValue => true
  | Event.newImage _ _ => true
  | Event.updateDescriptorSets _ _ _ => true
  | Event.updateGraphicsDescriptors _ _ => true
  | _ => false

/-- Scan of an event sequence for device synchronisation. The flag tells
whether a submitted dispatch has not been waited on yet; the scan fails
(`none`) at the first event that touches pass resources while the flag is
set, and otherwise returns the flag at the end. -/
def syncScan : Bool → List (Event F) → Option Bool
  | pending, [] => some pending
  | _, Event.waitIdle :: rest => syncScan false rest
  | _, Event.submitGeneric _ :: rest => syncScan true rest
  | _, Event.submitImageLoad _ :: rest => syncScan true rest
  | pending, e :: rest =>
    if pending && e.touchesPassResources then none else syncScan pending rest

/-- The events a call has added to the log of `w`. -/
def eventsSince (w w1 : World F) : List (Event F) :=
  w1.events.drop w.events.length

/-! ## The passes of `processNode`, stated pass by pass -/

/-- Zero incremented `k` times: the pass index of pass `k + 1`. -/
def passIndex [Zero F] [One F] [Add F] : Nat → F
  | 0 => 0
  | k + 1 => passIndex k + 1

/-- The render target of pass `k + 1`, where `first` is the target created
before the passes and `next` the first identifier free after the set-up. -/
def passOutput (first next : Nat) : Nat → Nat
  | 0 => first
  | k + 1 => next + k

/-- The back input of pass `k + 1`. -/
def passBackInput (back first next : Nat) : Nat → Nat
  | 0 => back
  | k + 1 => passOutput first next k

/-- The dispatch of pass `k + 1` of a multi-pass node. -/
def passDispatch [Zero F] [One F] [Add F] (back : Nat) (front : Option Nat) (first next : Nat)
    (pipeline : Pipeline) (numShaderPasses : Int) (base : List F) (k : Nat) : Dispatch F :=
  { back := passBackInput back first next k
    front := front
    output := passOutput first next k
    pipeline := pipeline
    numShaderPasses := numShaderPasses
    currentShaderPass := (k : Int) + 1
    settings := base ++ [passIndex k] }

/-- The command recorded for a dispatch. -/
def Dispatch.command (d : Dispatch F) : GenericCommand :=
  { back := d.back, front := d.front, output := d.output, pipeline := d.pipeline,
    numShaderPasses := d.numShaderPasses, currentShaderPass := d.currentShaderPass }

/-- The image of binding 1 for a dispatch: the front image, or the back
image when there is none. -/
def Dispatch.binding1 (d : Dispatch F) : Nat :=
  match d.front with
  | some f => f
  | none => d.back

/-- The events of pass `k + 1` of a multi-pass node. -/
def passEvents [Zero F] (node : Nat) (targetSize : QSize) (d : Dispatch F) : Nat → List (Event F)
  | 0 =>
    [Event.appendValue 0, Event.waitIdle,
      Event.updateDescriptorSets d.back d.binding1 d.output,
      Event.recordGeneric d.command, Event.submitGeneric d, Event.waitIdle,
      Event.setCachedImage node (some d.output)]
  | _ + 1 =>
    [Event.incrementLastValue, Event.newImage d.output "Compute Render Target",
      Event.renderTargetHasBeenCreated (toUInt32 targetSize.width) (toUInt32 targetSize.height),
      Event.waitIdle, Event.updateDescriptorSets d.back d.binding1 d.output,
      Event.recordGeneric d.command, Event.submitGeneric d, Event.waitIdle,
      Event.setCachedImage node (some d.output)]

/-- The events of passes `1 .. n`. -/
def passesEvents [Zero F] (node : Nat) (targetSize : QSize) (mk : Nat → Dispatch F) :
    Nat → List (Event F)
  | 0 => []
  | n + 1 => passesEvents node targetSize mk n ++ passEvents node targetSize (mk n) n

/-- The accumulation over the passes: `out 0` is the back input and
`out (k + 1) = K (out k) front (s k)`. -/
def accumulation (K : (Nat → F) → Option (Nat → F) → List F → (Nat → F)) (back : Nat → F)
    (front : Option (Nat → F)) (s : Nat → List F) : Nat → (Nat → F)
  | 0 => back
  | k + 1 => K (accumulation K back front s k) front (s k)

/-- A kernel seen as a function of the back image, the optional front image
and the settings: without a front image binding 1 holds the back image. -/
def kernelOf (env : Env F) (pipeline : Pipeline) (back : Nat → F) (front : Option (Nat → F))
    (settings : List F) : Nat → F :=
  env.kernel pipeline back (match front with | some f => f | none => back) settings

/-- The mask flag appended after the property values: zero, incremented once
when a front image is supplied. -/
def maskFlag [Zero F] [One F] [Add F] (front : Option Nat) : F :=
  match front with
  | some _ => 0 + 1
  | none => 0

/-- The back image the passes of `processNode` read first: the image of the
caller, or the temporary image allocated right after the first render
target when the caller supplies none. -/
def effectiveBack (back : Option Nat) (first : Nat) : Nat :=
  match back with
  | some b => b
  | none => first + 1

/-- The first identifier free once the set-up of `processNode` is done. -/
def nextAfterSetup (back : Option Nat) (first : Nat) : Nat :=
  match back with
  | some _ => first + 1
  | none => first + 2

/-- The events of the set-up of `processNode`. -/
def setupEvents [Zero F] (props : String) (back front : Option Nat) (targetSize : QSize)
    (first : Nat) : List (Event F) :=
  [Event.waitIdle, Event.fillBuffer props, Event.newImage first "Compute Render Target",
    Event.renderTargetHasBeenCreated (toUInt32 targetSize.width) (toUInt32 targetSize.height),
    Event.appendValue 0]
  ++ (match front with
      | some _ => [Event.incrementLastValue]
      | none => [])
  ++ (match back with
      | some _ => []
      | none => [Event.newImage (first + 1) "Tmp Cache Image"])

/-- The pass count `getPropertiesForType(node->nodeType).numShaderPasses`. -/
def numPasses (env : Env F) (node : Nat) (w : World F) : Int :=
  (env.getPropertiesForType (w.nodes node).nodeType).numShaderPasses

/-- The settings payload after the set-up of `processNode`: the property
values of the node followed by the mask flag. -/
def basePayload [Zero F] [One F] [Add F] (env : Env F) (node : Nat) (front : Option Nat)
    (w : World F) : List F :=
  env.fillBuffer (w.nodes node).allPropertyValues ++ [maskFlag front]

/-- The dispatch of pass `k + 1` of `processNode` called in world `w` on a
multi-pass node. -/
def nodeDispatch [Zero F] [One F] [Add F] (env : Env F) (node : Nat)
    (back front : Option Nat) (w : World F) : Nat → Dispatch F :=
  passDispatch (effectiveBack back w.nextId) front w.nextId (nextAfterSetup back w.nextId)
    (selectPipeline node w).1 (numPasses env node w) (basePayload env node front w)

/-- The pixels the first pass reads as back input: those of the image of the
caller, or the uninitialised memory of the temporary image. -/
def backPixels (env : Env F) (back : Option Nat) (w : World F) : Nat → F :=
  match back with
  | some b => (w.heap b).memory
  | none => env.uninitialised (w.nextId + 1)

/-- The render target of the last of `n` passes. -/
def finalTarget (back : Option Nat) (w : World F) (n : Nat) : Nat :=
  passOutput w.nextId (nextAfterSetup back w.nextId) (n - 1)

/-- The dispatch of `processNode` called in world `w` on a single-pass
node. -/
def singleDispatch [Zero F] [One F] [Add F] (env : Env F) (node : Nat)
    (back front : Option Nat) (w : World F) : Dispatch F :=
  { back := effectiveBack back w.nextId
    front := front
    output := w.nextId
    pipeline := (selectPipeline node w).1
    numShaderPasses := 1
    currentShaderPass := 1
    settings := basePayload env node front w }

/-- The events of the single-pass branch. -/
def singlePassEvents (node : Nat) (d : Dispatch F) : List (Event F) :=
  [Event.waitIdle, Event.updateDescriptorSets d.back d.binding1 d.output,
    Event.recordGeneric d.command, Event.submitGeneric d, Event.requestUpdate,
    Event.waitIdle, Event.setCachedImage node (some d.output)]

/-- The settings payload pass `k + 1` reads: the base payload for a
single-pass node, the base payload followed by the pass index otherwise. -/
def passSettings [Zero F] [One F] [Add F] (env : Env F) (node : Nat) (front : Option Nat)
    (w : World F) (k : Nat) : List F :=
  if numPasses env node w = 1 then basePayload env node front w
  else basePayload env node front w ++ [passIndex k]

/-- The state of the multi-pass loop after pass `k + 1`, relative to the
world `w0` at loop entry: `mk` lists the dispatches, `first` is the render
target created before the loop and `next` the first free identifier at loop
entry. -/
structure PassInv [Zero F] (node : Nat) (targetSize : QSize) (mk : Nat → Dispatch F)
    (K : (Nat → F) → Option (Nat → F) → List F → (Nat → F)) (backPx : Nat → F)
    (frontPx : Option (Nat → F)) (first next : Nat) (w0 : World F) (k : Nat)
    (s : Int × World F) : Prop where
  cur : s.1 = (k : Int) + 2
  events : s.2.events = w0.events ++ passesEvents node targetSize mk (k + 1)
  settings : s.2.settingsBuffer = (mk k).settings
  nextId : s.2.nextId = next + k
  target : s.2.computeRenderTarget = none
  nodes : s.2.nodes = Function.update w0.nodes node
    { w0.nodes node with cachedImage := some (passOutput first next k) }
  pixels : (∀ f, (mk 0).front = some f → f < first) →
    (s.2.heap (passOutput first next k)).memory =
      accumulation K backPx frontPx (fun i => (mk i).settings) (k + 1)
  old : ∀ i, i < first → s.2.heap i = w0.heap i

end Operations

/-! ## Node graph

`nodegraph.cpp` and `nodebase.cpp` are not part of the sources; the graph
operations below follow sections 3 and 4.1 of the specification. -/

inductive InputSlot where
  | back
  | front
  deriving DecidableEq, Repr

/-- A connection (`connection.h`): the node whose output is the source, the
node whose input is the target, and the input slot. -/
structure Connection where
  sourceOutput : Nat
  targetInput : Nat
  slot : InputSlot
  deriving DecidableEq, Repr

/-- The graph (`nodegraph.h`): the nodes it owns, their state, the
connections and the three pointers of interest. -/
structure NodeGraph where
  nodes : List Nat
  node : Nat → NodeBase
  connections : List Connection
  selectedNode : Option Nat := none
  activeNode : Option Nat := none
  viewedNode : Option Nat := none

/-- The output-to-input edges of a list of connections. -/
def edgesOf (connections : List Connection) : List (Nat × Nat) :=
  connections.map (fun c => (c.sourceOutput, c.targetInput))

/-- Depth-first search along the edges `es` from `a` for `b`; the edges
leaving a visited node are dropped, so every node is expanded at most once
and the search ends on any edge list. -/
def searchFrom : Nat → List (Nat × Nat) → Nat → Nat → Bool
  | 0, _, a, b => a == b
  | fuel + 1, es, a, b =>
    a == b ||
      es.any (fun e => e.1 == a && searchFrom fuel (es.filter (fun x => x.1 != a)) e.2 b)

/-- Whether `b` can be reached from `a` along the edges `es` (every node
reaches itself). -/
def reaches (es : List (Nat × Nat)) (a b : Nat) : Bool :=
  searchFrom es.length es a b

/-- Modelled from the spec: `invalidateDownstream(node)` (section 4.1;
`nodebase.cpp` is not part of the sources) sets `needsUpdate` and releases
the cached image of the node and of every node reachable from it. -/
def invalidateDownstream (es : List (Nat × Nat)) (start : Nat) (node : Nat → NodeBase) :
    Nat → NodeBase :=
  fun n =>
    if reaches es start n then { node n with needsUpdate := true, cachedImage := none }
    else node n

inductive ConnectResult where
  | ok (g : NodeGraph)
  | cycleError
  | invalidId

/-- Modelled from the spec: `connect(sourceOutput, targetInput)` (section
4.1; `nodegraph.cpp`, with `establishConnection` and `loadConnection`, is
not part of the sources). An unknown node is rejected; an edge that would
close a cycle is rejected with `CycleError`; otherwise the new connection
supersedes any connection into the same input and the target node and its
downstream are marked dirty. -/
def connect (g : NodeGraph) (source target : Nat) (slot : InputSlot) : ConnectResult :=
  if source ∈ g.nodes ∧ target ∈ g.nodes then
    if reaches (edgesOf g.connections) target source then
      ConnectResult.cycleError
    else
      let connections :=
        { sourceOutput := source, targetInput := target, slot := slot } ::
          g.connections.filter (fun c => !(c.targetInput == target && c.slot == slot))
      ConnectResult.ok
        { g with
          connections := connections
          node := invalidateDownstream (edgesOf connections) target g.node }
  else
    ConnectResult.invalidId

/-- The graph after a `connect` call: the new graph when the call succeeds,
the old one when it is rejected. -/
def afterConnect (g : NodeGraph) (call : Nat × Nat × InputSlot) : NodeGraph :=
  match connect g call.1 call.2.1 call.2.2 with
  | ConnectResult.ok g1 => g1
  | _ => g

/-- The graph after a sequence of `connect` calls. -/
def afterConnects (g : NodeGraph) (calls : List (Nat × Nat × InputSlot)) : NodeGraph :=
  calls.foldl afterConnect g

/-- The edge relation of a graph. -/
def Edge (es : List (Nat × Nat)) (a b : Nat) : Prop :=
  (a, b) ∈ es

/-- No node reaches itself along one or more edges. -/
def Acyclic (es : List (Nat × Nat)) : Prop :=
  ∀ n, ¬ Relation.TransGen (Edge es) n n

/-- Construction of a node, `NodeBase(type, graph, parent)`: `cachedImage`
and `needsUpdate` take the in-class initialisers of `nodebase.h` (the
constructor body, in `nodebase.cpp`, is not part of the sources and is taken
to leave them alone). -/
def NodeBase.create (nodeType : NodeType) : NodeBase :=
  { nodeType := nodeType }

/-! ## A concrete scene

A three-pass node type `other 3` whose kernel adds one to every float, a
single-pass type `other 1`, and a world with images 1 and 2 allocated. -/

def sampleEnv : Env Int where
  getPropertiesForType := fun t =>
    match t with
    | NodeType.other n => { numShaderPasses := n }
    | _ => { numShaderPasses := 1 }
  fillBuffer := fun _ => [7, 8]
  kernel := fun _ b _ _ => fun i => b i + 1
  uninitialised := fun _ _ => 0
  fileExists := fun _ => true
  isFile := fun _ => true
  readImage := fun _ => ({ nchannels := 3, xend := 1, yend := 1, pixels := [[5, 6, 7]] }, true)
  colorSpaces := ["sRGB"]
  applyColorSpace := fun _ _ image => image
  canSampleLinear := true
  canSampleOptimal := true
  rowPitch := fun _ => 16
  mapMemoryOk := fun _ => true

def sampleWorld : World Int where
  heap := fun _ =>
    { width := 1, height := 1, isLinear := false, name := "", memory := fun _ => 0 }
  nextId := 10
  nodes := fun n =>
    if n = 5 then { nodeType := NodeType.read, allPropertyValues := "a.exr,b.exr,1,0" }
    else if n = 1 then { nodeType := NodeType.other 1 }
    else { nodeType := NodeType.other 3 }
  events := []
  settingsBuffer := []
  computeRenderTarget := none
  tmpCacheImage := none
  loadImageStaging := none
  cpuImage := none
  imagePath := ""
  shaderUser := none
  computePipelineUser := none
  computeDescriptorSet := none
  graphicsDescriptorSet := none
  commandBufferGeneric := none
  commandBufferImageLoad := none
  currentRenderSize := (0, 0)
  clearScreen := true

def sampleGraph : NodeGraph where
  nodes := [0, 1, 2]
  node := fun _ => NodeBase.create (NodeType.other 1)
  connections := []

/-! ## The selection made by a read node -/

section ReadSelection

variable {F : Type}

/-- The path and the colour space `processReadNode` takes from the property
string of a read node: the field at the position named by the field before
the last (negative positions count as 0), and the value of the last field;
`none` when an index is out of range. -/
def readSelection (props : String) : Option (String × Int) := do
  let parts := qSplit props
  let indexField ← qAt parts ((parts.length : Int) - 2)
  let index := qToInt indexField
  let index := if index < 0 then 0 else index
  let path ← qAt parts index
  let lastField ← parts.getLast?
  pure (path, qToInt lastField)

/-- The test `path != "" && checkFile.exists() && checkFile.isFile()` of
`processReadNode`. -/
def pathIsLoadable (env : Env F) (path : String) : Prop :=
  path ≠ "" ∧ env.fileExists path = true ∧ env.isFile path = true

instance (env : Env F) (path : String) : Decidable (pathIsLoadable env path) := by
  unfold pathIsLoadable
  infer_instance

/-- The scene of `sampleEnv` on a device whose staging memory cannot be
mapped. -/
def unmappableEnv : Env Int :=
  { sampleEnv with mapMemoryOk := fun _ => false }

/-- The scene of `sampleEnv` with a one-channel (greyscale) source image. -/
def greyscaleEnv : Env Int :=
  { sampleEnv with
    readImage := fun _ => ({ nchannels := 1, xend := 1, yend := 1, pixels := [[5]] }, true) }

end ReadSelection

/-! ## Saving an image: `saveImageToDisk` -/

section Save

variable {F : Type}

/-- What `saveImageToDisk` needs beyond `Env`: whether the device maps the
buffer of the image save, and the result of `ImageBuf::write` for a
destination, the attributes of the image specification and the pixels. -/
structure SaveEnv (F : Type) where
  mapSaveMemoryOk : Bool
  writeImage : String → List (String × String) → ImageBuf F → Bool

/-- The image `saveImageToDisk` builds from the mapped memory of an image:
`width * height` pixels of four floats. -/
def imageBufOfMemory (memory : Nat → F) (width height : Nat) : ImageBuf F :=
  { nchannels := 4
    xend := width
    yend := height
    pixels := (List.range (width * height)).map (fun p =>
      [memory (4 * p), memory (4 * p + 1), memory (4 * p + 2), memory (4 * p + 3)]) }

/-- The value of an `int` expression whose exact result is `i`; `none` where
the result does not fit an `int` (signed overflow). -/
def checkedInt (i : Int) : Option Int :=
  if -2147483648 ≤ i ∧ i ≤ 2147483647 then some i else none

/-- `VulkanRenderer::saveImageToDisk`. `recordImageSave` and
`submitImageSave` (`cscommandbuffer.h` is not part of the sources) copy the
image into a host-visible buffer. The result is `none` when the image pointer
is null, when the mapping fails (the code then reads through an unset
pointer), when `int numValues = width * height * 4` overflows (the buffer
`new float[numValues]`, which `parallelArrayCopy` fills with the
`width * height * 4` floats of the image, then does not hold them) and when
`colorSpaces.at` is out of range. -/
def saveImageToDisk (env : Env F) (saveEnv : SaveEnv F) (inputImage : Option Nat)
    (path : String) (attributes : List (String × String)) (colorSpace : Int)
    (w : World F) : Option (World F × Bool) := do
  let image ← inputImage
  let w := w.log (Event.recordImageSave image)
  let w := w.log Event.submitImageSave
  let w := waitIdle w
  let w := w.log (Event.mapMemory saveEnv.mapSaveMemoryOk)
  if !saveEnv.mapSaveMemoryOk then none
  else
    let width ← checkedInt (w.heap image).width
    let height ← checkedInt (w.heap image).height
    let _numValues ← checkedInt (width * height * 4)
    let saveImage := imageBufOfMemory (w.heap image).memory width.toNat height.toNat
    let toSpace ← qAt env.colorSpaces colorSpace
    let saveImage := env.applyColorSpace "linear" toSpace saveImage
    let success := saveEnv.writeImage path attributes saveImage
    let w := w.log (Event.writeImage path success)
    let w := w.log Event.unmapMemory
    pure (w, success)

/-- The writes to disk in a sequence of events, with their results. -/
def imageWrites : List (Event F) → List (String × Bool)
  | [] => []
  | Event.writeImage path ok :: rest => (path, ok) :: imageWrites rest
  | _ :: rest => imageWrites rest

/-- A disk on which every write fails. -/
def fullDiskEnv : SaveEnv Int where
  mapSaveMemoryOk := true
  writeImage := fun _ _ _ => false

end Save

/-! ## Parameter changes and the project state -/

/-- The members of `ProjectManager` (`projectmanager.cpp`). -/
structure ProjectManager where
  projectIsDirty : Bool
  currentProject : String
  currentProjectPath : String

/-- Calls and signals of the user-interface layer, in program order. -/
inductive UiEvent where
  | requestUpdate (node : Nat)
  | projectIsDirty
  | projectTitleChanged (title : String)
  deriving DecidableEq, Repr

/-- The project manager together with the log of the user-interface
layer. -/
structure Ui where
  projectManager : ProjectManager
  log : List UiEvent

/-- `ProjectManager::updateProjectName`. -/
def updateProjectName (ui : Ui) : Ui :=
  let dirt := if ui.projectManager.projectIsDirty then "*" else ""
  { ui with log := ui.log ++ [UiEvent.projectTitleChanged (ui.projectManager.currentProject ++ dirt)] }

/-- `ProjectManager::handleProjectIsDirty`. -/
def handleProjectIsDirty (ui : Ui) : Ui :=
  updateProjectName { ui with projectManager := { ui.projectManager with projectIsDirty := true } }

/-- The part of `NodeProperties` the value-changed path uses: the node that
owns the panel. -/
structure NodeProperties where
  parentNode : Nat
  deriving DecidableEq, Repr

/-- `NodeProperties::handleSomeValueChanged`: `parentNode->requestUpdate()`,
then `emit projectIsDirty()`, which the constructor of `NodeProperties` has
connected to `ProjectManager::handleProjectIsDirty`. -/
def handleSomeValueChanged (p : NodeProperties) (ui : Ui) : Ui :=
  let ui := { ui with log := ui.log ++ [UiEvent.requestUpdate p.parentNode] }
  let ui := { ui with log := ui.log ++ [UiEvent.projectIsDirty] }
  handleProjectIsDirty ui

/-- An entity of the properties panel with the slots connected to its signal
`valueChanged`. -/
structure UiEntity where
  valueChangedSlots : List NodeProperties := []

/-- `ChannelSelectEntity::selfConnectToValueChanged`: one more connection of
`valueChanged` to `handleSomeValueChanged` of `p`. -/
def selfConnectToValueChanged (p : NodeProperties) (entity : UiEntity) : UiEntity :=
  { entity with valueChangedSlots := entity.valueChangedSlots ++ [p] }

/-- The signal `valueChanged` of an entity: every connected slot runs, in
the order of connection. -/
def emitValueChanged (entity : UiEntity) (ui : Ui) : Ui :=
  entity.valueChangedSlots.foldl (fun ui p => handleSomeValueChanged p ui) ui

def sampleUi : Ui where
  projectManager := { projectIsDirty := false, currentProject := "shot.csc",
                      currentProjectPath := "/projects/shot.csc" }
  log := []

/-! ## Upstream queries, invalidation and resolution

`nodebase.cpp`, `nodegraph.cpp` and the render manager are not part of the
sources; the operations below follow sections 4.1 and 4.2 of the
specification. -/

section Resolution

variable {F : Type}

/-- Modelled from the spec: `getUpstreamNodeBack` and `getUpstreamNodeFront`
(`nodebase.cpp` is not part of the sources): the source of the connection
into the given input of the node, if there is one. -/
def upstreamNode (connections : List Connection) (node : Nat) (slot : InputSlot) :
    Option Nat :=
  (connections.find? (fun c => c.targetInput == node && c.slot == slot)).map
    (fun c => c.sourceOutput)

/-- Modelled from the spec: `requestUpdate(node)` (sections 4.1 and 6;
`NodeBase::requestUpdate` and `NodeGraph::handleNodeUpdateRequest` are not
part of the sources) triggers the dirty propagation from the node. -/
def NodeGraph.requestUpdate (g : NodeGraph) (node : Nat) : NodeGraph :=
  { g with node := invalidateDownstream (edgesOf g.connections) node g.node }

/-- Modelled from the spec: `disconnect` (section 4.1; `nodegraph.cpp` is
not part of the sources) marks the target node and its downstream dirty,
then removes the connection into the given input. -/
def disconnect (g : NodeGraph) (target : Nat) (slot : InputSlot) : NodeGraph :=
  { g with
    node := invalidateDownstream (edgesOf g.connections) target g.node
    connections :=
      g.connections.filter (fun c => !(c.targetInput == target && c.slot == slot)) }

/-- Modelled from the spec: `getAllUpstreamNodes` (section 4.1 and the
fixture of section 8; `nodebase.cpp` is not part of the sources): the
enumeration of the back input, then the enumeration of the front input, then
the node itself. The first argument bounds the depth of the recursion;
`none` means the bound was reached. -/
def getAllUpstreamNodes (connections : List Connection) : Nat → Nat → Option (List Nat)
  | 0, _ => none
  | fuel + 1, node =>
    (match upstreamNode connections node InputSlot.back with
      | some b => getAllUpstreamNodes connections fuel b
      | none => some []).bind fun back =>
    (match upstreamNode connections node InputSlot.front with
      | some f => getAllUpstreamNodes connections fuel f
      | none => some []).bind fun front =>
    some (back ++ front ++ [node])

/-- The number of edges whose target reaches `node`: it drops along every
step to an upstream node of an acyclic graph. -/
def upstreamWeight (es : List (Nat × Nat)) (node : Nat) : Nat :=
  (es.filter (fun e => reaches es e.2 node)).length

/-- Step 4 of `resolve`: the node is clean. -/
def clearNeedsUpdate (node : Nat) (w : World F) : World F :=
  { w with nodes := Function.update w.nodes node { w.nodes node with needsUpdate := false } }

/-- Modelled from the spec: `resolve(node)` (section 4.2; the render manager
is not part of the sources). A clean node with a cached image is a memo hit;
otherwise the back ancestor is resolved; a node whose type needs a back input
and has no back image flushes its cache and returns empty, whatever its front
input is connected to (section 4.2: a missing required back input "yields a
`flushCache` rather than an error"; section 3: such a node "cannot be
rendered"); otherwise the front ancestor is resolved, the node is dispatched
(`processReadNode` for a read node, `processNode` with the images of the
ancestors otherwise) and marked clean. The type of a node is a constant of
the node (`const NodeType nodeType` in `nodebase.h`), so it is read once, on
entry. The result is the new world and the cached image of the node, if any;
the first argument bounds the depth of the recursion. -/
def resolve [Zero F] [One F] [Add F] (env : Env F) (generative : NodeType → Bool)
    (targetSize : Nat → QSize) (connections : List Connection) :
    Nat → Nat → World F → Option (World F × Option Nat)
  | 0, _, _ => none
  | fuel + 1, node, w =>
    if (w.nodes node).needsUpdate = false ∧ (w.nodes node).cachedImage ≠ none then
      some (w, (w.nodes node).cachedImage)
    else
      (match upstreamNode connections node InputSlot.back with
        | some b => resolve env generative targetSize connections fuel b w
        | none => some (w, none)).bind fun rb =>
      if generative (w.nodes node).nodeType = false ∧ rb.2 = none then
        some (flushCache node rb.1, none)
      else
        (match upstreamNode connections node InputSlot.front with
          | some f => resolve env generative targetSize connections fuel f rb.1
          | none => some (rb.1, none)).bind fun rf =>
        (if (w.nodes node).nodeType = NodeType.read then processReadNode env node rf.1
          else processNode env node rb.2 rf.2 (targetSize node) rf.1).bind fun w2 =>
        some (clearNeedsUpdate node w2, ((clearNeedsUpdate node w2).nodes node).cachedImage)

/-- The fixture of section 8: nodes A = 0, B = 1, C = 2, D = 3 with A → B
(back), A → C (front), B → D (back), C → D (front). -/
def diamondConnections : List Connection :=
  [{ sourceOutput := 0, targetInput := 1, slot := InputSlot.back },
   { sourceOutput := 0, targetInput := 2, slot := InputSlot.front },
   { sourceOutput := 1, targetInput := 3, slot := InputSlot.back },
   { sourceOutput := 2, targetInput := 3, slot := InputSlot.front }]

/-- A graph of four clean nodes wired as the fixture. -/
def diamondGraph : NodeGraph where
  nodes := [0, 1, 2, 3]
  node := fun _ =>
    { nodeType := NodeType.other 1, needsUpdate := false, cachedImage := some 1 }
  connections := diamondConnections

end Resolution

section ResolutionSamples

/-- In the sample scene only the read node needs no back input. -/
def sampleGenerative : NodeType → Bool :=
  fun t => decide (t = NodeType.read)

/-- Every node of the sample scene renders at one by one pixel. -/
def sampleTargetSize : Nat → QSize :=
  fun _ => ⟨1, 1⟩

/-- The read node 5 feeds both inputs of the single-pass node 1. -/
def sampleConnections : List Connection :=
  [{ sourceOutput := 5, targetInput := 1, slot := InputSlot.back },
   { sourceOutput := 5, targetInput := 1, slot := InputSlot.front }]

/-- The graph of the nodes 1 and 5 of the sample scene. -/
def sampleRenderGraph : NodeGraph where
  nodes := [1, 5]
  node := sampleWorld.nodes
  connections := sampleConnections

/-- The sample scene after the back input of node 1 was disconnected. -/
def disconnectedWorld : World Int :=
  { sampleWorld with nodes := (disconnect sampleRenderGraph 1 InputSlot.back).node }

end ResolutionSamples

/-! ## The descriptor writes of `updateComputeDescriptors` -/

/-- What a `vk::WriteDescriptorSet` points to: the view of an image
(`pImageInfo`) or the settings buffer (`pBufferInfo`). -/
inductive DescriptorResource where
  | imageView (image : Nat)
  | settingsBuffer
  deriving DecidableEq, Repr

inductive DescriptorType where
  | storageImage
  | uniformBuffer
  deriving DecidableEq, Repr

/-- One entry of the vector `descWrite`. -/
structure WriteDescriptorSet where
  dstBinding : Nat
  descriptorCount : Nat
  descriptorType : DescriptorType
  resource : DescriptorResource
  deriving DecidableEq, Repr

/-- The vector `descWrite` that `updateComputeDescriptors` hands to
`device.updateDescriptorSets`; `none` where `inputImageBack` or `outputImage`
is null and dereferenced. -/
def descWrite (inputImageBack inputImageFront outputImage : Option Nat) :
    Option (List WriteDescriptorSet) :=
  match inputImageBack, outputImage with
  | some back, some out =>
    let sourceInfoBack := DescriptorResource.imageView back
    let sourceInfoFront :=
      match inputImageFront with
      | some f => DescriptorResource.imageView f
      | none => DescriptorResource.imageView back
    let destinationInfo := DescriptorResource.imageView out
    let settingsBufferInfo := DescriptorResource.settingsBuffer
    some
      [{ dstBinding := 0, descriptorCount := 1,
         descriptorType := DescriptorType.storageImage, resource := sourceInfoBack },
       { dstBinding := 1, descriptorCount := 1,
         descriptorType := DescriptorType.storageImage, resource := sourceInfoFront },
       { dstBinding := 2, descriptorCount := 1,
         descriptorType := DescriptorType.storageImage, resource := destinationInfo },
       { dstBinding := 3, descriptorCount := 1,
         descriptorType := DescriptorType.uniformBuffer, resource := settingsBufferInfo }]
  | _, _ => none

/-- The resource a list of descriptor writes leaves at a binding: that of the
last write to it. -/
def boundAt (writes : List WriteDescriptorSet) (binding : Nat) : Option DescriptorResource :=
  (writes.reverse.find? (fun d => d.dstBinding == binding)).map (fun d => d.resource)

/-- The scene of `sampleEnv` on a device that reports a row pitch of
`2 ^ 33 + 16` bytes. -/
def hugePitchEnv : Env Int :=
  { sampleEnv with rowPitch := fun _ => 8589934608 }

/-- The scene of `sampleEnv` on a device that reports a row pitch of 32
bytes. -/
def paddedPitchEnv : Env Int :=
  { sampleEnv with rowPitch := fun _ => 32 }

/-! ## The entities of the properties panel -/

/-- The check boxes of a `ChannelSelectEntity` (`isChecked()` of `redBox`,
`greenBox`, `blueBox` and `alphaBox`). -/
structure ChannelSelectEntity where
  redBox : Bool
  greenBox : Bool
  blueBox : Bool
  alphaBox : Bool
  deriving DecidableEq, Repr

/-- `QString::number(b)` for a `bool`, which converts to the `int` 0 or 1. -/
def qNumberOfBool (b : Bool) : String :=
  if b then "1" else "0"

/-- `ChannelSelectEntity::getValuesAsString`. -/
def ChannelSelectEntity.getValuesAsString (e : ChannelSelectEntity) : String :=
  qNumberOfBool e.redBox ++ "," ++
  qNumberOfBool e.greenBox ++ "," ++
  qNumberOfBool e.blueBox ++ "," ++
  qNumberOfBool e.alphaBox

/-- The call `boxes[i]->setCheckState(...)` on the vector `{redBox, greenBox,
blueBox, alphaBox}`; `none` for an index outside the vector. -/
def ChannelSelectEntity.setCheckState (e : ChannelSelectEntity) (i : Nat) (checked : Bool) :
    Option ChannelSelectEntity :=
  match i with
  | 0 => some { e with redBox := checked }
  | 1 => some { e with greenBox := checked }
  | 2 => some { e with blueBox := checked }
  | 3 => some { e with alphaBox := checked }
  | _ => none

/-- The loop of `loadPropertyValues` from index `i` on. -/
def ChannelSelectEntity.loadFrom :
    List String → Nat → ChannelSelectEntity → Option ChannelSelectEntity
  | [], _, e => some e
  | field :: rest, i, e =>
    (e.setCheckState i (decide (qToInt field = 1))).bind
      (ChannelSelectEntity.loadFrom rest (i + 1))

/-- `ChannelSelectEntity::loadPropertyValues`: box `i` is checked when field
`i` of the string reads 1 and unchecked otherwise. -/
def ChannelSelectEntity.loadPropertyValues (values : String) (e : ChannelSelectEntity) :
    Option ChannelSelectEntity :=
  ChannelSelectEntity.loadFrom (qSplit values) 0 e

/-- The enumerators of `UIElementType` that the constructor of
`NodeProperties` tells apart (`nodedefinitions.h` is not part of the
sources); any other enumerator is `other n`. -/
inductive UIElementType where
  | UI_ELEMENT_TYPE_PROPERTIES_HEADING
  | UI_ELEMENT_TYPE_SPINBOX
  | UI_ELEMENT_TYPE_FILEBOX
  | UI_ELEMENT_TYPE_COLOR_BUTTON
  | UI_ELEMENT_TYPE_WRITE_PROPERTIES
  | UI_ELEMENT_TYPE_COMBOBOX
  | UI_ELEMENT_TYPE_CHANNEL_SELECT
  | UI_ELEMENT_TYPE_SLIDER_BOX_DOUBLE
  | UI_ELEMENT_TYPE_SLIDER_BOX_INT
  | UI_ELEMENT_TYPE_COLOR_PROPERTIES
  | UI_ELEMENT_TYPE_SIZEBOX
  | UI_ELEMENT_TYPE_TEXTBOX
  | UI_ELEMENT_TYPE_CHECKBOX
  | UI_ELEMENT_TYPE_TEXTBROWSER
  | UI_ELEMENT_TYPE_SEPARATOR
  | UI_ELEMENT_TYPE_LINEEDIT
  | UI_ELEMENT_TYPE_FOLDERBOX
  | UI_ELEMENT_TYPE_RESIZE_PROPERTIES
  | UI_ELEMENT_TYPE_CODE_EDITOR
  | other (n : Nat)
  deriving DecidableEq, Repr

/-- An entry of the vector `widgets` of `NodeProperties`: the element type
the entity was constructed with and the element of `uiElements` it was built
for. -/
structure Widget where
  elementType : UIElementType
  element : UIElementType × String
  deriving DecidableEq, Repr

/-- The accesses `parts.at(0) .. parts.at(n - 1)` (and `parts[i]`) on the
fields of an element string: a fault when there are fewer than `n` fields. -/
def fieldsAt (settings : String) (n : Nat) : Option Unit :=
  if n ≤ (qSplit settings).length then some () else none

/-- One round of the loop `foreach (auto& elem, initProps.uiElements)` of the
constructor of `NodeProperties`, as far as the vector `widgets` goes: a
heading is added to the layout only, every other known element is appended
to `widgets`. -/
def addElement (widgets : List Widget) (elem : UIElementType × String) :
    Option (List Widget) :=
  match elem.1 with
  | .UI_ELEMENT_TYPE_PROPERTIES_HEADING => some widgets
  | .UI_ELEMENT_TYPE_SPINBOX =>
    (fieldsAt elem.2 5).map fun _ => widgets ++ [⟨.UI_ELEMENT_TYPE_SPINBOX, elem⟩]
  | .UI_ELEMENT_TYPE_FILEBOX => some (widgets ++ [⟨.UI_ELEMENT_TYPE_FILEBOX, elem⟩])
  | .UI_ELEMENT_TYPE_COLOR_BUTTON =>
    (fieldsAt elem.2 5).map fun _ => widgets ++ [⟨.UI_ELEMENT_TYPE_COLOR_BUTTON, elem⟩]
  | .UI_ELEMENT_TYPE_WRITE_PROPERTIES =>
    some (widgets ++ [⟨.UI_ELEMENT_TYPE_WRITE_PROPERTIES, elem⟩])
  | .UI_ELEMENT_TYPE_COMBOBOX =>
    (fieldsAt elem.2 1).map fun _ => widgets ++ [⟨.UI_ELEMENT_TYPE_COMBOBOX, elem⟩]
  | .UI_ELEMENT_TYPE_CHANNEL_SELECT =>
    (fieldsAt elem.2 1).map fun _ => widgets ++ [⟨.UI_ELEMENT_TYPE_CHANNEL_SELECT, elem⟩]
  | .UI_ELEMENT_TYPE_SLIDER_BOX_DOUBLE =>
    (fieldsAt elem.2 5).map fun _ => widgets ++ [⟨.UI_ELEMENT_TYPE_SLIDER_BOX_DOUBLE, elem⟩]
  | .UI_ELEMENT_TYPE_SLIDER_BOX_INT =>
    (fieldsAt elem.2 5).map fun _ => widgets ++ [⟨.UI_ELEMENT_TYPE_SLIDER_BOX_INT, elem⟩]
  | .UI_ELEMENT_TYPE_COLOR_PROPERTIES =>
    some (widgets ++ [⟨.UI_ELEMENT_TYPE_COLOR_PROPERTIES, elem⟩])
  | .UI_ELEMENT_TYPE_SIZEBOX => some (widgets ++ [⟨.UI_ELEMENT_TYPE_SIZEBOX, elem⟩])
  | .UI_ELEMENT_TYPE_TEXTBOX => some (widgets ++ [⟨.UI_ELEMENT_TYPE_TEXTBOX, elem⟩])
  | .UI_ELEMENT_TYPE_CHECKBOX =>
    (fieldsAt elem.2 2).map fun _ => widgets ++ [⟨.UI_ELEMENT_TYPE_CHECKBOX, elem⟩]
  | .UI_ELEMENT_TYPE_TEXTBROWSER => some (widgets ++ [⟨.UI_ELEMENT_TYPE_TEXTBOX, elem⟩])
  | .UI_ELEMENT_TYPE_SEPARATOR => some (widgets ++ [⟨.UI_ELEMENT_TYPE_SEPARATOR, elem⟩])
  | .UI_ELEMENT_TYPE_LINEEDIT =>
    (fieldsAt elem.2 2).map fun _ => widgets ++ [⟨.UI_ELEMENT_TYPE_LINEEDIT, elem⟩]
  | .UI_ELEMENT_TYPE_FOLDERBOX => some (widgets ++ [⟨.UI_ELEMENT_TYPE_FOLDERBOX, elem⟩])
  | .UI_ELEMENT_TYPE_RESIZE_PROPERTIES =>
    some (widgets ++ [⟨.UI_ELEMENT_TYPE_SIZEBOX, elem⟩])
  | .UI_ELEMENT_TYPE_CODE_EDITOR => some (widgets ++ [⟨.UI_ELEMENT_TYPE_CODE_EDITOR, elem⟩])
  | .other _ => some widgets

/-- The vector `widgets` the constructor of `NodeProperties` builds from
`initProps.uiElements`. -/
def buildWidgets (uiElements : List (UIElementType × String)) : Option (List Widget) :=
  uiElements.foldlM addElement []

/-- Whether the constructor appends a widget for an element: every known
element that is not a heading. -/
def bearsValue (elem : UIElementType × String) : Bool :=
  match elem.1 with
  | UIElementType.UI_ELEMENT_TYPE_PROPERTIES_HEADING => false
  | UIElementType.other _ => false
  | _ => true

/-- A `QMap<int, QString>`: the insertions, latest first; an insertion under
a key already present replaces the value. -/
structure QMap where
  entries : List (Int × String)
  deriving DecidableEq, Repr

/-- `QMap::size`: the number of keys. -/
def QMap.size (m : QMap) : Nat :=
  (m.entries.map Prod.fst).dedup.length

/-- The value stored under a key, if any. -/
def QMap.lookup (m : QMap) (key : Int) : Option String :=
  (m.entries.find? (fun e => e.1 == key)).map Prod.snd

/-- `operator[]` on a `const QMap`: the value stored under the key, or a
default-constructed (empty) string. -/
def QMap.value (m : QMap) (key : Int) : String :=
  (m.lookup key).getD ""

/-- The loop of `loadNodePropertyValues` with `n` rounds left at index `i`:
the calls `widgets[i]->loadPropertyValues(values[i])`, as pairs of widget
index and string; `none` where `widgets[i]` is outside the vector. -/
def loadNodePropertyValuesFrom (widgets : List Widget) (values : QMap) :
    Nat → Nat → Option (List (Nat × String))
  | 0, _ => some []
  | n + 1, i =>
    (widgets[i]?).bind fun _ =>
      (loadNodePropertyValuesFrom widgets values n (i + 1)).map
        (fun calls => (i, values.value (i : Int)) :: calls)

/-- `NodeProperties::loadNodePropertyValues`. -/
def loadNodePropertyValues (widgets : List Widget) (values : QMap) :
    Option (List (Nat × String)) :=
  loadNodePropertyValuesFrom widgets values values.size 0

/-- The elements of a node type with a heading, a channel select, a separator
and a check box. -/
def sampleUiElements : List (UIElementType × String) :=
  [(UIElementType.UI_ELEMENT_TYPE_PROPERTIES_HEADING, "Channels"),
   (UIElementType.UI_ELEMENT_TYPE_CHANNEL_SELECT, "0"),
   (UIElementType.UI_ELEMENT_TYPE_SEPARATOR, ""),
   (UIElementType.UI_ELEMENT_TYPE_CHECKBOX, "Invert,0")]

/-- Stored values for the first two widgets of `sampleUiElements`. -/
def sampleValues : QMap :=
  { entries := [(1, ""), (0, "1,0,1,1")] }

/-- The sample scene with the property string of a read node without file
entries: current row -1, colour space 0. -/
def emptyReadWorld : World Int :=
  { sampleWorld with
    nodes := fun _ => { nodeType := NodeType.read, allPropertyValues := "-1,0" } }

/-- The sample scene with a read node whose current index points past its
one file entry. -/
def staleIndexWorld : World Int :=
  { sampleWorld with
    nodes := fun _ => { nodeType := NodeType.read, allPropertyValues := "a.exr,7,0" } }

/-! ## The project manager (`projectmanager.cpp`) -/

section Project

variable {α β : Type}

/-- A `QJsonValue`, as far as the project file goes; the entries of the
node-graph array are of a type `α` that is left open. -/
inductive QJsonValue (α : Type) where
  | undefined
  | string (s : String)
  | array (items : List α)
  deriving DecidableEq, Repr

/-- `QJsonValue::toArray`: the array, or an empty array for any other
value. -/
def QJsonValue.toArray : QJsonValue α → List α
  | QJsonValue.array items => items
  | _ => []

/-- A `QJsonObject`: its members, key and value. -/
structure QJsonObject (α : Type) where
  members : List (String × QJsonValue α)
  deriving DecidableEq, Repr

/-- `QJsonObject::value(key)`: the value of the member, or undefined. -/
def QJsonObject.value (o : QJsonObject α) (key : String) : QJsonValue α :=
  match o.members.find? (fun m => m.1 == key) with
  | some m => m.2
  | none => QJsonValue.undefined

/-- What the project manager takes from outside: the node graph as JSON
(`NodeGraph::getNodeGraphAsJson`), the version string built from the macros
of `cascade-version.h`, the JSON writer and reader of Qt over file contents
of type `β` (`QJsonDocument::toJson`, and `QJsonDocument::fromJson` followed
by `object()`), what `readAll` yields on a file that is not open, and
whether a file can be opened for writing. -/
structure ProjectEnv (α β : Type) where
  getNodeGraphAsJson : List α
  version : String
  toJson : QJsonObject α → β
  fromJson : β → QJsonObject α
  emptyData : β
  writable : String → Bool

/-- What the user answers: whether the discard prompt is closed with Yes,
and the files of the file dialog when it is accepted. -/
structure Dialogs where
  discardChanges : Bool
  selectedFiles : Option (List String)
  deriving DecidableEq, Repr

/-- What the project manager shows, emits and writes, in program order. -/
inductive ProjectSignal (α : Type) where
  | discardPrompt
  | openDialog
  | saveDialog
  | requestCreateNewProject
  | requestLoadProject (jsonNodeGraph : List α)
  | write (path : String) (ok : Bool)
  deriving DecidableEq, Repr

/-- The project manager with its title signals (`ui`), the member `project`,
the files on disk and the log of what it did. -/
structure ProjectState (α β : Type) where
  ui : Ui
  project : QJsonObject α
  disk : String → Option β
  signals : List (ProjectSignal α)

def ProjectState.emit (s : ProjectState α β) (signal : ProjectSignal α) : ProjectState α β :=
  { s with signals := s.signals ++ [signal] }

/-- The fields of a string between occurrences of a separator. -/
def splitOnChar (sep : Char) : List Char → List (List Char)
  | [] => [[]]
  | c :: cs =>
    if c = sep then [] :: splitOnChar sep cs
    else
      match splitOnChar sep cs with
      | [] => [[c]]
      | field :: fields => (c :: field) :: fields

/-- The expression `path.split("/").last()`. -/
def lastPathComponent (path : String) : String :=
  ((splitOnChar '/' path.data).map String.mk).getLastD ""

/-- `ProjectManager::checkIfDiscardChanges`. -/
def checkIfDiscardChanges (dialogs : Dialogs) (s : ProjectState α β) :
    Bool × ProjectState α β :=
  if s.ui.projectManager.projectIsDirty then
    let s := s.emit ProjectSignal.discardPrompt
    if dialogs.discardChanges then (true, s) else (false, s)
  else
    (false, s)

/-- `ProjectManager::createNewProject`. -/
def createNewProject (dialogs : Dialogs) (s : ProjectState α β) : ProjectState α β :=
  let (discard, s) := checkIfDiscardChanges dialogs s
  if discard then s.emit ProjectSignal.requestCreateNewProject else s

/-- `ProjectManager::getJsonFromNodeGraph`. -/
def getJsonFromNodeGraph (env : ProjectEnv α β) : QJsonObject α :=
  { members :=
      [("nodegraph", QJsonValue.array env.getNodeGraphAsJson),
       ("cascade-version", QJsonValue.string env.version)] }

/-- `ProjectManager::writeJsonToDisk`: a file that does not exist yet is
only warned about; the file is opened for writing and, when that succeeds,
takes the JSON text. -/
def writeJsonToDisk (env : ProjectEnv α β) (project : QJsonObject α) (path : String)
    (s : ProjectState α β) : ProjectState α β :=
  if env.writable path then
    { s with
      disk := Function.update s.disk path (some (env.toJson project))
      signals := s.signals ++ [ProjectSignal.write path true] }
  else
    s.emit (ProjectSignal.write path false)

/-- `ProjectManager::loadProject`; `none` where `files.first()` is taken of
an empty list. -/
def loadProject (env : ProjectEnv α β) (dialogs : Dialogs) (s : ProjectState α β) :
    Option (ProjectState α β) :=
  let (discard, s) := checkIfDiscardChanges dialogs s
  if discard || !s.ui.projectManager.projectIsDirty then
    let s := s.emit ProjectSignal.openDialog
    match dialogs.selectedFiles with
    | some files =>
      match files.head? with
      | some first =>
        let projectData :=
          match s.disk first with
          | some data => data
          | none => env.emptyData
        let jsonProject := env.fromJson projectData
        let jsonNodeGraph := (jsonProject.value "nodegraph").toArray
        let s := s.emit (ProjectSignal.requestLoadProject jsonNodeGraph)
        some { s with
          ui := updateProjectName
            { s.ui with
              projectManager :=
                { currentProjectPath := first
                  currentProject := lastPathComponent first
                  projectIsDirty := false } } }
      | none => none
    | none => some s
  else
    some s

/-- `ProjectManager::saveProjectAs`; `none` where `list[0]` is taken of an
empty list. -/
def saveProjectAs (env : ProjectEnv α β) (dialogs : Dialogs) (s : ProjectState α β) :
    Option (ProjectState α β) :=
  let s := s.emit ProjectSignal.saveDialog
  match dialogs.selectedFiles with
  | some list =>
    match list.head? with
    | some f =>
      if f = "" then some s
      else
        let s := { s with project := getJsonFromNodeGraph env }
        let s := writeJsonToDisk env s.project f s
        some { s with
          ui := updateProjectName
            { s.ui with
              projectManager :=
                { currentProjectPath := f
                  currentProject := lastPathComponent f
                  projectIsDirty := false } } }
    | none => none
  | none => some s

/-- `ProjectManager::saveProject`. -/
def saveProject (env : ProjectEnv α β) (dialogs : Dialogs) (s : ProjectState α β) :
    Option (ProjectState α β) :=
  if s.ui.projectManager.projectIsDirty = true ∧ s.ui.projectManager.currentProjectPath ≠ ""
      ∧ s.ui.projectManager.currentProject ≠ "" then
    let s := { s with project := getJsonFromNodeGraph env }
    let s := writeJsonToDisk env s.project s.ui.projectManager.currentProjectPath s
    some { s with
      ui := updateProjectName
        { s.ui with projectManager := { s.ui.projectManager with projectIsDirty := false } } }
  else if s.ui.projectManager.currentProject = "" then
    saveProjectAs env dialogs s
  else
    some s

/-- The arrays handed to `requestLoadProject` in a log. -/
def loadRequests : List (ProjectSignal α) → List (List α)
  | [] => []
  | ProjectSignal.requestLoadProject jsonNodeGraph :: rest => jsonNodeGraph :: loadRequests rest
  | _ :: rest => loadRequests rest

/-- A project environment whose file contents are the JSON objects
themselves, with a graph of three nodes. -/
def sampleProjectEnv : ProjectEnv Nat (QJsonObject Nat) where
  getNodeGraphAsJson := [3, 1, 2]
  version := "0.2.4"
  toJson := fun o => o
  fromJson := fun o => o
  emptyData := { members := [] }
  writable := fun _ => true

/-- The project `shot.csc`, saved, on an empty disk. -/
def sampleProject : ProjectState Nat (QJsonObject Nat) where
  ui := sampleUi
  project := { members := [] }
  disk := fun _ => none
  signals := []

/-- The project `shot.csc` with unsaved changes. -/
def dirtyProject : ProjectState Nat (QJsonObject Nat) :=
  { sampleProject with ui := handleProjectIsDirty sampleUi }

end Project

/-! ## Theorems -/

section Theorems

variable {F : Type}

theorem incrementLast_append_singleton [One F] [Add F] (l : List F) (x : F) :
    incrementLast (l ++ [x]) = l ++ [x + 1] := by
  induction l with
  | nil => rfl
  | cons a l ih =>
    cases l with
    | nil => rfl
    | cons b l => simpa [incrementLast] using ih

theorem dispatches_append (a b : List (Event F)) :
    dispatches (a ++ b) = dispatches a ++ dispatches b := by
  induction a with
  | nil => rfl
  | cons e a ih => cases e <;> simp [dispatches, ih]

theorem cacheWrites_append (a b : List (Event F)) :
    cacheWrites (a ++ b) = cacheWrites a ++ cacheWrites b := by
  induction a with
  | nil => rfl
  | cons e a ih => cases e <;> simp [cacheWrites, ih]

theorem passOutput_lt (first next k : Nat) (h : first < next) :
    passOutput first next k < next + k := by
  cases k with
  | zero => simpa [passOutput] using h
  | succ k => simp [passOutput]

theorem multiPassStep_next [Zero F] [One F] [Add F] (env : Env F) (node : Nat)
    (back : Nat) (front : Option Nat) (targetSize : QSize) (pipeline : Pipeline)
    (P : Int) (base : List F) (first next : Nat) (w0 : World F) (backPx : Nat → F)
    (hfirst : first < next) (k : Nat) (s : Int × World F)
    (h : PassInv node targetSize (passDispatch back front first next pipeline P base)
      (kernelOf env pipeline) backPx (front.map (fun f => (w0.heap f).memory)) first next w0 k s)
    (hP : (k : Int) + 2 ≤ P) :
    ∃ s1, multiPassStep env node back front targetSize pipeline P s = some s1 ∧
      PassInv node targetSize (passDispatch back front first next pipeline P base)
        (kernelOf env pipeline) backPx (front.map (fun f => (w0.heap f).memory)) first next w0
        (k + 1) s1 := by
  obtain ⟨c, w⟩ := s
  obtain ⟨hc, hev, hset, hnext, htar, hnodes, hpx, hold⟩ := h
  simp only at hc hev hset hnext htar hnodes hpx hold
  subst hc
  have h1 : ¬ ((k : Int) + 2 = 1) := by omega
  have hcache : (w.nodes node).cachedImage = some (passOutput first next k) := by
    rw [hnodes]; simp
  have hlt := passOutput_lt first next k hfirst
  have hne : passOutput first next k ≠ next + k := Nat.ne_of_lt hlt
  simp only [multiPassStep, h1, hP, if_true, if_false, bind, Option.bind, incrementLastValue,
    createComputeRenderTarget, newCsImage, getCachedImage, updateComputeDescriptors,
    recordGeneric, submitGeneric, runKernel, waitIdle, World.log,
    setCachedImageFromRenderTarget, pure, hcache]
  have hsettings : incrementLast w.settingsBuffer =
      (passDispatch back front first next pipeline P base (k + 1)).settings := by
    rw [hset]
    simp [passDispatch, passIndex, incrementLast_append_singleton]
  have hout : passOutput first next (k + 1) = w.nextId := by
    simp [passOutput, hnext]
  have hreadBack : (Function.update w.heap w.nextId
      ({ width := toUInt32 targetSize.width, height := toUInt32 targetSize.height,
         isLinear := false, name := "Compute Render Target",
         memory := env.uninitialised w.nextId } : CsImage F)
      (passOutput first next k)) = w.heap (passOutput first next k) := by
    rw [Function.update_noteq]
    rw [hnext]; exact hne
  refine ⟨_, rfl, ?_⟩
  refine ⟨?_, ?_, ?_, ?_, ?_, ?_, ?_, ?_⟩
  · simp only []; push_cast; ring
  · simp only []
    rw [hev, passesEvents.eq_2 node targetSize _ (k + 1), passEvents]
    simp [passDispatch, passBackInput, passOutput, Dispatch.command, Dispatch.binding1,
      hnext, hset, incrementLast_append_singleton, passIndex]
    ring
  · exact hsettings
  · show w.nextId + 1 = next + (k + 1)
    omega
  · rfl
  · simp only []
    rw [hnodes, hout]
    simp
  · intro hfront
    replace hfront : ∀ f, front = some f → f < first := hfront
    specialize hpx hfront
    simp only []
    rw [hout, Function.update_same]
    rw [accumulation.eq_2, ← hpx]
    simp only [kernelOf]
    rw [hreadBack, hsettings]
    cases front with
    | none => simp only [Option.map_none']; rw [hreadBack]
    | some f =>
      have hf := hfront f rfl
      have hfne : f ≠ w.nextId := by omega
      simp only [Option.map_some']
      rw [Function.update_noteq hfne, hold f hf]
  · intro i hi
    simp only []
    have hine : i ≠ w.nextId := by omega
    rw [Function.update_noteq hine, Function.update_noteq hine]
    exact hold i hi

theorem processNodeSetup_spec [Zero F] [One F] [Add F] (env : Env F) (node : Nat)
    (back front : Option Nat) (targetSize : QSize) (w : World F) :
    (processNodeSetup env node back front targetSize w).1 = effectiveBack back w.nextId ∧
    (processNodeSetup env node back front targetSize w).2.events =
      w.events ++ setupEvents (w.nodes node).allPropertyValues back front targetSize w.nextId ∧
    (processNodeSetup env node back front targetSize w).2.settingsBuffer =
      env.fillBuffer (w.nodes node).allPropertyValues ++ [maskFlag front] ∧
    (processNodeSetup env node back front targetSize w).2.computeRenderTarget = some w.nextId ∧
    (processNodeSetup env node back front targetSize w).2.nextId = nextAfterSetup back w.nextId ∧
    (processNodeSetup env node back front targetSize w).2.nodes = w.nodes ∧
    (∀ i, i < w.nextId →
      (processNodeSetup env node back front targetSize w).2.heap i = w.heap i) ∧
    (back = none →
      ((processNodeSetup env node back front targetSize w).2.heap (w.nextId + 1)).memory
        = env.uninitialised (w.nextId + 1)) := by
  cases back <;> cases front <;>
    simp [processNodeSetup, waitIdle, World.log, fillSettingsBuffer, createComputeRenderTarget,
      newCsImage, appendValue, incrementLastValue, incrementLast_append_singleton,
      effectiveBack, setupEvents, maskFlag, nextAfterSetup] <;>
    intro i hi <;>
    simp [Function.update_noteq (Nat.ne_of_lt hi),
      Function.update_noteq (Nat.ne_of_lt (Nat.lt_succ_of_lt hi))]

theorem selectPipeline_spec (node : Nat) (w : World F) :
    (selectPipeline node w).2.events = w.events ∧
    (selectPipeline node w).2.settingsBuffer = w.settingsBuffer ∧
    (selectPipeline node w).2.computeRenderTarget = w.computeRenderTarget ∧
    (selectPipeline node w).2.nextId = w.nextId ∧
    (selectPipeline node w).2.nodes = w.nodes ∧
    (selectPipeline node w).2.heap = w.heap := by
  simp only [selectPipeline]
  split_ifs <;> simp

theorem multiPassStep_first [Zero F] [One F] [Add F] (env : Env F) (node : Nat)
    (back : Nat) (front : Option Nat) (targetSize : QSize) (pipeline : Pipeline)
    (P : Int) (first : Nat) (w0 : World F)
    (htarget : w0.computeRenderTarget = some first) :
    ∃ s1, multiPassStep env node back front targetSize pipeline P (1, w0) = some s1 ∧
      PassInv node targetSize
        (passDispatch back front first w0.nextId pipeline P w0.settingsBuffer)
        (kernelOf env pipeline) (w0.heap back).memory
        (front.map (fun f => (w0.heap f).memory)) first w0.nextId w0 0 s1 := by
  simp only [multiPassStep, if_true, bind, Option.bind, appendValue,
    updateComputeDescriptors, recordGeneric, submitGeneric, runKernel, waitIdle, World.log,
    setCachedImageFromRenderTarget, pure, htarget]
  refine ⟨_, rfl, ?_⟩
  refine ⟨?_, ?_, ?_, ?_, ?_, ?_, ?_, ?_⟩
  · rfl
  · simp [passesEvents, passEvents, passDispatch, passBackInput, passOutput,
      Dispatch.command, Dispatch.binding1, passIndex]
  · simp [passDispatch, passIndex]
  · rfl
  · rfl
  · rfl
  · intro _
    simp only [passOutput, Function.update_same, accumulation, kernelOf, passDispatch,
      passIndex]
    cases front <;> rfl
  · intro i hi
    simp only []
    rw [Function.update_noteq (Nat.ne_of_lt hi)]

theorem multiPassLoop_inv [Zero F] [One F] [Add F] (env : Env F) (node : Nat)
    (back : Nat) (front : Option Nat) (targetSize : QSize) (pipeline : Pipeline)
    (P : Int) (base : List F) (first next : Nat) (w0 : World F) (backPx : Nat → F)
    (hfirst : first < next) (n : Nat) : ∀ (k : Nat) (s : Int × World F),
      PassInv node targetSize (passDispatch back front first next pipeline P base)
        (kernelOf env pipeline) backPx (front.map (fun f => (w0.heap f).memory))
        first next w0 k s →
      (k : Int) + 1 + n ≤ P →
      ∃ s1, multiPassLoop env node back front targetSize pipeline P n s = some s1 ∧
        PassInv node targetSize (passDispatch back front first next pipeline P base)
          (kernelOf env pipeline) backPx (front.map (fun f => (w0.heap f).memory))
          first next w0 (k + n) s1 := by
  induction n with
  | zero =>
    intro k s h _
    exact ⟨s, rfl, h⟩
  | succ n ih =>
    intro k s h hP
    obtain ⟨s1, hs1, hinv1⟩ := multiPassStep_next env node back front targetSize pipeline P
      base first next w0 backPx hfirst k s h (by push_cast at hP; omega)
    obtain ⟨s2, hs2, hinv2⟩ := ih (k + 1) s1 hinv1 (by push_cast at hP ⊢; omega)
    refine ⟨s2, ?_, ?_⟩
    · simp only [multiPassLoop, hs1, Option.bind]
      exact hs2
    · have : k + (n + 1) = k + 1 + n := by omega
      rw [this]
      exact hinv2

theorem selectPipeline_fst_congr (node : Nat) (w w1 : World F) (h : w1.nodes = w.nodes) :
    (selectPipeline node w1).1 = (selectPipeline node w).1 := by
  simp only [selectPipeline, h]
  split_ifs <;> rfl

theorem lt_nextAfterSetup (back : Option Nat) (first : Nat) :
    first < nextAfterSetup back first := by
  cases back <;> simp [nextAfterSetup]

/-- The multi-pass branch of `processNode`, in full: the call returns, and
its events, node arena, render-target slot and device memory are the ones
listed. -/
theorem processNode_multi [Zero F] [One F] [Add F] (env : Env F) (node : Nat)
    (back front : Option Nat) (targetSize : QSize) (w : World F)
    (hP : 2 ≤ numPasses env node w) :
    ∃ w1, processNode env node back front targetSize w = some w1 ∧
      w1.events = w.events
        ++ setupEvents (w.nodes node).allPropertyValues back front targetSize w.nextId
        ++ passesEvents node targetSize (nodeDispatch env node back front w)
            (numPasses env node w).toNat
        ++ [Event.requestUpdate] ∧
      w1.nodes = Function.update w.nodes node
        { w.nodes node with
          cachedImage := some (finalTarget back w (numPasses env node w).toNat) } ∧
      w1.computeRenderTarget = none ∧
      (∀ i, i < w.nextId → w1.heap i = w.heap i) ∧
      ((∀ f, front = some f → f < w.nextId) → (∀ b, back = some b → b < w.nextId) →
        (w1.heap (finalTarget back w (numPasses env node w).toNat)).memory =
          accumulation (kernelOf env (selectPipeline node w).1) (backPixels env back w)
            (front.map (fun f => (w.heap f).memory))
            (fun i => (nodeDispatch env node back front w i).settings)
            (numPasses env node w).toNat) := by
  obtain ⟨hb, hev, hset, htar, hnext, hnodes, hheap, htmp⟩ :=
    processNodeSetup_spec env node back front targetSize w
  rcases hsetup : processNodeSetup env node back front targetSize w with ⟨eb, ws⟩
  rw [hsetup] at hb hev hset htar hnext hnodes hheap htmp
  simp only at hb hev hset htar hnext hnodes hheap htmp
  obtain ⟨pev, pset, ptar, pnext, pnodes, pheap⟩ := selectPipeline_spec node ws
  have hpl := selectPipeline_fst_congr node w ws hnodes
  rcases hsel : selectPipeline node ws with ⟨pl, wp⟩
  rw [hsel] at pev pset ptar pnext pnodes pheap hpl
  simp only at pev pset ptar pnext pnodes pheap hpl
  have hPeq : (env.getPropertiesForType (wp.nodes node).nodeType).numShaderPasses =
      numPasses env node w := by
    simp [numPasses, pnodes, hnodes]
  have hne1 : ¬ (numPasses env node w = 1) := by omega
  obtain ⟨n, hn⟩ : ∃ n, (numPasses env node w).toNat = n + 1 :=
    ⟨(numPasses env node w).toNat - 1, by omega⟩
  have hnP : (n : Int) + 1 = numPasses env node w := by omega
  obtain ⟨s1, hs1, hinv1⟩ := multiPassStep_first env node eb front targetSize pl
    (numPasses env node w) w.nextId wp (by rw [ptar, htar])
  have hfirst : w.nextId < wp.nextId := by
    rw [pnext, hnext]; exact lt_nextAfterSetup back w.nextId
  obtain ⟨s2, hs2, hinv2⟩ := multiPassLoop_inv env node eb front targetSize pl
    (numPasses env node w) wp.settingsBuffer w.nextId wp.nextId wp (wp.heap eb).memory hfirst
    n 0 s1 hinv1 (by push_cast; omega)
  have hmk : passDispatch eb front w.nextId wp.nextId pl (numPasses env node w)
      wp.settingsBuffer = nodeDispatch env node back front w := by
    simp only [nodeDispatch, basePayload, hb, pnext, hnext, hpl, pset, hset]
  rw [hmk] at hinv2
  obtain ⟨-, iev, -, -, itar, inodes, ipx, iold⟩ := hinv2
  refine ⟨requestUpdate s2.2, ?_, ?_, ?_, ?_, ?_, ?_⟩
  · simp only [processNode, hsetup, hsel, hPeq, hne1, if_false, hn, multiPassLoop, hs1,
      bind, Option.bind, hs2, pure]
  · simp only [requestUpdate, World.log, iev, pev, hev, hn, zero_add]
  · simp only [requestUpdate, World.log, inodes, pnodes, hnodes, finalTarget, hn, pnext,
      hnext, zero_add, Nat.add_sub_cancel]
  · exact itar
  · intro i hi
    simp only [requestUpdate, World.log]
    rw [iold i hi, pheap, hheap i hi]
  · intro hfront hback
    have hfrontPx : front.map (fun f => (wp.heap f).memory)
        = front.map (fun f => (w.heap f).memory) := by
      cases front with
      | none => rfl
      | some f => simp [pheap, hheap f (hfront f rfl)]
    have hbackPx : (wp.heap eb).memory = backPixels env back w := by
      cases back with
      | some b => simp [backPixels, pheap, hb, effectiveBack, hheap b (hback b rfl)]
      | none => simp [backPixels, pheap, hb, effectiveBack, htmp rfl]
    simp only [requestUpdate, World.log, finalTarget, hn, Nat.add_sub_cancel]
    rw [← hpl, ← hbackPx, ← hfrontPx, ← pnext.trans hnext]
    simpa using ipx (by simpa [nodeDispatch, passDispatch] using hfront)

/-- The single-pass branch of `processNode`, in full. -/
theorem processNode_single [Zero F] [One F] [Add F] (env : Env F) (node : Nat)
    (back front : Option Nat) (targetSize : QSize) (w : World F)
    (hP : numPasses env node w = 1) :
    ∃ w1, processNode env node back front targetSize w = some w1 ∧
      w1.events = w.events
        ++ setupEvents (w.nodes node).allPropertyValues back front targetSize w.nextId
        ++ singlePassEvents node (singleDispatch env node back front w) ∧
      w1.nodes = Function.update w.nodes node
        { w.nodes node with cachedImage := some w.nextId } ∧
      w1.computeRenderTarget = none ∧
      (∀ i, i < w.nextId → w1.heap i = w.heap i) ∧
      ((∀ f, front = some f → f < w.nextId) → (∀ b, back = some b → b < w.nextId) →
        (w1.heap w.nextId).memory =
          kernelOf env (selectPipeline node w).1 (backPixels env back w)
            (front.map (fun f => (w.heap f).memory)) (basePayload env node front w)) := by
  obtain ⟨hb, hev, hset, htar, hnext, hnodes, hheap, htmp⟩ :=
    processNodeSetup_spec env node back front targetSize w
  rcases hsetup : processNodeSetup env node back front targetSize w with ⟨eb, ws⟩
  rw [hsetup] at hb hev hset htar hnext hnodes hheap htmp
  simp only at hb hev hset htar hnext hnodes hheap htmp
  obtain ⟨pev, pset, ptar, pnext, pnodes, pheap⟩ := selectPipeline_spec node ws
  have hpl := selectPipeline_fst_congr node w ws hnodes
  rcases hsel : selectPipeline node ws with ⟨pl, wp⟩
  rw [hsel] at pev pset ptar pnext pnodes pheap hpl
  simp only at pev pset ptar pnext pnodes pheap hpl
  have hPeq : (env.getPropertiesForType (wp.nodes node).nodeType).numShaderPasses = 1 := by
    rw [← hP]; simp [numPasses, pnodes, hnodes]
  have htar2 : wp.computeRenderTarget = some w.nextId := by rw [ptar, htar]
  simp only [processNode, hsetup, hsel, hPeq, if_true, singlePass, bind, Option.bind,
    updateComputeDescriptors, recordGeneric, submitGeneric, runKernel, waitIdle, World.log,
    requestUpdate, setCachedImageFromRenderTarget, pure, htar2]
  refine ⟨_, rfl, ?_, ?_, rfl, ?_, ?_⟩
  · simp [pev, hev, singlePassEvents, singleDispatch, Dispatch.command, Dispatch.binding1,
      basePayload, hb, hpl, pset, hset]
  · simp only [pnodes, hnodes]
  · intro i hi
    simp only []
    rw [Function.update_noteq (Nat.ne_of_lt hi), pheap, hheap i hi]
  · intro hfront hback
    simp only [Function.update_same, kernelOf, basePayload, pset, hset, hpl, pheap]
    have hbackPx : (ws.heap eb).memory = backPixels env back w := by
      cases back with
      | some b => simp [backPixels, hb, effectiveBack, hheap b (hback b rfl)]
      | none => simp [backPixels, hb, effectiveBack, htmp rfl]
    rw [hbackPx]
    cases front with
    | none => simp [hbackPx]
    | some f => simp [hheap f (hfront f rfl)]

/-! ### Reading the log of one `processNode` call -/

theorem eventsSince_of_append (w w1 : World F) (added : List (Event F))
    (h : w1.events = w.events ++ added) : eventsSince w w1 = added := by
  simp [eventsSince, h]

theorem descriptorWrites_append (a b : List (Event F)) :
    descriptorWrites (a ++ b) = descriptorWrites a ++ descriptorWrites b := by
  induction a with
  | nil => rfl
  | cons e a ih => cases e <;> simp [descriptorWrites, ih]

theorem syncScan_append (a b : List (Event F)) : ∀ pending : Bool,
    syncScan pending (a ++ b) = (syncScan pending a).bind (fun p => syncScan p b) := by
  induction a with
  | nil => intro pending; rfl
  | cons e a ih =>
    intro pending
    cases e <;> cases pending <;>
      simp [syncScan, ih, Event.touchesPassResources]

theorem cacheWritesBeforeDispatch_append (a b : List (Event F)) :
    cacheWritesBeforeDispatch (a ++ b) =
      (if (dispatches b).isEmpty then cacheWritesBeforeDispatch a else cacheWrites a)
        ++ cacheWritesBeforeDispatch b := by
  induction a with
  | nil => simp [cacheWritesBeforeDispatch, cacheWrites]
  | cons e a ih =>
    cases e
    case setCachedImage n image =>
      rw [List.cons_append, cacheWritesBeforeDispatch, ih, dispatches_append]
      by_cases hb : (dispatches b).isEmpty = true
      · have hb2 : dispatches b = [] := List.isEmpty_iff.mp hb
        by_cases ha : (dispatches a).isEmpty = true
        · simp [hb2, ha, cacheWritesBeforeDispatch]
        · simp [hb2, ha, cacheWritesBeforeDispatch]
      · have hab : (dispatches a ++ dispatches b).isEmpty = false := by
          cases hd : dispatches a <;> cases hd2 : dispatches b <;> simp_all
        simp [hb, hab, cacheWrites]
    all_goals simp [cacheWritesBeforeDispatch, cacheWrites, ih]

theorem setupEvents_projections [Zero F] (props : String) (back front : Option Nat)
    (targetSize : QSize) (first : Nat) :
    dispatches (setupEvents props back front targetSize first : List (Event F)) = [] ∧
    descriptorWrites (setupEvents props back front targetSize first : List (Event F)) = [] ∧
    cacheWrites (setupEvents props back front targetSize first : List (Event F)) = [] ∧
    cacheWritesBeforeDispatch
      (setupEvents props back front targetSize first : List (Event F)) = [] ∧
    ∀ pending, syncScan pending
      (setupEvents props back front targetSize first : List (Event F)) = some false := by
  cases back <;> cases front <;>
    refine ⟨rfl, rfl, rfl, rfl, fun pending => ?_⟩ <;> cases pending <;> rfl

theorem passEvents_projections [Zero F] (node : Nat) (targetSize : QSize) (d : Dispatch F)
    (k : Nat) :
    dispatches (passEvents node targetSize d k) = [d] ∧
    descriptorWrites (passEvents node targetSize d k) = [(d.back, d.binding1, d.output)] ∧
    cacheWrites (passEvents node targetSize d k) = [some d.output] ∧
    cacheWritesBeforeDispatch (passEvents node targetSize d k) = [] ∧
    syncScan false (passEvents node targetSize d k) = some false := by
  cases k <;> exact ⟨rfl, rfl, rfl, rfl, rfl⟩

theorem passesEvents_projections [Zero F] (node : Nat) (targetSize : QSize)
    (mk : Nat → Dispatch F) (n : Nat) :
    dispatches (passesEvents node targetSize mk n) = (List.range n).map mk ∧
    descriptorWrites (passesEvents node targetSize mk n) =
      (List.range n).map (fun k => ((mk k).back, (mk k).binding1, (mk k).output)) ∧
    cacheWrites (passesEvents node targetSize mk n) =
      (List.range n).map (fun k => some (mk k).output) ∧
    cacheWritesBeforeDispatch (passesEvents node targetSize mk n) =
      (List.range (n - 1)).map (fun k => some (mk k).output) ∧
    syncScan false (passesEvents node targetSize mk n) = some false := by
  induction n with
  | zero => exact ⟨rfl, rfl, rfl, rfl, rfl⟩
  | succ n ih =>
    obtain ⟨h1, h2, h3, _, h5⟩ := ih
    obtain ⟨p1, p2, p3, p4, p5⟩ := passEvents_projections node targetSize (mk n) n
    refine ⟨?_, ?_, ?_, ?_, ?_⟩
    · simp [passesEvents, dispatches_append, h1, p1, List.range_succ]
    · simp [passesEvents, descriptorWrites_append, h2, p2, List.range_succ]
    · simp [passesEvents, cacheWrites_append, h3, p3, List.range_succ]
    · simp [passesEvents, cacheWritesBeforeDispatch_append, h3, p1, p4]
    · simp [passesEvents, syncScan_append, h5, p5]

/-- The log projections of a multi-pass `processNode` call. -/
theorem processNode_multi_log [Zero F] [One F] [Add F] (env : Env F) (node : Nat)
    (back front : Option Nat) (targetSize : QSize) (w : World F)
    (hP : 2 ≤ numPasses env node w) :
    ∃ w1, processNode env node back front targetSize w = some w1 ∧
      dispatches (eventsSince w w1) =
        (List.range (numPasses env node w).toNat).map (nodeDispatch env node back front w) ∧
      descriptorWrites (eventsSince w w1) =
        (List.range (numPasses env node w).toNat).map (fun k =>
          ((nodeDispatch env node back front w k).back,
            (nodeDispatch env node back front w k).binding1,
            (nodeDispatch env node back front w k).output)) ∧
      cacheWrites (eventsSince w w1) =
        (List.range (numPasses env node w).toNat).map (fun k =>
          some (nodeDispatch env node back front w k).output) ∧
      cacheWritesBeforeDispatch (eventsSince w w1) =
        (List.range ((numPasses env node w).toNat - 1)).map (fun k =>
          some (nodeDispatch env node back front w k).output) ∧
      (∀ pending, syncScan pending (eventsSince w w1) = some false) ∧
      (w1.nodes node).cachedImage =
        some (nodeDispatch env node back front w ((numPasses env node w).toNat - 1)).output
      := by
  obtain ⟨w1, hrun, hev, hnodes, -, -, -⟩ :=
    processNode_multi env node back front targetSize w hP
  obtain ⟨s1, s2, s3, s4, s5⟩ := setupEvents_projections (F := F)
    (w.nodes node).allPropertyValues back front targetSize w.nextId
  obtain ⟨q1, q2, q3, q4, q5⟩ := passesEvents_projections node targetSize
    (nodeDispatch env node back front w) (numPasses env node w).toNat
  have hsince := eventsSince_of_append w w1 _ (by rw [hev, List.append_assoc, List.append_assoc])
  refine ⟨w1, hrun, ?_, ?_, ?_, ?_, ?_, ?_⟩
  · rw [hsince, dispatches_append, dispatches_append, s1, q1]
    simp [dispatches]
  · rw [hsince, descriptorWrites_append, descriptorWrites_append, s2, q2]
    simp [descriptorWrites]
  · rw [hsince, cacheWrites_append, cacheWrites_append, s3, q3]
    simp [cacheWrites]
  · have hne : (numPasses env node w).toNat ≠ 0 := by omega
    rw [hsince, cacheWritesBeforeDispatch_append, cacheWritesBeforeDispatch_append, s3, s4,
      q4, dispatches_append, q1]
    simp [dispatches, cacheWritesBeforeDispatch, hne]
  · intro pending
    rw [hsince, syncScan_append, s5]
    simp only [Option.some_bind]
    rw [syncScan_append, q5]
    rfl
  · rw [hnodes]
    simp [finalTarget, nodeDispatch, passDispatch]

/-- The log projections of a single-pass `processNode` call. -/
theorem processNode_single_log [Zero F] [One F] [Add F] (env : Env F) (node : Nat)
    (back front : Option Nat) (targetSize : QSize) (w : World F)
    (hP : numPasses env node w = 1) :
    ∃ w1, processNode env node back front targetSize w = some w1 ∧
      dispatches (eventsSince w w1) = [singleDispatch env node back front w] ∧
      descriptorWrites (eventsSince w w1) =
        [((singleDispatch env node back front w).back,
          (singleDispatch env node back front w).binding1,
          (singleDispatch env node back front w).output)] ∧
      cacheWrites (eventsSince w w1) = [some w.nextId] ∧
      (∀ pending, syncScan pending (eventsSince w w1) = some false) ∧
      (w1.nodes node).cachedImage = some w.nextId := by
  obtain ⟨w1, hrun, hev, hnodes, -, -, -⟩ :=
    processNode_single env node back front targetSize w hP
  obtain ⟨s1, s2, s3, -, s5⟩ := setupEvents_projections (F := F)
    (w.nodes node).allPropertyValues back front targetSize w.nextId
  have hsince := eventsSince_of_append w w1 _ (by rw [hev, List.append_assoc])
  refine ⟨w1, hrun, ?_, ?_, ?_, ?_, ?_⟩
  · rw [hsince, dispatches_append, s1]; rfl
  · rw [hsince, descriptorWrites_append, s2]; rfl
  · rw [hsince, cacheWrites_append, s3]; rfl
  · intro pending
    rw [hsince, syncScan_append, s5]; rfl
  · rw [hnodes]; simp

/-- A node type with a pass count below one: the loop body never runs. -/
theorem processNode_nopass [Zero F] [One F] [Add F] (env : Env F) (node : Nat)
    (back front : Option Nat) (targetSize : QSize) (w : World F)
    (hP : numPasses env node w ≤ 0) :
    ∃ w1, processNode env node back front targetSize w = some w1 ∧
      eventsSince w w1 =
        setupEvents (w.nodes node).allPropertyValues back front targetSize w.nextId
          ++ [Event.requestUpdate] := by
  obtain ⟨hb, hev, hset, htar, hnext, hnodes, hheap, htmp⟩ :=
    processNodeSetup_spec env node back front targetSize w
  rcases hsetup : processNodeSetup env node back front targetSize w with ⟨eb, ws⟩
  rw [hsetup] at hb hev hset htar hnext hnodes hheap htmp
  simp only at hb hev hset htar hnext hnodes hheap htmp
  obtain ⟨pev, pset, ptar, pnext, pnodes, pheap⟩ := selectPipeline_spec node ws
  rcases hsel : selectPipeline node ws with ⟨pl, wp⟩
  rw [hsel] at pev pset ptar pnext pnodes pheap
  simp only at pev pset ptar pnext pnodes pheap
  have hPeq : (env.getPropertiesForType (wp.nodes node).nodeType).numShaderPasses =
      numPasses env node w := by
    simp [numPasses, pnodes, hnodes]
  have hne1 : ¬ (numPasses env node w = 1) := by omega
  have h0 : (numPasses env node w).toNat = 0 := by omega
  refine ⟨requestUpdate wp, ?_, ?_⟩
  · simp only [processNode, hsetup, hsel, hPeq, hne1, if_false, h0, multiPassLoop, bind,
      Option.bind, pure]
  · apply eventsSince_of_append
    simp [requestUpdate, World.log, pev, hev]

theorem getElem?_map_range {α : Type} (f : Nat → α) (n k : Nat) (d : α) :
    ((List.range n).map f)[k]? = some d ↔ k < n ∧ f k = d := by
  by_cases hk : k < n
  · simp [List.getElem?_map, List.getElem?_range hk, hk]
  · simp [List.getElem?_map, hk, List.getElem?_eq_none (l := List.range n) (by simpa using hk)]

/-! ### Properties of the passes of `processNode` -/

/-- C1: for a node type with pass count `P > 1` and any back and front
input, `processNode` returns and submits exactly `P` dispatches, in order,
numbered `1 .. P`. The first reads the back image of the caller (when one is
supplied) and every pass reads the front input of the caller; every pass
after the first reads the output of the pass before it as back input. The
descriptor update of each pass binds these images. -/
theorem processNode_multipass_chain [Zero F] [One F] [Add F] (env : Env F) (node : Nat)
    (back front : Option Nat) (targetSize : QSize) (w : World F)
    (hP : 1 < numPasses env node w) :
    ∃ w1 ds, processNode env node back front targetSize w = some w1 ∧
      dispatches (eventsSince w w1) = ds ∧
      ds.length = (numPasses env node w).toNat ∧
      (∀ (k : Nat) (d : Dispatch F), ds[k]? = some d →
        d.currentShaderPass = (k : Int) + 1 ∧ d.front = front) ∧
      (∀ d b, ds[0]? = some d → back = some b → d.back = b) ∧
      (∀ k p d, ds[k]? = some p → ds[k + 1]? = some d → d.back = p.output) ∧
      descriptorWrites (eventsSince w w1) =
        ds.map (fun d => (d.back, d.binding1, d.output)) := by
  obtain ⟨w1, hrun, hds, hdw, -, -, -, -⟩ :=
    processNode_multi_log env node back front targetSize w (by omega)
  refine ⟨w1, _, hrun, hds, by simp, ?_, ?_, ?_, ?_⟩
  · intro k d hk
    obtain ⟨-, rfl⟩ := (getElem?_map_range _ _ _ _).mp hk
    exact ⟨rfl, rfl⟩
  · intro d b hd hb
    obtain ⟨-, rfl⟩ := (getElem?_map_range _ _ _ _).mp hd
    subst hb
    rfl
  · intro k p d hp hd
    obtain ⟨-, rfl⟩ := (getElem?_map_range _ _ _ _).mp hp
    obtain ⟨-, rfl⟩ := (getElem?_map_range _ _ _ _).mp hd
    rfl
  · rw [hdw, List.map_map]
    rfl

theorem processNode_multipass_chain_witness :
    ∃ w1 ds, processNode sampleEnv 0 (some 1) (some 2) ⟨1, 1⟩ sampleWorld = some w1 ∧
      dispatches (eventsSince sampleWorld w1) = ds ∧
      ds.length = (numPasses sampleEnv 0 sampleWorld).toNat ∧
      (∀ (k : Nat) (d : Dispatch Int), ds[k]? = some d →
        d.currentShaderPass = (k : Int) + 1 ∧ d.front = some 2) ∧
      (∀ d b, ds[0]? = some d → some 1 = some b → d.back = b) ∧
      (∀ k p d, ds[k]? = some p → ds[k + 1]? = some d → d.back = p.output) ∧
      descriptorWrites (eventsSince sampleWorld w1) =
        ds.map (fun d => (d.back, d.binding1, d.output)) :=
  processNode_multipass_chain sampleEnv 0 (some 1) (some 2) ⟨1, 1⟩ sampleWorld (by decide)

/-- C3: for a pass count `P > 1`, the settings payload read by pass `k + 1`
ends with the pass index `k`: zero for the first pass, one more for each
later pass; the values before it are the base payload in every pass. -/
theorem processNode_pass_index [Zero F] [One F] [Add F] (env : Env F) (node : Nat)
    (back front : Option Nat) (targetSize : QSize) (w : World F)
    (hP : 1 < numPasses env node w) :
    ∃ w1 ds, processNode env node back front targetSize w = some w1 ∧
      dispatches (eventsSince w w1) = ds ∧
      ds.length = (numPasses env node w).toNat ∧
      (passIndex 0 : F) = 0 ∧ (∀ k, (passIndex (k + 1) : F) = passIndex k + 1) ∧
      (∀ k d, ds[k]? = some d →
        d.settings.getLast? = some (passIndex k) ∧
        d.settings.dropLast = basePayload env node front w) := by
  obtain ⟨w1, hrun, hds, -, -, -, -, -⟩ :=
    processNode_multi_log env node back front targetSize w (by omega)
  refine ⟨w1, _, hrun, hds, by simp, rfl, fun _ => rfl, ?_⟩
  intro k d hk
  obtain ⟨-, rfl⟩ := (getElem?_map_range _ _ _ _).mp hk
  simp [nodeDispatch, passDispatch]

theorem processNode_pass_index_witness :
    ∃ w1 ds, processNode sampleEnv 0 (some 1) (some 2) ⟨1, 1⟩ sampleWorld = some w1 ∧
      dispatches (eventsSince sampleWorld w1) = ds ∧
      ds.length = (numPasses sampleEnv 0 sampleWorld).toNat ∧
      (passIndex 0 : Int) = 0 ∧ (∀ k, (passIndex (k + 1) : Int) = passIndex k + 1) ∧
      (∀ k d, ds[k]? = some d →
        d.settings.getLast? = some (passIndex k) ∧
        d.settings.dropLast = basePayload sampleEnv 0 (some 2) sampleWorld) :=
  processNode_pass_index sampleEnv 0 (some 1) (some 2) ⟨1, 1⟩ sampleWorld (by decide)

/-- C5: in the events of one `processNode` call, whatever the pass count, no
settings change, image creation or descriptor update happens between the
submission of a dispatch and the next device wait, and every submission is
followed by a device wait before the call ends. -/
theorem processNode_waits_between_passes [Zero F] [One F] [Add F] (env : Env F)
    (node : Nat) (back front : Option Nat) (targetSize : QSize) (w : World F) :
    ∃ w1, processNode env node back front targetSize w = some w1 ∧
      ∀ pending, syncScan pending (eventsSince w w1) = some false := by
  rcases lt_trichotomy (numPasses env node w) 1 with h | h | h
  · obtain ⟨w1, hrun, hev⟩ := processNode_nopass env node back front targetSize w (by omega)
    obtain ⟨-, -, -, -, s5⟩ := setupEvents_projections (F := F)
      (w.nodes node).allPropertyValues back front targetSize w.nextId
    refine ⟨w1, hrun, fun pending => ?_⟩
    rw [hev, syncScan_append, s5]; rfl
  · obtain ⟨w1, hrun, -, -, -, hsync, -⟩ :=
      processNode_single_log env node back front targetSize w h
    exact ⟨w1, hrun, hsync⟩
  · obtain ⟨w1, hrun, -, -, -, -, hsync, -⟩ :=
      processNode_multi_log env node back front targetSize w (by omega)
    exact ⟨w1, hrun, hsync⟩

/-- C6: for a node type with pass count 1, `processNode` returns and submits
exactly one dispatch; it reads the back image of the caller (when one is
supplied), the front input of the caller and the settings payload (the
property values followed by the mask flag), its descriptor update binds
these images, and the target it writes is installed as the cached image of
the node. -/
theorem processNode_single_pass [Zero F] [One F] [Add F] (env : Env F) (node : Nat)
    (back front : Option Nat) (targetSize : QSize) (w : World F)
    (hP : numPasses env node w = 1) :
    ∃ w1 d, processNode env node back front targetSize w = some w1 ∧
      dispatches (eventsSince w w1) = [d] ∧
      (∀ b, back = some b → d.back = b) ∧
      d.front = front ∧
      d.settings = env.fillBuffer (w.nodes node).allPropertyValues ++ [maskFlag front] ∧
      d.currentShaderPass = 1 ∧
      descriptorWrites (eventsSince w w1) = [(d.back, d.binding1, d.output)] ∧
      cacheWrites (eventsSince w w1) = [some d.output] ∧
      (w1.nodes node).cachedImage = some d.output := by
  obtain ⟨w1, hrun, hds, hdw, hcw, -, hfinal⟩ :=
    processNode_single_log env node back front targetSize w hP
  refine ⟨w1, _, hrun, hds, ?_, rfl, rfl, rfl, hdw, hcw, hfinal⟩
  intro b hb
  subst hb
  rfl

theorem processNode_single_pass_witness :
    ∃ w1 d, processNode sampleEnv 1 (some 1) (some 2) ⟨1, 1⟩ sampleWorld = some w1 ∧
      dispatches (eventsSince sampleWorld w1) = [d] ∧
      (∀ b, some 1 = some b → d.back = b) ∧
      d.front = some 2 ∧
      d.settings = sampleEnv.fillBuffer (sampleWorld.nodes 1).allPropertyValues
        ++ [maskFlag (some 2)] ∧
      d.currentShaderPass = 1 ∧
      descriptorWrites (eventsSince sampleWorld w1) = [(d.back, d.binding1, d.output)] ∧
      cacheWrites (eventsSince sampleWorld w1) = [some d.output] ∧
      (w1.nodes 1).cachedImage = some d.output :=
  processNode_single_pass sampleEnv 1 (some 1) (some 2) ⟨1, 1⟩ sampleWorld (by decide)

/-- C2: with the kernel of the node seen as a function `K back front
settings`, the image cached on the node after `processNode` with pass count
`P ≥ 1` holds the `P`-fold accumulation `out 1 = K back front (s 0)`,
`out (k + 1) = K (out k) front (s k)`, where `s k` is the payload of pass
`k + 1`. In particular a three-pass kernel that adds one to every float,
given an all-zero back input, leaves `0 + 1 + 1 + 1` at every index of the
cached image. The input images are images allocated before the call. -/
theorem processNode_accumulates [Zero F] [One F] [Add F] (env : Env F) (node : Nat)
    (back front : Option Nat) (targetSize : QSize) (w : World F)
    (hP : 1 ≤ numPasses env node w)
    (hback : ∀ b, back = some b → b < w.nextId)
    (hfront : ∀ f, front = some f → f < w.nextId) :
    ∃ w1 image, processNode env node back front targetSize w = some w1 ∧
      (w1.nodes node).cachedImage = some image ∧
      (w1.heap image).memory =
        accumulation (kernelOf env (selectPipeline node w).1) (backPixels env back w)
          (front.map (fun f => (w.heap f).memory)) (passSettings env node front w)
          (numPasses env node w).toNat ∧
      (numPasses env node w = 3 →
        (∀ b f s i, env.kernel (selectPipeline node w).1 b f s i = b i + 1) →
        (∀ i, backPixels env back w i = 0) →
        ∀ i, (w1.heap image).memory i = 0 + 1 + 1 + 1) := by
  have key : ∃ w1 image, processNode env node back front targetSize w = some w1 ∧
      (w1.nodes node).cachedImage = some image ∧
      (w1.heap image).memory =
        accumulation (kernelOf env (selectPipeline node w).1) (backPixels env back w)
          (front.map (fun f => (w.heap f).memory)) (passSettings env node front w)
          (numPasses env node w).toNat := by
    rcases eq_or_lt_of_le hP with h | h
    · obtain ⟨w1, hrun, -, hnodes, -, -, hmem⟩ :=
        processNode_single env node back front targetSize w h.symm
      refine ⟨w1, w.nextId, hrun, by rw [hnodes]; simp, ?_⟩
      rw [hmem hfront hback, ← h]
      simp [accumulation, passSettings, ← h]
    · obtain ⟨w1, hrun, -, hnodes, -, -, hmem⟩ :=
        processNode_multi env node back front targetSize w (by omega)
      refine ⟨w1, finalTarget back w (numPasses env node w).toNat, hrun,
        by rw [hnodes]; simp, ?_⟩
      rw [hmem hfront hback]
      have hne : ¬ (numPasses env node w = 1) := by omega
      have hs : (fun i => (nodeDispatch env node back front w i).settings)
          = passSettings env node front w := by
        funext i
        simp [nodeDispatch, passDispatch, passSettings, hne]
      rw [hs]
  obtain ⟨w1, image, hrun, hcache, hmem⟩ := key
  refine ⟨w1, image, hrun, hcache, hmem, ?_⟩
  intro h3 hadd hzero i
  have hK : ∀ (b : Nat → F) (f : Option (Nat → F)) (s : List F) (j : Nat),
      kernelOf env (selectPipeline node w).1 b f s j = b j + 1 := by
    intro b f s j
    simp [kernelOf, hadd]
  rw [hmem, h3]
  simp [accumulation, hK, hzero]

theorem processNode_accumulates_witness :
    ∃ w1 image, processNode sampleEnv 0 (some 1) (some 2) ⟨1, 1⟩ sampleWorld = some w1 ∧
      (w1.nodes 0).cachedImage = some image ∧
      ∀ i, (w1.heap image).memory i = 3 := by
  obtain ⟨w1, image, hrun, hcache, -, hthree⟩ :=
    processNode_accumulates sampleEnv 0 (some 1) (some 2) ⟨1, 1⟩ sampleWorld (by decide)
      (fun b hb => by cases hb; decide) (fun f hf => by cases hf; decide)
  exact ⟨w1, image, hrun, hcache, fun i =>
    hthree (by decide) (fun _ _ _ _ => rfl) (fun _ => rfl) i⟩

/-! ### Display and construction -/

/-- C8: `displayNode` returns for every node, with or without a cached
image, and leaves the node arena as it was: the cached image of every node
is the same handle, every image that existed before the call keeps its
memory, and every dispatch of the call writes the render target the
renderer has just created. -/
theorem displayNode_keeps_caches (env : Env F) (node : Nat) (w : World F) :
    ∃ w1, displayNode env node w = some w1 ∧
      w1.nodes = w.nodes ∧
      (∀ n, (w1.nodes n).cachedImage = (w.nodes n).cachedImage) ∧
      (∀ i, i ≠ w.nextId → w1.heap i = w.heap i) ∧
      (∀ d, d ∈ dispatches (eventsSince w w1) →
        d.output = w.nextId ∧ w1.computeRenderTarget = some d.output) := by
  unfold displayNode
  cases hc : getCachedImage node w with
  | none =>
    refine ⟨_, rfl, rfl, fun _ => rfl, fun _ _ => rfl, ?_⟩
    intro d hd
    simp [eventsSince, doClearScreen, requestUpdate, World.log, dispatches] at hd
  | some image =>
    simp only [bind, Option.bind, updateVertexData, createVertexBuffer, waitIdle, World.log,
      createComputeRenderTarget, newCsImage, updateGraphicsDescriptors,
      updateComputeDescriptors, recordGeneric, submitGeneric, runKernel, requestUpdate, pure]
    refine ⟨_, rfl, rfl, fun _ => rfl, ?_, ?_⟩
    · intro i hi
      simp only []
      rw [Function.update_noteq hi, Function.update_noteq hi]
    · intro d hd
      simp [eventsSince, dispatches] at hd
      subst hd
      exact ⟨rfl, rfl⟩

/-- C9: a newly constructed node is dirty and has no cached image. -/
theorem new_node_is_dirty_and_uncached (nodeType : NodeType) :
    (NodeBase.create nodeType).needsUpdate = true ∧
    (NodeBase.create nodeType).cachedImage = none :=
  ⟨rfl, rfl⟩

/-! ### The read path -/

theorem imageLoads_append (a b : List (Event F)) :
    imageLoads (a ++ b) = imageLoads a ++ imageLoads b := by
  induction a with
  | nil => rfl
  | cons e a ih => cases e <;> simp [imageLoads, ih]

theorem createImageFromFile_spec [Zero F] [One F] (env : Env F) (path : String)
    (colorSpace : Int) (w : World F) (r : World F × Bool)
    (h : createImageFromFile env path colorSpace w = some r) :
    r.1.events = w.events ++ eventsSince w r.1 ∧ imageLoads (eventsSince w r.1) = [] ∧
      dispatches (eventsSince w r.1) = [] ∧ (∃ image, r.1.cpuImage = some image) ∧
      w.nextId ≤ r.1.nextId := by
  simp only [createImageFromFile, bind, Option.bind] at h
  cases hq : qAt env.colorSpaces colorSpace with
  | none => simp [hq] at h
  | some fromSpace =>
    simp only [hq, updateVertexData, World.log, newCsImage, writeLinearImage, pure] at h
    split_ifs at h <;> cases h <;>
      simp [eventsSince, imageLoads, dispatches]

theorem processReadNodeUpload_spec (env : Env F) (node : Nat) (cpuImage : ImageBuf F)
    (w w2 : World F) (h : processReadNodeUpload env node cpuImage w = some w2) :
    eventsSince w w2 =
      [Event.newImage w.nextId "Tmp Cache Image",
        Event.newImage (w.nextId + 1) "Compute Render Target",
        Event.renderTargetHasBeenCreated (toUInt32 cpuImage.xend) (toUInt32 cpuImage.yend),
        Event.waitIdle, Event.updateDescriptorSets w.nextId w.nextId (w.nextId + 1),
        Event.recordImageLoad
          { staging := w.loadImageStaging, tmp := w.nextId, output := w.nextId + 1 },
        Event.submitImageLoad
          { staging := w.loadImageStaging, tmp := w.nextId, output := w.nextId + 1 },
        Event.setCachedImage node (some (w.nextId + 1)), Event.waitIdle] ∧
      w2.events = w.events ++ eventsSince w w2 := by
  simp only [processReadNodeUpload, newCsImage, createComputeRenderTarget,
    updateComputeDescriptors, waitIdle, World.log, recordImageLoad, submitImageLoad, runKernel,
    setCachedImageFromRenderTarget, bind, Option.bind, pure] at h
  cases hst : w.loadImageStaging <;> simp only [hst, Option.some.injEq] at h <;> subst h <;>
    simp [eventsSince]

theorem processReadNodeLoad_spec [Zero F] [One F] (env : Env F) (node : Nat) (path : String)
    (colorSpace : Int) (w w2 : World F)
    (h : processReadNodeLoad env node path colorSpace w = some w2) :
    ∃ tmp staging, w.nextId ≤ tmp ∧
      dispatches (eventsSince w w2) = [] ∧
      imageLoads (eventsSince w w2) = [{ staging := staging, tmp := tmp, output := tmp + 1 }] ∧
      Event.newImage (tmp + 1) "Compute Render Target" ∈ eventsSince w w2 := by
  simp only [processReadNodeLoad, bind, Option.bind] at h
  cases hc : createImageFromFile env path colorSpace { w with imagePath := path } with
  | none => simp [hc] at h
  | some r =>
    obtain ⟨hev, hloads, hdisp, ⟨image, himage⟩, hnext⟩ :=
      createImageFromFile_spec env path colorSpace _ r hc
    simp only [hc, himage] at h
    obtain ⟨hup, hev2⟩ := processReadNodeUpload_spec env node image r.1 w2 h
    have hsince : eventsSince w w2 =
        eventsSince { w with imagePath := path } r.1 ++ eventsSince r.1 w2 := by
      apply eventsSince_of_append
      rw [hev2, hev, List.append_assoc]
    refine ⟨r.1.nextId, r.1.loadImageStaging, hnext, ?_, ?_, ?_⟩
    · rw [hsince, dispatches_append, hdisp, hup]; rfl
    · rw [hsince, imageLoads_append, hloads, hup]; rfl
    · rw [hsince, hup]; simp


theorem mem_passesEvents [Zero F] (node : Nat) (targetSize : QSize) (mk : Nat → Dispatch F)
    (n k : Nat) (e : Event F) (hk : k < n) (he : e ∈ passEvents node targetSize (mk k) k) :
    e ∈ passesEvents node targetSize mk n := by
  induction n with
  | zero => omega
  | succ n ih =>
    rw [passesEvents]
    rcases Nat.lt_succ_iff_lt_or_eq.mp hk with h | h
    · exact List.mem_append_left _ (ih h)
    · subst h
      exact List.mem_append_right _ he

theorem nodeDispatch_fresh [Zero F] [One F] [Add F] (env : Env F) (node : Nat)
    (back front : Option Nat) (w : World F)
    (hback : ∀ b, back = some b → b < w.nextId)
    (hfront : ∀ f, front = some f → f < w.nextId) (k : Nat) :
    w.nextId ≤ (nodeDispatch env node back front w k).output ∧
    (nodeDispatch env node back front w k).output ≠ (nodeDispatch env node back front w k).back ∧
    (nodeDispatch env node back front w k).front ≠
      some (nodeDispatch env node back front w k).output := by
  have hnext := lt_nextAfterSetup back w.nextId
  have hout : w.nextId ≤ passOutput w.nextId (nextAfterSetup back w.nextId) k := by
    cases k with
    | zero => simp [passOutput]
    | succ k => simp only [passOutput]; omega
  refine ⟨hout, ?_, ?_⟩
  · simp only [nodeDispatch, passDispatch]
    cases k with
    | zero =>
      simp only [passOutput, passBackInput]
      cases back with
      | none => simp [effectiveBack]
      | some b =>
        have := hback b rfl
        simp only [effectiveBack]
        omega
    | succ k =>
      have := passOutput_lt w.nextId (nextAfterSetup back w.nextId) k hnext
      show nextAfterSetup back w.nextId + k ≠
        passOutput w.nextId (nextAfterSetup back w.nextId) k
      omega
  · simp only [nodeDispatch, passDispatch]
    intro hf
    have := hfront _ hf
    omega

/-- C7: in every dispatch submitted by `processNode`, whatever the pass count,
and in the image load submitted by `processReadNode`, the output image is a
render target created during the call (it did not exist before, and its
creation is in the log of the call), and it differs from the back input and
from the front input of the dispatch. The images the caller passes in are
images allocated before the call. -/
theorem dispatch_output_is_fresh [Zero F] [One F] [Add F] (env : Env F) (node readNode : Nat)
    (back front : Option Nat) (targetSize : QSize) (w : World F)
    (hback : ∀ b, back = some b → b < w.nextId)
    (hfront : ∀ f, front = some f → f < w.nextId) :
    (∃ w1, processNode env node back front targetSize w = some w1 ∧
      ∀ d, d ∈ dispatches (eventsSince w w1) →
        w.nextId ≤ d.output ∧
        Event.newImage d.output "Compute Render Target" ∈ eventsSince w w1 ∧
        d.output ≠ d.back ∧ d.front ≠ some d.output) ∧
    (∀ w2, processReadNode env readNode w = some w2 →
      dispatches (eventsSince w w2) = [] ∧
      ∀ c, c ∈ imageLoads (eventsSince w w2) →
        w.nextId ≤ c.output ∧
        Event.newImage c.output "Compute Render Target" ∈ eventsSince w w2 ∧
        c.output ≠ c.tmp) := by
  constructor
  · rcases lt_trichotomy (numPasses env node w) 1 with h | h | h
    · obtain ⟨w1, hrun, hev⟩ := processNode_nopass env node back front targetSize w (by omega)
      obtain ⟨s1, -, -, -, -⟩ := setupEvents_projections (F := F)
        (w.nodes node).allPropertyValues back front targetSize w.nextId
      refine ⟨w1, hrun, ?_⟩
      intro d hd
      rw [hev, dispatches_append, s1] at hd
      simp [dispatches] at hd
    · obtain ⟨w1, hrun, hev, -, -, -, -⟩ :=
        processNode_single env node back front targetSize w h
      obtain ⟨s1, -, -, -, -⟩ := setupEvents_projections (F := F)
        (w.nodes node).allPropertyValues back front targetSize w.nextId
      have hsince := eventsSince_of_append w w1 _ (by rw [hev, List.append_assoc])
      refine ⟨w1, hrun, ?_⟩
      intro d hd
      rw [hsince, dispatches_append, s1] at hd
      simp [singlePassEvents, dispatches] at hd
      subst hd
      refine ⟨le_refl _, ?_, ?_, ?_⟩
      · rw [hsince]
        apply List.mem_append_left
        simp [setupEvents, singleDispatch]
      · simp only [singleDispatch]
        cases back with
        | none => simp [effectiveBack]
        | some b =>
          have := hback b rfl
          simp only [effectiveBack]
          omega
      · simp only [singleDispatch]
        intro hf
        have := hfront _ hf
        omega
    · obtain ⟨w1, hrun, hev, -, -, -, -⟩ :=
        processNode_multi env node back front targetSize w (by omega)
      obtain ⟨s1, -, -, -, -⟩ := setupEvents_projections (F := F)
        (w.nodes node).allPropertyValues back front targetSize w.nextId
      obtain ⟨q1, -, -, -, -⟩ := passesEvents_projections node targetSize
        (nodeDispatch env node back front w) (numPasses env node w).toNat
      have hsince := eventsSince_of_append w w1 _
        (by rw [hev, List.append_assoc, List.append_assoc])
      refine ⟨w1, hrun, ?_⟩
      intro d hd
      rw [hsince, dispatches_append, dispatches_append, s1, q1] at hd
      simp [dispatches] at hd
      obtain ⟨k, hk, rfl⟩ := hd
      obtain ⟨f1, f2, f3⟩ := nodeDispatch_fresh env node back front w hback hfront k
      refine ⟨f1, ?_, f2, f3⟩
      rw [hsince]
      cases k with
      | zero =>
        apply List.mem_append_left
        simp [setupEvents, nodeDispatch, passDispatch, passOutput]
      | succ k =>
        apply List.mem_append_right
        apply List.mem_append_left
        apply mem_passesEvents node targetSize _ _ (k + 1) _ (by omega)
        simp [passEvents]
  · intro w2 h
    simp only [processReadNode, bind, Option.bind] at h
    rcases h1 : qAt (qSplit (w.nodes readNode).allPropertyValues)
      (((qSplit (w.nodes readNode).allPropertyValues).length : Int) - 2) with _ | indexField
    · simp [h1] at h
    · simp only [h1] at h
      rcases h2 : qAt (qSplit (w.nodes readNode).allPropertyValues)
        (if qToInt indexField < 0 then 0 else qToInt indexField) with _ | path
      · simp [h2] at h
      · simp only [h2] at h
        rcases h3 : (qSplit (w.nodes readNode).allPropertyValues).getLast? with _ | lastField
        · simp [h3] at h
        · simp only [h3] at h
          split_ifs at h
          · obtain ⟨tmp, staging, htmp, hd, hl, hmem⟩ :=
              processReadNodeLoad_spec env readNode _ _ w w2 h
            refine ⟨hd, ?_⟩
            intro c hc
            rw [hl] at hc
            simp at hc
            subst hc
            exact ⟨by simp only []; omega, hmem, by simp⟩
          · simp only [pure, Option.some.injEq] at h
            subst h
            simp [eventsSince, flushCache, dispatches, imageLoads]

theorem dispatch_output_is_fresh_witness :
    (∃ w1, processNode sampleEnv 0 (some 1) (some 2) ⟨1, 1⟩ sampleWorld = some w1 ∧
      ∀ d, d ∈ dispatches (eventsSince sampleWorld w1) →
        sampleWorld.nextId ≤ d.output ∧
        Event.newImage d.output "Compute Render Target" ∈ eventsSince sampleWorld w1 ∧
        d.output ≠ d.back ∧ d.front ≠ some d.output) ∧
    (∀ w2, processReadNode sampleEnv 5 sampleWorld = some w2 →
      dispatches (eventsSince sampleWorld w2) = [] ∧
      ∀ c, c ∈ imageLoads (eventsSince sampleWorld w2) →
        sampleWorld.nextId ≤ c.output ∧
        Event.newImage c.output "Compute Render Target" ∈ eventsSince sampleWorld w2 ∧
        c.output ≠ c.tmp) :=
  dispatch_output_is_fresh sampleEnv 0 5 (some 1) (some 2) ⟨1, 1⟩ sampleWorld
    (fun b hb => by cases hb; decide) (fun f hf => by cases hf; decide)

end Theorems

/-! ### The node graph stays acyclic -/

section Graph

theorem edge_mono {es sub : List (Nat × Nat)} (h : ∀ e, e ∈ sub → e ∈ es) {a b : Nat}
    (hab : Edge sub a b) : Edge es a b :=
  h (a, b) hab

theorem path_mono {es sub : List (Nat × Nat)} (h : ∀ e, e ∈ sub → e ∈ es) {a b : Nat}
    (hab : Relation.ReflTransGen (Edge sub) a b) : Relation.ReflTransGen (Edge es) a b :=
  Relation.ReflTransGen.mono (fun _ _ hxy => edge_mono h hxy) hab

theorem searchFrom_sound : ∀ (fuel : Nat) (es : List (Nat × Nat)) (a b : Nat),
    searchFrom fuel es a b = true → Relation.ReflTransGen (Edge es) a b := by
  intro fuel
  induction fuel with
  | zero =>
    intro es a b h
    have : a = b := by simpa [searchFrom] using h
    subst this
    exact Relation.ReflTransGen.refl
  | succ fuel ih =>
    intro es a b h
    simp only [searchFrom, Bool.or_eq_true, beq_iff_eq, List.any_eq_true,
      Bool.and_eq_true] at h
    rcases h with h | ⟨e, he, hea, hrest⟩
    · subst h
      exact Relation.ReflTransGen.refl
    · have hpath := ih _ _ _ hrest
      have hstep : Edge es a e.2 := by
        show (a, e.2) ∈ es
        rw [← hea]
        exact he
      exact Relation.ReflTransGen.head hstep
        (path_mono (fun x hx => (List.mem_filter.mp hx).1) hpath)

/-- A path from `x` to `b` either never leaves `a`, or its part after the
last visit of `a` starts with an edge out of `a` and never leaves `a`
again. -/
theorem path_avoid (es : List (Nat × Nat)) (a b x : Nat)
    (h : Relation.ReflTransGen (Edge es) x b) :
    Relation.ReflTransGen (Edge (es.filter (fun e => e.1 != a))) x b ∨
      ∃ c, (a, c) ∈ es ∧ Relation.ReflTransGen (Edge (es.filter (fun e => e.1 != a))) c b := by
  induction h using Relation.ReflTransGen.head_induction_on with
  | refl => exact Or.inl Relation.ReflTransGen.refl
  | @head x y hxy _ ih =>
    rcases ih with h1 | h2
    · by_cases hx : x = a
      · subst hx
        exact Or.inr ⟨y, hxy, h1⟩
      · refine Or.inl (Relation.ReflTransGen.head ?_ h1)
        show (x, y) ∈ es.filter (fun e => e.1 != a)
        exact List.mem_filter.mpr ⟨hxy, by simpa using hx⟩
    · exact Or.inr h2

theorem path_split (es : List (Nat × Nat)) (a b : Nat)
    (h : Relation.ReflTransGen (Edge es) a b) :
    a = b ∨
      ∃ c, (a, c) ∈ es ∧ Relation.ReflTransGen (Edge (es.filter (fun e => e.1 != a))) c b := by
  rcases path_avoid es a b a h with h1 | h2
  · left
    rcases Relation.ReflTransGen.cases_head h1 with h0 | ⟨y, hay, _⟩
    · exact h0
    · have hmem : (a, y) ∈ es.filter (fun e => e.1 != a) := hay
      have := (List.mem_filter.mp hmem).2
      simp at this
  · exact Or.inr h2

theorem searchFrom_complete : ∀ (fuel : Nat) (es : List (Nat × Nat)) (a b : Nat),
    es.length ≤ fuel → Relation.ReflTransGen (Edge es) a b → searchFrom fuel es a b = true := by
  intro fuel
  induction fuel with
  | zero =>
    intro es a b hlen h
    have hes : es = [] := List.length_eq_zero.mp (Nat.le_zero.mp hlen)
    subst hes
    rcases Relation.ReflTransGen.cases_head h with h0 | ⟨y, hay, _⟩
    · simp [searchFrom, h0]
    · exact absurd hay (by simp [Edge])
  | succ fuel ih =>
    intro es a b hlen h
    simp only [searchFrom, Bool.or_eq_true, beq_iff_eq, List.any_eq_true, Bool.and_eq_true]
    rcases path_split es a b h with h0 | ⟨c, hac, hrest⟩
    · exact Or.inl h0
    · right
      refine ⟨(a, c), hac, rfl, ih _ _ _ ?_ hrest⟩
      have hlt : (es.filter (fun e => e.1 != a)).length < es.length :=
        List.length_filter_lt_length_iff_exists.mpr ⟨(a, c), hac, by simp⟩
      omega

theorem reaches_iff (es : List (Nat × Nat)) (a b : Nat) :
    reaches es a b = true ↔ Relation.ReflTransGen (Edge es) a b :=
  ⟨searchFrom_sound _ es a b, searchFrom_complete _ es a b (le_refl _)⟩

theorem transGen_cons_split (es : List (Nat × Nat)) (u v : Nat)
    (hno : ¬ Relation.ReflTransGen (Edge es) v u) {a b : Nat}
    (h : Relation.TransGen (Edge ((u, v) :: es)) a b) :
    Relation.TransGen (Edge es) a b ∨
      (Relation.ReflTransGen (Edge es) a u ∧ Relation.ReflTransGen (Edge es) v b) := by
  induction h with
  | single hab =>
    rcases List.mem_cons.mp hab with heq | hmem
    · obtain ⟨rfl, rfl⟩ := Prod.mk.inj heq
      exact Or.inr ⟨Relation.ReflTransGen.refl, Relation.ReflTransGen.refl⟩
    · exact Or.inl (Relation.TransGen.single hmem)
  | tail _ hcb ih =>
    rcases List.mem_cons.mp hcb with heq | hmem
    · obtain ⟨rfl, rfl⟩ := Prod.mk.inj heq
      rcases ih with h1 | ⟨h2, h3⟩
      · exact Or.inr ⟨h1.to_reflTransGen, Relation.ReflTransGen.refl⟩
      · exact absurd h3 hno
    · rcases ih with h1 | ⟨h2, h3⟩
      · exact Or.inl (Relation.TransGen.tail h1 hmem)
      · exact Or.inr ⟨h2, Relation.ReflTransGen.tail h3 hmem⟩

theorem acyclic_cons (es : List (Nat × Nat)) (u v : Nat) (hes : Acyclic es)
    (hno : ¬ Relation.ReflTransGen (Edge es) v u) : Acyclic ((u, v) :: es) := by
  intro n hn
  rcases transGen_cons_split es u v hno hn with h1 | ⟨h2, h3⟩
  · exact hes n h1
  · exact hno (h3.trans h2)

theorem acyclic_of_subset {es sub : List (Nat × Nat)} (h : ∀ e, e ∈ sub → e ∈ es)
    (hes : Acyclic es) : Acyclic sub :=
  fun n hn => hes n (Relation.TransGen.mono (fun _ _ hxy => edge_mono h hxy) hn)

theorem edgesOf_filter_subset (connections : List Connection) (p : Connection → Bool) :
    ∀ e, e ∈ edgesOf (connections.filter p) → e ∈ edgesOf connections := by
  intro e he
  simp only [edgesOf, List.mem_map] at he ⊢
  obtain ⟨c, hc, rfl⟩ := he
  exact ⟨c, (List.mem_filter.mp hc).1, rfl⟩

theorem connect_ok_acyclic (g g1 : NodeGraph) (source target : Nat) (slot : InputSlot)
    (hg : Acyclic (edgesOf g.connections))
    (h : connect g source target slot = ConnectResult.ok g1) :
    Acyclic (edgesOf g1.connections) := by
  simp only [connect] at h
  split_ifs at h with hvalid hreach
  cases h
  have hno : ¬ Relation.ReflTransGen (Edge (edgesOf g.connections)) target source :=
    fun hp => hreach ((reaches_iff _ _ _).mpr hp)
  have hsub := edgesOf_filter_subset g.connections
    (fun c => !(c.targetInput == target && c.slot == slot))
  exact acyclic_cons _ source target (acyclic_of_subset hsub hg)
    (fun hp => hno (path_mono hsub hp))

theorem afterConnect_acyclic (g : NodeGraph) (call : Nat × Nat × InputSlot)
    (hg : Acyclic (edgesOf g.connections)) :
    Acyclic (edgesOf (afterConnect g call).connections) := by
  unfold afterConnect
  cases h : connect g call.1 call.2.1 call.2.2 with
  | ok g1 => exact connect_ok_acyclic g g1 _ _ _ hg h
  | cycleError => exact hg
  | invalidId => exact hg

theorem afterConnects_acyclic (calls : List (Nat × Nat × InputSlot)) :
    ∀ g : NodeGraph, Acyclic (edgesOf g.connections) →
      Acyclic (edgesOf (afterConnects g calls).connections) := by
  induction calls with
  | nil => intro g hg; exact hg
  | cons call calls ih =>
    intro g hg
    exact ih _ (afterConnect_acyclic g call hg)

/-- C10: starting from an acyclic graph (the empty graph is one), after any
sequence of `connect` calls no node reaches itself along output-to-input
edges; and a `connect` whose edge would close a cycle is rejected and leaves
the graph, its nodes and connections included, as it was. -/
theorem connect_keeps_graph_acyclic (g : NodeGraph) (calls : List (Nat × Nat × InputSlot))
    (hg : Acyclic (edgesOf g.connections)) :
    Acyclic (edgesOf (afterConnects g calls).connections) ∧
    ∀ source target slot,
      ¬ Acyclic ((source, target) :: edgesOf (afterConnects g calls).connections) →
      (∀ g1, connect (afterConnects g calls) source target slot ≠ ConnectResult.ok g1) ∧
      afterConnect (afterConnects g calls) (source, target, slot) = afterConnects g calls := by
  have hacyclic := afterConnects_acyclic calls g hg
  refine ⟨hacyclic, ?_⟩
  intro source target slot hcycle
  have hpath : Relation.ReflTransGen (Edge (edgesOf (afterConnects g calls).connections))
      target source := by
    by_contra hno
    exact hcycle (acyclic_cons _ source target hacyclic hno)
  have hreach := (reaches_iff _ _ _).mpr hpath
  have hnot : ∀ g1, connect (afterConnects g calls) source target slot ≠
      ConnectResult.ok g1 := by
    intro g1 h
    simp only [connect, hreach, if_true] at h
    split_ifs at h
  refine ⟨hnot, ?_⟩
  unfold afterConnect
  cases h : connect (afterConnects g calls) source target slot with
  | ok g1 => exact absurd h (hnot g1)
  | cycleError => rfl
  | invalidId => rfl

theorem acyclic_nil : Acyclic [] := by
  intro n hn
  rcases Relation.TransGen.head'_iff.mp hn with ⟨c, hc, _⟩
  exact absurd hc (by simp [Edge])

theorem connect_keeps_graph_acyclic_witness :
    Acyclic (edgesOf (afterConnects sampleGraph
      [(0, 1, InputSlot.back), (1, 2, InputSlot.back), (2, 0, InputSlot.front)]).connections) ∧
    ∀ source target slot,
      ¬ Acyclic ((source, target) :: edgesOf (afterConnects sampleGraph
        [(0, 1, InputSlot.back), (1, 2, InputSlot.back),
          (2, 0, InputSlot.front)]).connections) →
      (∀ g1, connect (afterConnects sampleGraph
        [(0, 1, InputSlot.back), (1, 2, InputSlot.back), (2, 0, InputSlot.front)])
          source target slot ≠ ConnectResult.ok g1) ∧
      afterConnect (afterConnects sampleGraph
        [(0, 1, InputSlot.back), (1, 2, InputSlot.back), (2, 0, InputSlot.front)])
          (source, target, slot) =
        afterConnects sampleGraph
          [(0, 1, InputSlot.back), (1, 2, InputSlot.back), (2, 0, InputSlot.front)] :=
  connect_keeps_graph_acyclic sampleGraph
    [(0, 1, InputSlot.back), (1, 2, InputSlot.back), (2, 0, InputSlot.front)] acyclic_nil

end Graph

section ReadAndDisplay

variable {F : Type}

theorem processReadNode_eq [Zero F] [One F] (env : Env F) (node : Nat) (w : World F) :
    processReadNode env node w =
      (readSelection (w.nodes node).allPropertyValues).bind (fun sel =>
        if pathIsLoadable env sel.1 then processReadNodeLoad env node sel.1 sel.2 w
        else some (flushCache node w)) := by
  simp only [processReadNode, readSelection, pathIsLoadable, bind, Option.bind, pure]
  rcases h1 : qAt (qSplit (w.nodes node).allPropertyValues)
      (((qSplit (w.nodes node).allPropertyValues).length : Int) - 2) with _ | indexField
  · rfl
  · simp only []
    rcases h2 : qAt (qSplit (w.nodes node).allPropertyValues)
        (if qToInt indexField < 0 then 0 else qToInt indexField) with _ | path
    · rfl
    · simp only []
      rcases h3 : (qSplit (w.nodes node).allPropertyValues).getLast? with _ | lastField
      · rfl
      · rfl

theorem processReadNodeUpload_cache (env : Env F) (node : Nat) (cpuImage : ImageBuf F)
    (w w2 : World F) (h : processReadNodeUpload env node cpuImage w = some w2) :
    (w2.nodes node).cachedImage = some (w.nextId + 1) ∧ w2.clearScreen = w.clearScreen ∧
      w2.nextId = w.nextId + 2 := by
  simp only [processReadNodeUpload, newCsImage, createComputeRenderTarget,
    updateComputeDescriptors, waitIdle, World.log, recordImageLoad, submitImageLoad, runKernel,
    setCachedImageFromRenderTarget, bind, Option.bind, pure] at h
  cases hst : w.loadImageStaging <;> simp only [hst, Option.some.injEq] at h <;> subst h <;>
    simp

/-- The load branch of `processReadNode`, whenever it returns: one image load
is submitted and its output is the cached image of the node, whatever
`createImageFromFile` reported. -/
theorem processReadNodeLoad_cache [Zero F] [One F] (env : Env F) (node : Nat) (path : String)
    (colorSpace : Int) (w w2 : World F)
    (h : processReadNodeLoad env node path colorSpace w = some w2) :
    ∃ c, imageLoads (eventsSince w w2) = [c] ∧ (w2.nodes node).cachedImage = some c.output := by
  have hspec := processReadNodeLoad_spec env node path colorSpace w w2 h
  obtain ⟨tmp, staging, -, -, hl, -⟩ := hspec
  refine ⟨_, hl, ?_⟩
  simp only [processReadNodeLoad, bind, Option.bind] at h
  cases hc : createImageFromFile env path colorSpace { w with imagePath := path } with
  | none => simp [hc] at h
  | some r =>
    obtain ⟨hev, hloads, hdisp, ⟨image, himage⟩, hnext⟩ :=
      createImageFromFile_spec env path colorSpace _ r hc
    simp only [hc, himage] at h
    obtain ⟨hcache, -, -⟩ := processReadNodeUpload_cache env node image r.1 w2 h
    obtain ⟨hup, hev2⟩ := processReadNodeUpload_spec env node image r.1 w2 h
    have hsince : eventsSince w w2 =
        eventsSince { w with imagePath := path } r.1 ++ eventsSince r.1 w2 := by
      apply eventsSince_of_append
      rw [hev2, hev, List.append_assoc]
    rw [hsince, imageLoads_append, hloads, hup] at hl
    simp [imageLoads] at hl
    obtain ⟨-, htmp⟩ := hl
    rw [hcache, htmp]

theorem displayNode_cached (env : Env F) (node : Nat) (w : World F) (image : Nat)
    (h : (w.nodes node).cachedImage = some image) :
    ∃ w1 d, displayNode env node w = some w1 ∧ w1.clearScreen = false ∧
      dispatches (eventsSince w w1) = [d] ∧ d.back = image ∧ d.output = w.nextId := by
  have hc : getCachedImage node w = some image := h
  simp only [displayNode, hc, bind, Option.bind, updateVertexData, createVertexBuffer, waitIdle,
    World.log, createComputeRenderTarget, newCsImage, updateGraphicsDescriptors,
    updateComputeDescriptors, recordGeneric, submitGeneric, runKernel, requestUpdate, pure]
  refine ⟨_, (⟨image, none, w.nextId, Pipeline.noop, 1, 1, w.settingsBuffer⟩ : Dispatch F),
    rfl, rfl, ?_, rfl, rfl⟩
  simp [eventsSince, dispatches]

theorem displayNode_uncached (env : Env F) (node : Nat) (w : World F)
    (h : (w.nodes node).cachedImage = none) :
    displayNode env node w = some (doClearScreen w) ∧ (doClearScreen w).clearScreen = true ∧
      dispatches (eventsSince w (doClearScreen w)) = [] := by
  have hc : getCachedImage node w = none := h
  refine ⟨by simp only [displayNode, hc], rfl, ?_⟩
  simp [eventsSince, doClearScreen, requestUpdate, World.log, dispatches]

/-- The load branch of `processReadNode` returns whenever the colour space
index is in range. -/
theorem processReadNodeLoad_returns [Zero F] [One F] (env : Env F) (node : Nat)
    (path : String) (colorSpace : Int) (w : World F)
    (hspace : (qAt env.colorSpaces colorSpace).isSome = true) :
    (∃ r, createImageFromFile env path colorSpace { w with imagePath := path } = some r) ∧
    ∃ w2, processReadNodeLoad env node path colorSpace w = some w2 := by
  obtain ⟨fromSpace, hq⟩ := Option.isSome_iff_exists.mp hspace
  have hc : ∃ r, createImageFromFile env path colorSpace { w with imagePath := path }
      = some r := by
    simp only [createImageFromFile, bind, Option.bind, hq, updateVertexData, World.log,
      newCsImage, writeLinearImage, pure]
    split_ifs <;> exact ⟨_, rfl⟩
  refine ⟨hc, ?_⟩
  obtain ⟨r, hr⟩ := hc
  obtain ⟨-, -, -, ⟨image, himage⟩, -⟩ := createImageFromFile_spec env path colorSpace _ r hr
  simp only [processReadNodeLoad, bind, Option.bind, hr, himage]
  simp only [processReadNodeUpload, newCsImage, createComputeRenderTarget,
    updateComputeDescriptors, waitIdle, World.log, recordImageLoad, submitImageLoad, runKernel,
    setCachedImageFromRenderTarget, bind, Option.bind, pure]
  cases hst : r.1.loadImageStaging <;> exact ⟨_, rfl⟩

/-- C17: `displayNode` returns for every node; afterwards the clear-screen
flag is set exactly when the node had no cached image, and a kernel dispatch
(exactly one) has been submitted exactly when the flag is not set. -/
theorem displayNode_clear_flag (env : Env F) (node : Nat) (w : World F) :
    ∃ w1, displayNode env node w = some w1 ∧
      (w1.clearScreen = true ↔ (w.nodes node).cachedImage = none) ∧
      (dispatches (eventsSince w w1) ≠ [] ↔ w1.clearScreen = false) ∧
      (dispatches (eventsSince w w1)).length = if w1.clearScreen then 0 else 1 := by
  cases h : (w.nodes node).cachedImage with
  | none =>
    obtain ⟨hrun, hflag, hd⟩ := displayNode_uncached env node w h
    exact ⟨_, hrun, by simp [hflag], by simp [hflag, hd], by simp [hflag, hd]⟩
  | some image =>
    obtain ⟨w1, d, hrun, hflag, hd, -, -⟩ := displayNode_cached env node w image h
    exact ⟨w1, hrun, by simp [hflag], by simp [hflag, hd], by simp [hflag, hd]⟩

/-- C16, as stated, fails: on a device that can sample the image format but
whose staging memory cannot be mapped, `createImageFromFile` creates the
staging image 10 and reports failure for the file of read node 5, yet
`processReadNode` submits the image load from that staging image and
installs image 12 as the cached image, and the following `displayNode`
leaves the clear-screen flag unset. -/
theorem processReadNode_caches_after_device_failure :
    unmappableEnv.canSampleLinear = true ∧
    (createImageFromFile unmappableEnv "b.exr" 0
        { sampleWorld with imagePath := "b.exr" }).map
          (fun r => (r.1.loadImageStaging, r.2)) = some (some 10, false) ∧
    (processReadNode unmappableEnv 5 sampleWorld).map
        (fun w => (imageLoads w.events).map (fun c => c.staging)) = some [some 10] ∧
    ((processReadNode unmappableEnv 5 sampleWorld).bind (displayNode unmappableEnv 5)).map
        (fun w => ((w.nodes 5).cachedImage, w.clearScreen)) = some (some 12, false) := by
  refine ⟨by decide, by decide, by decide, by decide⟩

/-- On a device that can sample the image format `createImageFromFile`, when
it returns, has created the staging image, and its report is whether the
memory of that image could be mapped. -/
theorem createImageFromFile_staging [Zero F] [One F] (env : Env F) (path : String)
    (colorSpace : Int) (w : World F) (r : World F × Bool)
    (hsample : env.canSampleLinear = true ∨ env.canSampleOptimal = true)
    (h : createImageFromFile env path colorSpace w = some r) :
    r.1.loadImageStaging = some w.nextId ∧ r.2 = env.mapMemoryOk w.nextId := by
  have hs : (!env.canSampleLinear && !env.canSampleOptimal) = false := by
    rcases hsample with h1 | h1 <;> simp [h1]
  simp only [createImageFromFile, bind, Option.bind] at h
  cases hq : qAt env.colorSpaces colorSpace with
  | none => simp [hq] at h
  | some fromSpace =>
    simp only [hq, hs, updateVertexData, World.log, newCsImage, writeLinearImage, pure] at h
    cases hm : env.mapMemoryOk w.nextId <;> simp [hm] at h <;> subst h <;> simp

/-- C16, amended: on a device that can sample the image format (so that
`createImageFromFile` gets as far as the staging image), for an existing
regular file and a colour space index in range, `createImageFromFile` reports
failure exactly when the staging memory cannot be mapped, and that report is
not acted upon: success or failure, `processReadNode` returns with one image
load submitted from the staging image and its output installed as the cached
image of the node; a following `displayNode` submits its dispatch and leaves
the clear-screen flag unset. -/
theorem processReadNode_ignores_device_failure [Zero F] [One F] (env : Env F) (node : Nat)
    (w : World F) (path : String) (colorSpace : Int)
    (hsel : readSelection (w.nodes node).allPropertyValues = some (path, colorSpace))
    (hpath : pathIsLoadable env path)
    (hspace : (qAt env.colorSpaces colorSpace).isSome = true)
    (hsample : env.canSampleLinear = true ∨ env.canSampleOptimal = true) :
    (∃ r, createImageFromFile env path colorSpace { w with imagePath := path } = some r ∧
      r.1.loadImageStaging = some w.nextId ∧ r.2 = env.mapMemoryOk w.nextId) ∧
    ∃ w2, processReadNode env node w = some w2 ∧
      (∃ c, imageLoads (eventsSince w w2) = [c] ∧ c.staging = some w.nextId ∧
        (w2.nodes node).cachedImage = some c.output) ∧
      ∃ w3, displayNode env node w2 = some w3 ∧ w3.clearScreen = false ∧
        (dispatches (eventsSince w2 w3)).length = 1 := by
  obtain ⟨⟨r, hr⟩, w2, hrun⟩ := processReadNodeLoad_returns env node path colorSpace w hspace
  obtain ⟨hst, hrep⟩ := createImageFromFile_staging env path colorSpace _ r hsample hr
  obtain ⟨c, hl, hcache⟩ := processReadNodeLoad_cache env node path colorSpace w w2 hrun
  have hstaging : c.staging = some w.nextId := by
    have hload := hrun
    simp only [processReadNodeLoad, bind, Option.bind] at hload
    obtain ⟨hev, hloads, -, ⟨image, himage⟩, -⟩ :=
      createImageFromFile_spec env path colorSpace _ r hr
    simp only [hr, himage] at hload
    obtain ⟨hup, hev2⟩ := processReadNodeUpload_spec env node image r.1 w2 hload
    have hsince : eventsSince w w2 =
        eventsSince { w with imagePath := path } r.1 ++ eventsSince r.1 w2 := by
      apply eventsSince_of_append
      rw [hev2, hev, List.append_assoc]
    rw [hsince, imageLoads_append, hloads, hup] at hl
    simp only [imageLoads, List.nil_append, List.cons.injEq, and_true] at hl
    rw [← hl]
    exact hst
  refine ⟨⟨r, hr, hst, hrep⟩, w2, ?_, ⟨c, hl, hstaging, hcache⟩, ?_⟩
  · rw [processReadNode_eq, hsel]
    simp only [Option.some_bind, if_pos hpath]
    exact hrun
  · obtain ⟨w3, d, hdisp, hflag, hd, -, -⟩ := displayNode_cached env node w2 c.output hcache
    exact ⟨w3, hdisp, hflag, by simp [hd]⟩

theorem processReadNode_ignores_device_failure_witness :
    (createImageFromFile unmappableEnv "b.exr" 0
        { sampleWorld with imagePath := "b.exr" }).map Prod.snd = some false ∧
    (∃ r, createImageFromFile unmappableEnv "b.exr" 0
        { sampleWorld with imagePath := "b.exr" } = some r ∧
      r.1.loadImageStaging = some sampleWorld.nextId ∧
      r.2 = unmappableEnv.mapMemoryOk sampleWorld.nextId) ∧
    ∃ w2, processReadNode unmappableEnv 5 sampleWorld = some w2 ∧
      (∃ c, imageLoads (eventsSince sampleWorld w2) = [c] ∧
        c.staging = some sampleWorld.nextId ∧
        (w2.nodes 5).cachedImage = some c.output) ∧
      ∃ w3, displayNode unmappableEnv 5 w2 = some w3 ∧ w3.clearScreen = false ∧
        (dispatches (eventsSince w2 w3)).length = 1 :=
  ⟨by decide, processReadNode_ignores_device_failure unmappableEnv 5 sampleWorld "b.exr" 0
    (by decide) (by decide) (by decide) (Or.inl (by decide))⟩

theorem channelsOp_adds_alpha [Zero F] [One F] (src : ImageBuf F)
    (h : ∀ px, px ∈ src.pixels → px.length = 3) :
    (channelsOp src [0, 1, 2, -1] [0, 0, 0, 1]).nchannels = 4 ∧
    (channelsOp src [0, 1, 2, -1] [0, 0, 0, 1]).pixels = src.pixels.map (fun px => px ++ [1])
    := by
  refine ⟨rfl, ?_⟩
  simp only [channelsOp]
  apply List.map_congr_left
  intro px hpx
  have hlen := h px hpx
  match px, hlen with
  | [a, b, c], _ => simp [List.zip]

/-- C18 fails on the code for a source without alpha that has not exactly
three channels: for the one-channel image of `greyscaleEnv` the buffer
`createImageFromFile` leaves in `cpuImage` still has one channel and no
alpha value. -/
theorem createImageFromFile_greyscale_keeps_one_channel :
    (createImageFromFile greyscaleEnv "grey.png" 0 sampleWorld).map
        (fun r => r.1.cpuImage.map (fun image => (image.nchannels, image.pixels)))
      = some (some (1, [[5]])) := by
  decide

end ReadAndDisplay

section SaveAndUi

variable {F : Type}

/-- C19: on a device that maps the image memory, for a colour space index
in range and an image whose dimensions and number of floats
`width * height * 4` fit an `int`, `saveImageToDisk` returns, and its result
is the result of the one write of the image to the destination path: the log
of the call holds exactly one write, to that path, with that result, so a
failed write is not retried and is reported as `false`. Moreover every call
that returns at all, on any input, returns the result of its one write. -/
theorem saveImageToDisk_reports_write (env : Env F) (saveEnv : SaveEnv F) (image : Nat)
    (path : String) (attributes : List (String × String)) (colorSpace : Int) (w : World F)
    (toSpace : String) (hmap : saveEnv.mapSaveMemoryOk = true)
    (hspace : qAt env.colorSpaces colorSpace = some toSpace)
    (hwidth : (w.heap image).width ≤ 2147483647)
    (hheight : (w.heap image).height ≤ 2147483647)
    (hsize : (w.heap image).width * (w.heap image).height * 4 ≤ 2147483647) :
    (∃ w1 success,
      saveImageToDisk env saveEnv (some image) path attributes colorSpace w
        = some (w1, success) ∧
      success = saveEnv.writeImage path attributes
        (env.applyColorSpace "linear" toSpace
          (imageBufOfMemory (w.heap image).memory (w.heap image).width (w.heap image).height)) ∧
      imageWrites (eventsSince w w1) = [(path, success)]) ∧
    ∀ (inputImage : Option Nat) (space : Int) (w0 : World F) (r : World F × Bool),
      saveImageToDisk env saveEnv inputImage path attributes space w0 = some r →
      imageWrites (eventsSince w0 r.1) = [(path, r.2)] := by
  constructor
  · have h1 : checkedInt ((w.heap image).width : Int) = some ((w.heap image).width : Int) := by
      unfold checkedInt
      rw [if_pos (by omega)]
    have h2 : checkedInt ((w.heap image).height : Int) = some ((w.heap image).height : Int) := by
      unfold checkedInt
      rw [if_pos (by omega)]
    have h3 : checkedInt (((w.heap image).width : Int) * ((w.heap image).height : Int) * 4)
        = some (((w.heap image).width : Int) * ((w.heap image).height : Int) * 4) := by
      unfold checkedInt
      have hnn : (0 : Int) ≤ ((w.heap image).width : Int) * ((w.heap image).height : Int) * 4 := by
        positivity
      have hle : ((w.heap image).width : Int) * ((w.heap image).height : Int) * 4
          ≤ 2147483647 := by
        exact_mod_cast hsize
      rw [if_pos (by omega)]
    simp only [saveImageToDisk, bind, Option.bind, hmap, hspace, waitIdle, World.log, pure,
      h1, h2, h3, Int.toNat_ofNat]
    refine ⟨_, _, rfl, rfl, ?_⟩
    simp [eventsSince, imageWrites]
  · intro inputImage space w0 r h
    cases inputImage with
    | none => simp [saveImageToDisk] at h
    | some img =>
      simp only [saveImageToDisk, bind, Option.bind, waitIdle, World.log, pure] at h
      cases hm : saveEnv.mapSaveMemoryOk with
      | false => simp [hm] at h
      | true =>
        simp only [hm, Bool.not_true, Bool.false_eq_true, if_false] at h
        cases c1 : checkedInt ((w0.heap img).width : Int) with
        | none => simp [c1] at h
        | some width =>
          cases c2 : checkedInt ((w0.heap img).height : Int) with
          | none => simp [c1, c2] at h
          | some height =>
            cases c3 : checkedInt (width * height * 4) with
            | none => simp [c1, c2, c3] at h
            | some numValues =>
              cases c4 : qAt env.colorSpaces space with
              | none => simp [c1, c2, c3, c4] at h
              | some toSpace2 =>
                simp only [c1, c2, c3, c4, Option.some.injEq] at h
                subst h
                simp [eventsSince, imageWrites]

theorem saveImageToDisk_reports_write_witness :
    (∃ w1 success,
      saveImageToDisk sampleEnv fullDiskEnv (some 1) "/out/a.exr" [] 0 sampleWorld
        = some (w1, success) ∧
      success = fullDiskEnv.writeImage "/out/a.exr" []
        (sampleEnv.applyColorSpace "linear" "sRGB"
          (imageBufOfMemory (sampleWorld.heap 1).memory (sampleWorld.heap 1).width
            (sampleWorld.heap 1).height)) ∧
      imageWrites (eventsSince sampleWorld w1) = [("/out/a.exr", success)]) ∧
    ∀ (inputImage : Option Nat) (space : Int) (w0 : World Int) (r : World Int × Bool),
      saveImageToDisk sampleEnv fullDiskEnv inputImage "/out/a.exr" [] space w0 = some r →
      imageWrites (eventsSince w0 r.1) = [("/out/a.exr", r.2)] :=
  saveImageToDisk_reports_write sampleEnv fullDiskEnv 1 "/out/a.exr" [] 0 sampleWorld "sRGB"
    (by decide) (by decide) (by decide) (by decide) (by decide)

/-- What `handleSomeValueChanged` appends to the log, and the dirty flag it
leaves. -/
theorem handleSomeValueChanged_log (p : NodeProperties) (ui : Ui) :
    (handleSomeValueChanged p ui).log =
      ui.log ++ [UiEvent.requestUpdate p.parentNode, UiEvent.projectIsDirty,
        UiEvent.projectTitleChanged (ui.projectManager.currentProject ++ "*")] ∧
    (handleSomeValueChanged p ui).projectManager.projectIsDirty = true := by
  simp [handleSomeValueChanged, handleProjectIsDirty, updateProjectName]

/-- C20: a parameter change reported by an entity that
`selfConnectToValueChanged` has wired to the panel `p` runs
`handleSomeValueChanged` once: the log gains exactly one `requestUpdate` of
the owning node and exactly one `projectIsDirty`, and afterwards the dirty
flag of the project manager is set. -/
theorem value_change_requests_update_once (p : NodeProperties) (ui : Ui) :
    (emitValueChanged (selfConnectToValueChanged p {}) ui).log =
      ui.log ++ [UiEvent.requestUpdate p.parentNode, UiEvent.projectIsDirty,
        UiEvent.projectTitleChanged (ui.projectManager.currentProject ++ "*")] ∧
    ((emitValueChanged (selfConnectToValueChanged p {}) ui).log.drop ui.log.length).count
        (UiEvent.requestUpdate p.parentNode) = 1 ∧
    ((emitValueChanged (selfConnectToValueChanged p {}) ui).log.drop ui.log.length).count
        UiEvent.projectIsDirty = 1 ∧
    (emitValueChanged (selfConnectToValueChanged p {}) ui).projectManager.projectIsDirty = true
    := by
  have h := handleSomeValueChanged_log p ui
  have he : emitValueChanged (selfConnectToValueChanged p {}) ui = handleSomeValueChanged p ui :=
    rfl
  rw [he]
  refine ⟨h.1, ?_, ?_, h.2⟩
  · rw [h.1]; simp [List.count_cons]
  · rw [h.1]; simp [List.count_cons]

end SaveAndUi

section Resolution

variable {F : Type}

/-- C11: after `requestUpdate` on node `a` in a graph whose nodes were all
clean, `needsUpdate` is set for `a`, set for every node reachable from `a`
along output-to-input edges, and not set for any other node. -/
theorem requestUpdate_marks_downstream (g : NodeGraph) (a : Nat)
    (hclean : ∀ n, (g.node n).needsUpdate = false) :
    ((g.requestUpdate a).node a).needsUpdate = true ∧
    (∀ n, Relation.ReflTransGen (Edge (edgesOf g.connections)) a n →
      ((g.requestUpdate a).node n).needsUpdate = true) ∧
    (∀ n, ¬ Relation.ReflTransGen (Edge (edgesOf g.connections)) a n →
      ((g.requestUpdate a).node n).needsUpdate = false) ∧
    (g.requestUpdate a).connections = g.connections := by
  have key : ∀ n, ((g.requestUpdate a).node n).needsUpdate =
      reaches (edgesOf g.connections) a n := by
    intro n
    simp only [NodeGraph.requestUpdate, invalidateDownstream]
    by_cases h : reaches (edgesOf g.connections) a n = true
    · simp [h]
    · simp [h, hclean n]
  refine ⟨?_, ?_, ?_, rfl⟩
  · rw [key]
    exact (reaches_iff _ _ _).mpr Relation.ReflTransGen.refl
  · intro n hn
    rw [key]
    exact (reaches_iff _ _ _).mpr hn
  · intro n hn
    rw [key]
    cases h : reaches (edgesOf g.connections) a n with
    | false => rfl
    | true => exact absurd ((reaches_iff _ _ _).mp h) hn

theorem requestUpdate_marks_downstream_witness :
    ((diamondGraph.requestUpdate 1).node 1).needsUpdate = true ∧
    (∀ n, Relation.ReflTransGen (Edge (edgesOf diamondGraph.connections)) 1 n →
      ((diamondGraph.requestUpdate 1).node n).needsUpdate = true) ∧
    (∀ n, ¬ Relation.ReflTransGen (Edge (edgesOf diamondGraph.connections)) 1 n →
      ((diamondGraph.requestUpdate 1).node n).needsUpdate = false) ∧
    (diamondGraph.requestUpdate 1).connections = diamondGraph.connections :=
  requestUpdate_marks_downstream diamondGraph 1 (fun _ => rfl)

end Resolution

section UpstreamOrder

/-- An upstream node is the source of an edge into the node. -/
theorem upstreamNode_edge (connections : List Connection) (n m : Nat) (slot : InputSlot)
    (h : upstreamNode connections n slot = some m) : (m, n) ∈ edgesOf connections := by
  unfold upstreamNode at h
  cases hf : connections.find? (fun c => c.targetInput == n && c.slot == slot) with
  | none => rw [hf] at h; simp at h
  | some c =>
    rw [hf] at h
    simp only [Option.map_some', Option.some.injEq] at h
    have hmem := List.mem_of_find?_eq_some hf
    have hp := List.find?_some hf
    simp only [Bool.and_eq_true, beq_iff_eq] at hp
    unfold edgesOf
    rw [List.mem_map]
    exact ⟨c, hmem, by rw [h, hp.1]⟩

/-- Filtering with a strictly weaker test keeps strictly more elements. -/
theorem filter_length_lt {α : Type} (p q : α → Bool) :
    ∀ l : List α, (∀ x ∈ l, p x = true → q x = true) →
      (∃ x ∈ l, q x = true ∧ p x = false) →
      (l.filter p).length < (l.filter q).length
  | [], _, hex => by
    obtain ⟨x, hx, _⟩ := hex
    simp at hx
  | a :: l, hpq, hex => by
    have hle : (l.filter p).length ≤ (l.filter q).length := by
      clear hex
      induction l with
      | nil => simp
      | cons b l ih =>
        have ih2 := ih (fun x hx => hpq x (by
          rcases List.mem_cons.mp hx with h | h
          · exact List.mem_cons.mpr (Or.inl h)
          · exact List.mem_cons.mpr (Or.inr (List.mem_cons_of_mem _ h))))
        have hb := hpq b (List.mem_cons_of_mem _ (List.mem_cons_self _ _))
        cases hpb : p b with
        | false =>
          cases hqb : q b with
          | false => simpa [List.filter, hpb, hqb] using ih2
          | true =>
            simp only [List.filter, hpb, hqb, List.length_cons]
            omega
        | true =>
          simp only [List.filter, hpb, hb hpb, List.length_cons]
          omega
    obtain ⟨x, hx, hqx, hpx⟩ := hex
    rcases List.mem_cons.mp hx with h | h
    · subst h
      simp only [List.filter, hqx, hpx, List.length_cons]
      omega
    · have ih := filter_length_lt p q l
        (fun y hy => hpq y (List.mem_cons_of_mem _ hy)) ⟨x, h, hqx, hpx⟩
      have ha := hpq a (List.mem_cons_self _ _)
      cases hpa : p a with
      | false =>
        cases hqa : q a with
        | false => simpa [List.filter, hpa, hqa] using ih
        | true =>
          simp only [List.filter, hpa, hqa, List.length_cons]
          omega
      | true =>
        simp only [List.filter, hpa, ha hpa, List.length_cons]
        omega

/-- The weight is at most the number of edges. -/
theorem upstreamWeight_le (es : List (Nat × Nat)) (n : Nat) :
    upstreamWeight es n ≤ es.length :=
  List.length_filter_le _ _

/-- In an acyclic graph the weight drops along every edge, backwards. -/
theorem upstreamWeight_lt (es : List (Nat × Nat)) (hac : Acyclic es) (m n : Nat)
    (hedge : (m, n) ∈ es) : upstreamWeight es m < upstreamWeight es n := by
  unfold upstreamWeight
  apply filter_length_lt
  · intro e _ he
    have h1 := (reaches_iff es e.2 m).mp he
    exact (reaches_iff es e.2 n).mpr (h1.tail hedge)
  · refine ⟨(m, n), hedge, (reaches_iff es n n).mpr Relation.ReflTransGen.refl, ?_⟩
    cases h : reaches es (m, n).2 m with
    | false => rfl
    | true =>
      have h1 := (reaches_iff es n m).mp h
      exact absurd (Relation.TransGen.head' hedge h1) (hac m)

/-- On an acyclic graph the enumeration returns as soon as the bound exceeds
the weight of the node. -/
theorem getAllUpstreamNodes_returns (connections : List Connection)
    (hac : Acyclic (edgesOf connections)) :
    ∀ fuel node, upstreamWeight (edgesOf connections) node < fuel →
      ∃ l, getAllUpstreamNodes connections fuel node = some l
  | 0, _, h => by omega
  | fuel + 1, node, h => by
    have sub : ∀ slot, ∃ l,
        (match upstreamNode connections node slot with
          | some b => getAllUpstreamNodes connections fuel b
          | none => some []) = some l := by
      intro slot
      cases hu : upstreamNode connections node slot with
      | none => exact ⟨[], rfl⟩
      | some b =>
        have hlt := upstreamWeight_lt _ hac b node (upstreamNode_edge _ _ _ _ hu)
        exact getAllUpstreamNodes_returns connections hac fuel b (by omega)
    obtain ⟨back, hb⟩ := sub InputSlot.back
    obtain ⟨front, hf⟩ := sub InputSlot.front
    refine ⟨back ++ front ++ [node], ?_⟩
    rw [getAllUpstreamNodes, hb, hf]
    rfl

/-- A larger bound does not change the enumeration. -/
theorem getAllUpstreamNodes_mono (connections : List Connection) :
    ∀ fuel fuel2 node l, fuel ≤ fuel2 →
      getAllUpstreamNodes connections fuel node = some l →
      getAllUpstreamNodes connections fuel2 node = some l
  | 0, _, _, _, _, h => by simp [getAllUpstreamNodes] at h
  | fuel + 1, 0, _, _, hle, _ => by omega
  | fuel + 1, fuel2 + 1, node, l, hle, h => by
    have sub : ∀ slot r,
        (match upstreamNode connections node slot with
          | some b => getAllUpstreamNodes connections fuel b
          | none => some []) = some r →
        (match upstreamNode connections node slot with
          | some b => getAllUpstreamNodes connections fuel2 b
          | none => some []) = some r := by
      intro slot r hr
      cases hu : upstreamNode connections node slot with
      | none => rw [hu] at hr; exact hr
      | some b =>
        rw [hu] at hr
        exact getAllUpstreamNodes_mono connections fuel fuel2 b r (by omega) hr
    rw [getAllUpstreamNodes] at h
    cases hb : (match upstreamNode connections node InputSlot.back with
          | some b => getAllUpstreamNodes connections fuel b
          | none => some []) with
    | none => rw [hb] at h; simp at h
    | some back =>
      rw [hb] at h
      cases hf : (match upstreamNode connections node InputSlot.front with
            | some b => getAllUpstreamNodes connections fuel b
            | none => some []) with
      | none => rw [hf] at h; simp at h
      | some front =>
        rw [hf] at h
        rw [getAllUpstreamNodes, sub _ _ hb, sub _ _ hf]
        exact h

end UpstreamOrder

section UpstreamOrderClaims

/-- A graph none of whose edges can be walked back from its target to its
source is acyclic. -/
theorem acyclic_of_no_back_edge (es : List (Nat × Nat))
    (h : ∀ e ∈ es, reaches es e.2 e.1 = false) : Acyclic es := by
  intro n hn
  rcases Relation.TransGen.head'_iff.mp hn with ⟨c, hc, hcn⟩
  have h1 := h (n, c) hc
  have h2 := (reaches_iff es c n).mpr hcn
  simp only [h2] at h1
  exact absurd h1 (by simp)

/-- C12: on an acyclic graph `getAllUpstreamNodes` returns, for every
recursion bound above the number of connections, one and the same list: the
whole enumeration of the back input, then the whole enumeration of the front
input, then the node itself (depth first, the back subtree before the front
subtree). On the fixture A → B (back), A → C (front), B → D, C → D the
enumeration for D is A, B, A, C, D, whose duplicate-free form is
B, A, C, D. -/
theorem getAllUpstreamNodes_order (connections : List Connection)
    (hac : Acyclic (edgesOf connections)) (node : Nat) :
    (∃ back front,
      (match upstreamNode connections node InputSlot.back with
        | some b => getAllUpstreamNodes connections connections.length b = some back
        | none => back = []) ∧
      (match upstreamNode connections node InputSlot.front with
        | some f => getAllUpstreamNodes connections connections.length f = some front
        | none => front = []) ∧
      ∀ fuel, connections.length < fuel →
        getAllUpstreamNodes connections fuel node = some (back ++ front ++ [node])) ∧
    getAllUpstreamNodes diamondConnections (diamondConnections.length + 1) 3 =
      some [0, 1, 0, 2, 3] ∧
    (getAllUpstreamNodes diamondConnections (diamondConnections.length + 1) 3).map
      List.dedup = some [1, 0, 2, 3] := by
  refine ⟨?_, by decide, by decide⟩
  have hlen : (edgesOf connections).length = connections.length := by simp [edgesOf]
  have sub : ∀ slot, ∃ l,
      (match upstreamNode connections node slot with
        | some b => getAllUpstreamNodes connections connections.length b
        | none => some []) = some l := by
    intro slot
    cases hu : upstreamNode connections node slot with
    | none => exact ⟨[], rfl⟩
    | some b =>
      have hlt := upstreamWeight_lt _ hac b node (upstreamNode_edge _ _ _ _ hu)
      have hle := upstreamWeight_le (edgesOf connections) node
      exact getAllUpstreamNodes_returns connections hac _ b (by omega)
  obtain ⟨back, hb⟩ := sub InputSlot.back
  obtain ⟨front, hf⟩ := sub InputSlot.front
  refine ⟨back, front, ?_, ?_, ?_⟩
  · cases hu : upstreamNode connections node InputSlot.back with
    | none => rw [hu] at hb; simpa using hb.symm
    | some b => rw [hu] at hb; exact hb
  · cases hu : upstreamNode connections node InputSlot.front with
    | none => rw [hu] at hf; simpa using hf.symm
    | some b => rw [hu] at hf; exact hf
  · intro fuel hfuel
    apply getAllUpstreamNodes_mono connections (connections.length + 1) fuel node _ (by omega)
    rw [getAllUpstreamNodes, hb, hf]
    rfl

theorem getAllUpstreamNodes_order_witness :
    (∃ back front,
      (match upstreamNode diamondConnections 3 InputSlot.back with
        | some b => getAllUpstreamNodes diamondConnections diamondConnections.length b =
            some back
        | none => back = []) ∧
      (match upstreamNode diamondConnections 3 InputSlot.front with
        | some f => getAllUpstreamNodes diamondConnections diamondConnections.length f =
            some front
        | none => front = []) ∧
      ∀ fuel, diamondConnections.length < fuel →
        getAllUpstreamNodes diamondConnections fuel 3 = some (back ++ front ++ [3])) ∧
    getAllUpstreamNodes diamondConnections (diamondConnections.length + 1) 3 =
      some [0, 1, 0, 2, 3] ∧
    (getAllUpstreamNodes diamondConnections (diamondConnections.length + 1) 3).map
      List.dedup = some [1, 0, 2, 3] :=
  getAllUpstreamNodes_order diamondConnections
    (acyclic_of_no_back_edge _ (by decide)) 3

end UpstreamOrderClaims

section ResolveClaims

variable {F : Type}

/-- What `resolve` returns is the cache slot of the node, and a node it
returns an image for is clean. -/
theorem resolve_result [Zero F] [One F] [Add F] (env : Env F)
    (generative : NodeType → Bool) (targetSize : Nat → QSize)
    (connections : List Connection) (fuel node : Nat) (w w1 : World F) (r : Option Nat)
    (h : resolve env generative targetSize connections fuel node w = some (w1, r)) :
    r = (w1.nodes node).cachedImage ∧ (r ≠ none → (w1.nodes node).needsUpdate = false) := by
  cases fuel with
  | zero => simp [resolve] at h
  | succ fuel =>
    rw [resolve] at h
    by_cases hmemo : (w.nodes node).needsUpdate = false ∧ (w.nodes node).cachedImage ≠ none
    · rw [if_pos hmemo] at h
      simp only [Option.some.injEq, Prod.mk.injEq] at h
      obtain ⟨rfl, rfl⟩ := h
      exact ⟨rfl, fun _ => hmemo.1⟩
    · rw [if_neg hmemo] at h
      simp only [Option.bind_eq_some] at h
      obtain ⟨rb, -, h⟩ := h
      by_cases hflush : generative (w.nodes node).nodeType = false ∧ rb.2 = none
      · rw [if_pos hflush] at h
        simp only [Option.some.injEq, Prod.mk.injEq] at h
        obtain ⟨rfl, rfl⟩ := h
        exact ⟨by simp [flushCache], fun hne => absurd rfl hne⟩
      · rw [if_neg hflush] at h
        simp only [Option.bind_eq_some, Option.some.injEq, Prod.mk.injEq] at h
        obtain ⟨rf, -, w2, -, rfl, rfl⟩ := h
        exact ⟨rfl, fun _ => by simp [clearNeedsUpdate]⟩

/-- C13: when `resolve` has returned an image for a node, a second `resolve`
of the node with nothing in between finds `needsUpdate` false and the cache
non-empty, returns that same image and leaves the world as it is: no event
at all is logged, so no kernel is dispatched. -/
theorem resolve_twice_is_memo_hit [Zero F] [One F] [Add F] (env : Env F)
    (generative : NodeType → Bool) (targetSize : Nat → QSize)
    (connections : List Connection) (fuel fuel2 node : Nat) (w w1 : World F) (image : Nat)
    (h : resolve env generative targetSize connections fuel node w = some (w1, some image)) :
    (w1.nodes node).needsUpdate = false ∧
    (w1.nodes node).cachedImage = some image ∧
    resolve env generative targetSize connections (fuel2 + 1) node w1 =
      some (w1, some image) ∧
    ∀ w2 r, resolve env generative targetSize connections (fuel2 + 1) node w1 =
        some (w2, r) →
      eventsSince w1 w2 = [] ∧ dispatches (eventsSince w1 w2) = [] := by
  obtain ⟨hc, hn⟩ := resolve_result env generative targetSize connections fuel node w w1 _ h
  have hn := hn (by simp)
  have hrun : resolve env generative targetSize connections (fuel2 + 1) node w1 =
      some (w1, some image) := by
    rw [resolve, if_pos ⟨hn, by rw [← hc]; simp⟩, ← hc]
  refine ⟨hn, hc.symm, hrun, ?_⟩
  intro w2 r h2
  rw [hrun] at h2
  simp only [Option.some.injEq, Prod.mk.injEq] at h2
  obtain ⟨rfl, -⟩ := h2
  simp [eventsSince, dispatches]

end ResolveClaims

section ResolveWitnesses

theorem resolve_twice_is_memo_hit_witness :
    ∃ w1 image,
      resolve sampleEnv sampleGenerative sampleTargetSize sampleConnections 2 1 sampleWorld =
        some (w1, some image) ∧
      (w1.nodes 1).needsUpdate = false ∧
      (w1.nodes 1).cachedImage = some image ∧
      resolve sampleEnv sampleGenerative sampleTargetSize sampleConnections (0 + 1) 1 w1 =
        some (w1, some image) ∧
      ∀ w2 r, resolve sampleEnv sampleGenerative sampleTargetSize sampleConnections
          (0 + 1) 1 w1 = some (w2, r) →
        eventsSince w1 w2 = [] ∧ dispatches (eventsSince w1 w2) = [] := by
  have hs : (resolve sampleEnv sampleGenerative sampleTargetSize sampleConnections 2 1
      sampleWorld).map Prod.snd = some (some 13) := by decide
  cases h : resolve sampleEnv sampleGenerative sampleTargetSize sampleConnections 2 1
      sampleWorld with
  | none =>
    rw [h] at hs
    simp at hs
  | some p =>
    obtain ⟨w1, r⟩ := p
    rw [h] at hs
    simp only [Option.map_some', Option.some.injEq] at hs
    subst hs
    exact ⟨w1, 13, rfl, resolve_twice_is_memo_hit sampleEnv sampleGenerative
      sampleTargetSize sampleConnections 2 0 1 sampleWorld w1 13 h⟩

end ResolveWitnesses

section Descriptors

variable {F : Type}

/-- C25: with a back image and an output image, `updateComputeDescriptors`
returns and writes four descriptors: binding 0 is the back image, binding 2
the output image, binding 3 the settings buffer, and binding 1 the front
image when one is supplied and the back image otherwise; the descriptor set
the dispatches read holds the same three images. -/
theorem updateComputeDescriptors_bindings (back out : Nat) (front : Option Nat)
    (w : World F) :
    ∃ w1 writes, updateComputeDescriptors (some back) front (some out) w = some w1 ∧
      descWrite (some back) front (some out) = some writes ∧
      writes.map (fun d => d.dstBinding) = [0, 1, 2, 3] ∧
      boundAt writes 0 = some (DescriptorResource.imageView back) ∧
      boundAt writes 1 = some (DescriptorResource.imageView (front.getD back)) ∧
      boundAt writes 2 = some (DescriptorResource.imageView out) ∧
      boundAt writes 3 = some DescriptorResource.settingsBuffer ∧
      w1.computeDescriptorSet = some (back, front.getD back, out) ∧
      descriptorWrites (eventsSince w w1) = [(back, front.getD back, out)] := by
  cases front with
  | none =>
    refine ⟨_, _, rfl, rfl, rfl, rfl, rfl, rfl, rfl, rfl, ?_⟩
    simp [eventsSince, waitIdle, World.log, descriptorWrites]
  | some f =>
    refine ⟨_, _, rfl, rfl, rfl, rfl, rfl, rfl, rfl, rfl, ?_⟩
    simp [eventsSince, waitIdle, World.log, descriptorWrites]

end Descriptors

section Ownership

variable {F : Type}

end Ownership

section Payload

variable {F : Type}

/-- C24: the settings payload of the first dispatch of `processNode` (pass
count `P ≥ 1`) is the property values of the node as the settings buffer
parses them, followed by the mask flag, 1 with a front image and 0 without,
and, for `P > 1` only, followed by the pass index, which is 0. -/
theorem first_dispatch_payload [Zero F] [One F] [Add F] (env : Env F) (node : Nat)
    (back front : Option Nat) (targetSize : QSize) (w : World F)
    (hP : 1 ≤ numPasses env node w) (h01 : (0 : F) + 1 = 1) :
    ∃ w1 d rest, processNode env node back front targetSize w = some w1 ∧
      dispatches (eventsSince w w1) = d :: rest ∧
      d.settings =
        env.fillBuffer (w.nodes node).allPropertyValues
          ++ [if front.isSome then (1 : F) else 0]
          ++ (if numPasses env node w = 1 then [] else [(0 : F)]) := by
  have hflag : maskFlag front = if front.isSome then (1 : F) else 0 := by
    cases front with
    | none => rfl
    | some f => simp [maskFlag, h01]
  by_cases h1 : numPasses env node w = 1
  · obtain ⟨w1, hrun, hd, -⟩ := processNode_single_log env node back front targetSize w h1
    refine ⟨w1, _, [], hrun, hd, ?_⟩
    simp [singleDispatch, basePayload, hflag, h1]
  · have h2 : 2 ≤ numPasses env node w := by omega
    obtain ⟨w1, hrun, hd, -⟩ := processNode_multi_log env node back front targetSize w h2
    obtain ⟨k, hk⟩ : ∃ k, (numPasses env node w).toNat = k + 1 :=
      ⟨(numPasses env node w).toNat - 1, by omega⟩
    rw [hk, List.range_succ_eq_map, List.map_cons] at hd
    refine ⟨w1, _, _, hrun, hd, ?_⟩
    simp [nodeDispatch, passDispatch, basePayload, hflag, h1, passIndex]

theorem first_dispatch_payload_witness :
    ∃ w1 d rest, processNode sampleEnv 0 (some 1) (some 2) ⟨1, 1⟩ sampleWorld = some w1 ∧
      dispatches (eventsSince sampleWorld w1) = d :: rest ∧
      d.settings =
        sampleEnv.fillBuffer (sampleWorld.nodes 0).allPropertyValues
          ++ [if (some 2 : Option Nat).isSome then (1 : Int) else 0]
          ++ (if numPasses sampleEnv 0 sampleWorld = 1 then [] else [(0 : Int)]) :=
  first_dispatch_payload sampleEnv 0 (some 1) (some 2) ⟨1, 1⟩ sampleWorld (by decide)
    (by decide)

end Payload

section LinearImage

variable {F : Type}

/-- An `int` computation whose exact result fits an `int` yields it. -/
theorem wrapInt32_natCast (n : Nat) (h : n < 2147483648) : wrapInt32 (n : Int) = n := by
  unfold wrapInt32 toUInt32 toInt32
  have e : ((n : Int) % 4294967296).toNat = n := by omega
  have e2 : n % 4294967296 = n := Nat.mod_eq_of_lt (by omega)
  rw [e, e2, if_pos h]

/-- The three `int` quantities of the row loop, for a width whose line width
fits an `int` and a stride that fits an `int`. -/
theorem copyRows_ints (w st : Nat) (pad : Int) (hst : (w : Int) * 4 + pad = st)
    (hw : 16 * w < 2147483648) (hs : st < 2147483648) :
    wrapInt32 ((w : Int) * 4) = ((w * 4 : Nat) : Int) ∧
    wrapInt32 (wrapInt32 ((w : Int) * 4) + pad) = (st : Int) ∧
    toUInt64 (wrapInt32 ((w : Int) * 16)) / 4 = 4 * w := by
  have e4 : wrapInt32 ((w : Int) * 4) = ((w * 4 : Nat) : Int) := by
    have := wrapInt32_natCast (w * 4) (by omega)
    rw [← this]
    push_cast
    rfl
  have e16 : wrapInt32 ((w : Int) * 16) = ((w * 16 : Nat) : Int) := by
    have := wrapInt32_natCast (w * 16) (by omega)
    rw [← this]
    push_cast
    rfl
  refine ⟨e4, ?_, ?_⟩
  · rw [e4]
    have : ((w * 4 : Nat) : Int) + pad = (st : Int) := by
      rw [← hst]
      push_cast
      ring
    rw [this]
    exact wrapInt32_natCast st hs
  · rw [e16]
    unfold toUInt64
    have : (((w * 16 : Nat) : Int) % 18446744073709551616).toNat = w * 16 := by omega
    rw [this]
    omega

/-- A float outside every row the loop of `writeLinearImage` still has to copy
keeps its value. -/
theorem copyRows_outside (src : List F) (w st : Nat) (pad : Int)
    (hst : (w : Int) * 4 + pad = st) (hw : 16 * w < 2147483648) (hs : st < 2147483648) :
    ∀ (rows pixels p : Nat) (mem : Nat → F) (j : Nat),
      (∀ y, y < rows → ¬ (p + y * st ≤ j ∧ j < p + y * st + 4 * w)) →
      copyRows src w pad rows pixels p mem j = mem j
  | 0, _, _, _, _, _ => rfl
  | rows + 1, pixels, p, mem, j, h => by
    obtain ⟨i4, ist, i16⟩ := copyRows_ints w st pad hst hw hs
    have e1 : (pixels : Int) + ((w * 4 : Nat) : Int) = ((pixels + w * 4 : Nat) : Int) := by
      push_cast; ring
    have e2 : (p : Int) + (st : Int) = ((p + st : Nat) : Int) := by
      push_cast; ring
    rw [copyRows, ist, i4, i16, e1, e2,
      copyRows_outside src w st pad hst hw hs rows (pixels + w * 4) (p + st)]
    · have h0 := h 0 (by omega)
      simp only [memcpyFloats]
      rw [if_neg]
      intro hc
      apply h0
      omega
    · intro y hy hc
      apply h (y + 1) (by omega)
      have : (y + 1) * st = y * st + st := by ring
      omega

/-- A float of row `y` of the source lands `y` strides further in the mapped
memory. -/
theorem copyRows_inside (src : List F) (w st : Nat) (pad : Int)
    (hst : (w : Int) * 4 + pad = st) (hle : 4 * w ≤ st) (hw : 16 * w < 2147483648)
    (hs : st < 2147483648) :
    ∀ (rows pixels p : Nat) (mem : Nat → F) (y x : Nat) (v : F),
      y < rows → x < 4 * w → src[pixels + y * (4 * w) + x]? = some v →
      copyRows src w pad rows pixels p mem (p + y * st + x) = v
  | 0, _, _, _, _, _, _, hy, _, _ => by omega
  | rows + 1, pixels, p, mem, y, x, v, hy, hx, hv => by
    obtain ⟨i4, ist, i16⟩ := copyRows_ints w st pad hst hw hs
    have e1 : (pixels : Int) + ((w * 4 : Nat) : Int) = ((pixels + w * 4 : Nat) : Int) := by
      push_cast; ring
    have e2 : (p : Int) + (st : Int) = ((p + st : Nat) : Int) := by
      push_cast; ring
    rw [copyRows, ist, i4, i16, e1, e2]
    cases y with
    | zero =>
      rw [copyRows_outside src w st pad hst hw hs rows]
      · simp only [memcpyFloats]
        rw [if_pos (by constructor <;> push_cast <;> omega)]
        have hidx : ((p + 0 * st + x : Nat) : Int) - (p : Int) + (pixels : Int)
            = ((pixels + 0 * (4 * w) + x : Nat) : Int) := by
          push_cast; ring
        rw [hidx, qAt, if_pos (by omega), Int.toNat_ofNat, hv]
      · intro y2 hy2 hc
        have : 0 ≤ y2 * st := Nat.zero_le _
        omega
    | succ y =>
      have hidx : p + (y + 1) * st + x = (p + st) + y * st + x := by ring
      rw [hidx]
      apply copyRows_inside src w st pad hst hle hw hs rows (pixels + w * 4) (p + st) _ y x v
        (by omega) hx
      have : pixels + w * 4 + y * (4 * w) + x = pixels + (y + 1) * (4 * w) + x := by ring
      rw [this]
      exact hv

/-- The padding `writeLinearImage` computes for a row pitch that leaves room
for a row and whose stride fits an `int`. -/
theorem writeLinearImage_pad (w R : Nat) (hR : 16 * w ≤ R) (hdiv : 4 ∣ R)
    (hs : R / 4 < 2147483648) (hw : 16 * w < 2147483648) :
    (w : Int) * 4 + toInt32 (((R + 18446744073709551616
        - toUInt64 (wrapInt32 ((w : Int) * 16)))
        % 18446744073709551616) / 4) = ((R / 4 : Nat) : Int) := by
  obtain ⟨k, rfl⟩ := hdiv
  have e16 : wrapInt32 ((w : Int) * 16) = ((w * 16 : Nat) : Int) := by
    have := wrapInt32_natCast (w * 16) (by omega)
    rw [← this]
    push_cast
    rfl
  have h1 : toUInt64 (wrapInt32 ((w : Int) * 16)) = w * 16 := by
    rw [e16]
    unfold toUInt64
    omega
  have h2 : (4 * k + 18446744073709551616 - w * 16) % 18446744073709551616
      = 4 * k - w * 16 := by
    have : 4 * k + 18446744073709551616 - w * 16 = (4 * k - w * 16) + 18446744073709551616 := by
      omega
    rw [this, Nat.add_mod_right]
    exact Nat.mod_eq_of_lt (by omega)
  have h3 : (4 * k - w * 16) / 4 = k - 4 * w := by omega
  rw [h1, h2, h3]
  have h5 : toInt32 (k - 4 * w) = ((k - 4 * w : Nat) : Int) := by
    unfold toInt32
    have : (k - 4 * w) % 4294967296 = k - 4 * w := Nat.mod_eq_of_lt (by omega)
    rw [this, if_pos (by omega)]
  rw [h5]
  have : 4 * k / 4 = k := by omega
  rw [this]
  omega

end LinearImage

section LinearImageClaims

variable {F : Type}

/-- C26, as stated, fails for a row pitch whose excess over the row does not
fit the `int` it is stored in: with a pitch of `2 ^ 33 + 16` bytes
(divisible by 4, at least `16 * 1`) and a `1 x 2` image, the mapping
succeeds and the result is true, yet the float at source index
`1 * 4 * 1 + 0`, which is 5, does not reach mapped index
`1 * (R / 4) + 0`, which keeps its old value 0. -/
theorem writeLinearImage_huge_pitch_misses_row :
    hugePitchEnv.mapMemoryOk 1 = true ∧
    16 * 1 ≤ hugePitchEnv.rowPitch 1 ∧ 4 ∣ hugePitchEnv.rowPitch 1 ∧
    ([1, 2, 3, 4, 5, 6, 7, 8] : List Int)[1 * 4 * 1 + 0]? = some 5 ∧
    (writeLinearImage hugePitchEnv [1, 2, 3, 4, 5, 6, 7, 8] ⟨1, 2⟩ 1 sampleWorld).2 = true ∧
    ((writeLinearImage hugePitchEnv [1, 2, 3, 4, 5, 6, 7, 8] ⟨1, 2⟩ 1 sampleWorld).1.heap
      1).memory (1 * (hugePitchEnv.rowPitch 1 / 4) + 0) = 0 := by
  refine ⟨by decide, by decide, by decide, by decide, by decide, by decide⟩

/-- C26, amended: for a tightly packed `w x h` RGBA float image and a row
pitch of `R` bytes with `R ≥ 16 * w`, `R` divisible by 4 and both `16 * w`
and `R / 4` below `2 ^ 31` (the line width in bytes and the row stride in
floats are held in an `int`), when the mapping succeeds the float at source
index `y * 4 * w + x` is written to mapped index `y * (R / 4) + x` for every
`y < h` and `x < 4 * w`, no other mapped float and no other image is written,
and the result is true; when the mapping fails nothing is written and the
result is false. -/
theorem writeLinearImage_copies_rows (env : Env F) (imgStart : List F) (w h image : Nat)
    (wd : World F) (hw : 16 * w < 2147483648)
    (hsrc : 4 * w * h ≤ imgStart.length)
    (hR : 16 * w ≤ env.rowPitch image) (hdiv : 4 ∣ env.rowPitch image)
    (hstride : env.rowPitch image / 4 < 2147483648) :
    (env.mapMemoryOk image = true →
      (writeLinearImage env imgStart ⟨w, h⟩ image wd).2 = true ∧
      (∀ y x, y < h → x < 4 * w →
        some (((writeLinearImage env imgStart ⟨w, h⟩ image wd).1.heap image).memory
          (y * (env.rowPitch image / 4) + x)) = imgStart[y * 4 * w + x]?) ∧
      (∀ j, (∀ y x, y < h → x < 4 * w → j ≠ y * (env.rowPitch image / 4) + x) →
        ((writeLinearImage env imgStart ⟨w, h⟩ image wd).1.heap image).memory j =
          (wd.heap image).memory j) ∧
      (∀ i, i ≠ image →
        (writeLinearImage env imgStart ⟨w, h⟩ image wd).1.heap i = wd.heap i)) ∧
    (env.mapMemoryOk image = false →
      writeLinearImage env imgStart ⟨w, h⟩ image wd = (wd, false)) := by
  have hpad := writeLinearImage_pad w (env.rowPitch image) hR hdiv hstride hw
  have hle : 4 * w ≤ env.rowPitch image / 4 := by
    obtain ⟨k, hk⟩ := hdiv
    omega
  constructor
  · intro hmap
    simp only [writeLinearImage, hmap, if_true, Int.toNat_ofNat, Function.update_same]
    refine ⟨trivial, ?_, ?_, ?_⟩
    · intro y x hy hx
      have hlt : y * 4 * w + x < imgStart.length := by
        have : y * (4 * w) + 4 * w ≤ h * (4 * w) := by
          have := Nat.mul_le_mul_right (4 * w) (Nat.succ_le_of_lt hy)
          simpa [Nat.succ_mul] using this
        have e1 : y * 4 * w = y * (4 * w) := by ring
        have e2 : 4 * w * h = h * (4 * w) := by ring
        omega
      rw [List.getElem?_eq_getElem hlt]
      congr 1
      have key := copyRows_inside imgStart w (env.rowPitch image / 4) _ hpad hle hw hstride
        h 0 0 (wd.heap image).memory y x imgStart[y * 4 * w + x] hy hx
        (by
          have e : 0 + y * (4 * w) + x = y * 4 * w + x := by ring
          rw [e, List.getElem?_eq_getElem hlt])
      simpa using key
    · intro j hj
      have key := copyRows_outside imgStart w (env.rowPitch image / 4) _ hpad hw hstride h 0 0
        (wd.heap image).memory j
        (by
          intro y hy hc
          apply hj y (j - y * (env.rowPitch image / 4)) hy <;> omega)
      simpa using key
    · intro i hi
      simp [Function.update_noteq hi]
  · intro hmap
    simp [writeLinearImage, hmap]

theorem writeLinearImage_copies_rows_witness :
    (writeLinearImage paddedPitchEnv [1, 2, 3, 4, 5, 6, 7, 8] ⟨(1 : Nat), (2 : Nat)⟩ 1
        sampleWorld).2 = true ∧
      (∀ y x, y < 2 → x < 4 * 1 →
        some (((writeLinearImage paddedPitchEnv [1, 2, 3, 4, 5, 6, 7, 8]
          ⟨(1 : Nat), (2 : Nat)⟩ 1 sampleWorld).1.heap 1).memory
          (y * (paddedPitchEnv.rowPitch 1 / 4) + x)) =
            ([1, 2, 3, 4, 5, 6, 7, 8] : List Int)[y * 4 * 1 + x]?) ∧
      (∀ j, (∀ y x, y < 2 → x < 4 * 1 → j ≠ y * (paddedPitchEnv.rowPitch 1 / 4) + x) →
        ((writeLinearImage paddedPitchEnv [1, 2, 3, 4, 5, 6, 7, 8] ⟨(1 : Nat), (2 : Nat)⟩ 1
          sampleWorld).1.heap 1).memory j = (sampleWorld.heap 1).memory j) ∧
      (∀ i, i ≠ 1 →
        (writeLinearImage paddedPitchEnv [1, 2, 3, 4, 5, 6, 7, 8] ⟨(1 : Nat), (2 : Nat)⟩ 1
          sampleWorld).1.heap i = sampleWorld.heap i) :=
  (writeLinearImage_copies_rows paddedPitchEnv [1, 2, 3, 4, 5, 6, 7, 8] 1 2 1 sampleWorld
    (by decide) (by decide) (by decide) (by decide) (by decide)).1 (by decide)

end LinearImageClaims

section PanelEntities

/-- C21: for every combination of the four check states,
`loadPropertyValues` applied, on an entity in any state, to the string
`getValuesAsString` returns (the states as 0 or 1 joined by commas in the
order red, green, blue, alpha) returns with exactly those four states. -/
theorem channelSelect_roundtrip (e e0 : ChannelSelectEntity) :
    e0.loadPropertyValues e.getValuesAsString = some e ∧
    e.getValuesAsString =
      String.intercalate ","
        [qNumberOfBool e.redBox, qNumberOfBool e.greenBox, qNumberOfBool e.blueBox,
          qNumberOfBool e.alphaBox] ∧
    qSplit e.getValuesAsString =
      [qNumberOfBool e.redBox, qNumberOfBool e.greenBox, qNumberOfBool e.blueBox,
        qNumberOfBool e.alphaBox] := by
  obtain ⟨r, g, b, a⟩ := e
  cases r <;> cases g <;> cases b <;> cases a <;> exact ⟨rfl, by decide, by decide⟩

end PanelEntities

section PanelWidgets

/-- The constructor loop appends, in order, one widget for every element
that bears a value. -/
theorem foldlM_addElement (uiElements : List (UIElementType × String)) :
    ∀ acc ws, uiElements.foldlM addElement acc = some ws →
      ws.map Widget.element = acc.map Widget.element ++ uiElements.filter bearsValue := by
  induction uiElements with
  | nil =>
    intro acc ws h
    simp only [List.foldlM, pure, Option.some.injEq] at h
    subst h
    simp
  | cons elem rest ih =>
    intro acc ws h
    simp only [List.foldlM, bind, Option.bind] at h
    cases ha : addElement acc elem with
    | none => simp [ha] at h
    | some acc2 =>
      simp only [ha] at h
      rw [ih acc2 ws h]
      obtain ⟨t, s⟩ := elem
      cases t <;>
        simp only [addElement, fieldsAt, Option.map_eq_some', Option.some.injEq] at ha <;>
        first
        | (subst ha; simp [bearsValue])
        | (obtain ⟨_, _, rfl⟩ := ha; simp [bearsValue])

/-- The loop of `loadNodePropertyValues` inside the vector: one call per
index, in order. -/
theorem loadNodePropertyValuesFrom_inside (widgets : List Widget) (values : QMap) :
    ∀ n i, i + n ≤ widgets.length →
      loadNodePropertyValuesFrom widgets values n i =
        some ((List.range' i n).map (fun (k : Nat) => (k, values.value (k : Int))))
  | 0, _, _ => rfl
  | n + 1, i, h => by
    have hi : i < widgets.length := by omega
    rw [loadNodePropertyValuesFrom, List.getElem?_eq_getElem hi, Option.some_bind,
      loadNodePropertyValuesFrom_inside widgets values n (i + 1) (by omega)]
    rfl

/-- The loop of `loadNodePropertyValues` faults when it runs past the
vector. -/
theorem loadNodePropertyValuesFrom_outside (widgets : List Widget) (values : QMap) :
    ∀ n i, i ≤ widgets.length → widgets.length < i + n →
      loadNodePropertyValuesFrom widgets values n i = none
  | 0, i, h1, h2 => by omega
  | n + 1, i, h1, h2 => by
    rw [loadNodePropertyValuesFrom]
    by_cases hi : i < widgets.length
    · rw [List.getElem?_eq_getElem hi, Option.some_bind,
        loadNodePropertyValuesFrom_outside widgets values n (i + 1) (by omega) (by omega)]
      rfl
    · rw [List.getElem?_eq_none (by omega)]
      rfl

/-- C30: the vector `widgets` holds, in construction order, one widget for
every element that is not a heading (and is of a known type). Applied to a
map of `m` stored values with `m` no larger than the number of widgets,
`loadNodePropertyValues` returns after exactly `m` calls, the `i`-th of them
on widget `i` with the value stored under key `i` (the empty string when the
map stores nothing under `i`), and touches no widget from index `m` on; a
map with more keys than there are widgets runs the lookup out of bounds. -/
theorem loadNodePropertyValues_by_index (uiElements : List (UIElementType × String))
    (widgets : List Widget) (values : QMap)
    (hbuild : buildWidgets uiElements = some widgets) :
    widgets.map Widget.element = uiElements.filter bearsValue ∧
    (values.size ≤ widgets.length →
      ∃ calls, loadNodePropertyValues widgets values = some calls ∧
        calls.length = values.size ∧
        (∀ i, i < values.size → calls[i]? = some (i, values.value (i : Int))) ∧
        (∀ i v, i < values.size → values.lookup (i : Int) = some v →
          calls[i]? = some (i, v)) ∧
        (∀ c, c ∈ calls → c.1 < values.size)) ∧
    (widgets.length < values.size → loadNodePropertyValues widgets values = none) := by
  refine ⟨?_, ?_, ?_⟩
  · have h := foldlM_addElement uiElements [] widgets hbuild
    simpa using h
  · intro hm
    refine ⟨_, loadNodePropertyValuesFrom_inside widgets values values.size 0 (by omega),
      by simp, ?_, ?_, ?_⟩
    · intro i hi
      simp [List.getElem?_map, List.getElem?_range', hi]
    · intro i v hi hv
      simp [List.getElem?_map, List.getElem?_range', hi, QMap.value, hv]
    · intro c hc
      simp only [List.mem_map, List.mem_range'_1] at hc
      obtain ⟨k, ⟨-, hk⟩, rfl⟩ := hc
      simpa using hk
  · intro hm
    exact loadNodePropertyValuesFrom_outside widgets values values.size 0 (by omega) (by omega)

theorem loadNodePropertyValues_by_index_witness :
    ([⟨UIElementType.UI_ELEMENT_TYPE_CHANNEL_SELECT,
        (UIElementType.UI_ELEMENT_TYPE_CHANNEL_SELECT, "0")⟩,
      ⟨UIElementType.UI_ELEMENT_TYPE_SEPARATOR, (UIElementType.UI_ELEMENT_TYPE_SEPARATOR, "")⟩,
      ⟨UIElementType.UI_ELEMENT_TYPE_CHECKBOX,
        (UIElementType.UI_ELEMENT_TYPE_CHECKBOX, "Invert,0")⟩] : List Widget).map
        Widget.element = sampleUiElements.filter bearsValue ∧
    ∃ calls, loadNodePropertyValues
        [⟨UIElementType.UI_ELEMENT_TYPE_CHANNEL_SELECT,
          (UIElementType.UI_ELEMENT_TYPE_CHANNEL_SELECT, "0")⟩,
        ⟨UIElementType.UI_ELEMENT_TYPE_SEPARATOR,
          (UIElementType.UI_ELEMENT_TYPE_SEPARATOR, "")⟩,
        ⟨UIElementType.UI_ELEMENT_TYPE_CHECKBOX,
          (UIElementType.UI_ELEMENT_TYPE_CHECKBOX, "Invert,0")⟩] sampleValues = some calls ∧
      calls.length = sampleValues.size ∧
      (∀ i, i < sampleValues.size → calls[i]? = some (i, sampleValues.value (i : Int))) ∧
      (∀ i v, i < sampleValues.size → sampleValues.lookup (i : Int) = some v →
        calls[i]? = some (i, v)) ∧
      (∀ c, c ∈ calls → c.1 < sampleValues.size) :=
  have h := loadNodePropertyValues_by_index sampleUiElements _ sampleValues
    (show buildWidgets sampleUiElements = some _ by decide)
  ⟨h.1, h.2.1 (by decide)⟩

end PanelWidgets

section ReadPath

variable {F : Type}

/-- C27, as stated, fails. For the property string `-1,0` (no file entry,
current index -1, colour space 0; two fields) the position `max(-1, 0) = 0`
is none of the first `n - 2 = 0` fields: the path `processReadNode` takes is
the index field `-1` itself. For `a.exr,7,0` the position 7 is past the
three fields and the lookup is not in bounds. -/
theorem processReadNode_takes_index_field_as_path :
    (qSplit (emptyReadWorld.nodes 5).allPropertyValues).length = 2 ∧
    (qSplit (emptyReadWorld.nodes 5).allPropertyValues).take (2 - 2) = [] ∧
    (qSplit (emptyReadWorld.nodes 5).allPropertyValues)[2 - 2]? = some "-1" ∧
    readSelection (emptyReadWorld.nodes 5).allPropertyValues = some ("-1", 0) ∧
    (qSplit (staleIndexWorld.nodes 5).allPropertyValues).length = 3 ∧
    readSelection (staleIndexWorld.nodes 5).allPropertyValues = none ∧
    (processReadNode sampleEnv 5 staleIndexWorld).isNone = true := by
  refine ⟨by decide, by decide, by decide, by decide, by decide, by decide, by decide⟩

/-- C27, amended: for a property string with `n ≥ 2` fields and `i` the
integer value of the second-to-last field, `processReadNode` looks up the
field at position `max(i, 0)`. When that position is below `n` the field
found is the path, whichever field it is, and the call goes on as for any
path (file check, then load or cache flush); when the position is below
`n - 2` the path is one of the file entries. -/
theorem processReadNode_path_position [Zero F] [One F] (env : Env F) (node : Nat)
    (w : World F) (hn : 2 ≤ (qSplit (w.nodes node).allPropertyValues).length) :
    ∃ indexField,
      (qSplit (w.nodes node).allPropertyValues)[
        (qSplit (w.nodes node).allPropertyValues).length - 2]? = some indexField ∧
      (max (qToInt indexField) 0 < (qSplit (w.nodes node).allPropertyValues).length →
        ∃ path colorSpace,
          (qSplit (w.nodes node).allPropertyValues)[(max (qToInt indexField) 0).toNat]?
            = some path ∧
          readSelection (w.nodes node).allPropertyValues = some (path, colorSpace) ∧
          processReadNode env node w =
            if pathIsLoadable env path then processReadNodeLoad env node path colorSpace w
            else some (flushCache node w)) ∧
      (max (qToInt indexField) 0 + 2 < (qSplit (w.nodes node).allPropertyValues).length →
        ∃ path colorSpace,
          readSelection (w.nodes node).allPropertyValues = some (path, colorSpace) ∧
          path ∈ (qSplit (w.nodes node).allPropertyValues).take
            ((qSplit (w.nodes node).allPropertyValues).length - 2)) := by
  obtain ⟨parts, hparts⟩ : ∃ parts, qSplit (w.nodes node).allPropertyValues = parts :=
    ⟨_, rfl⟩
  rw [hparts] at hn ⊢
  have hlt : parts.length - 2 < parts.length := by omega
  have hI : qAt parts ((parts.length : Int) - 2) = some parts[parts.length - 2] := by
    unfold qAt
    have e : ((parts.length : Int) - 2).toNat = parts.length - 2 := by omega
    rw [if_pos (by omega), e]
    exact List.getElem?_eq_getElem hlt
  have hclamp : ∀ i : Int, (if i < 0 then 0 else i) = max i 0 := by
    intro i
    split_ifs <;> omega
  have hlast : parts.getLast? = some (parts.getLast (by intro h; simp [h] at hn)) :=
    List.getLast?_eq_getLast _ _
  have hsel : readSelection (w.nodes node).allPropertyValues =
      (qAt parts (max (qToInt parts[parts.length - 2]) 0)).map (fun path =>
        (path, qToInt (parts.getLast (by intro h; simp [h] at hn)))) := by
    simp only [readSelection, hparts, hI, hclamp, hlast, bind, Option.bind, pure]
    cases qAt parts (max (qToInt parts[parts.length - 2]) 0) <;> rfl
  have hpos : (0 : Int) ≤ max (qToInt parts[parts.length - 2]) 0 := le_max_right _ _
  refine ⟨parts[parts.length - 2], List.getElem?_eq_getElem hlt, ?_, ?_⟩
  · intro hin
    have hidx : (max (qToInt parts[parts.length - 2]) 0).toNat < parts.length := by omega
    have hq : qAt parts (max (qToInt parts[parts.length - 2]) 0) =
        some parts[(max (qToInt parts[parts.length - 2]) 0).toNat] := by
      unfold qAt
      rw [if_pos hpos]
      exact List.getElem?_eq_getElem hidx
    refine ⟨_, _, List.getElem?_eq_getElem hidx, by rw [hsel, hq]; rfl, ?_⟩
    rw [processReadNode_eq, hsel, hq]
    rfl
  · intro hin
    have hidx : (max (qToInt parts[parts.length - 2]) 0).toNat < parts.length := by omega
    have hq : qAt parts (max (qToInt parts[parts.length - 2]) 0) =
        some parts[(max (qToInt parts[parts.length - 2]) 0).toNat] := by
      unfold qAt
      rw [if_pos hpos]
      exact List.getElem?_eq_getElem hidx
    refine ⟨_, _, by rw [hsel, hq]; rfl, ?_⟩
    rw [List.mem_take_iff_getElem]
    exact ⟨(max (qToInt parts[parts.length - 2]) 0).toNat, by omega, rfl⟩

end ReadPath

section ReadPathWitness

theorem processReadNode_path_position_witness :
    (qSplit (sampleWorld.nodes 5).allPropertyValues)[
      (qSplit (sampleWorld.nodes 5).allPropertyValues).length - 2]? = some "1" ∧
    (∃ path colorSpace,
      (qSplit (sampleWorld.nodes 5).allPropertyValues)[(max (qToInt "1") 0).toNat]?
        = some path ∧
      readSelection (sampleWorld.nodes 5).allPropertyValues = some (path, colorSpace) ∧
      processReadNode sampleEnv 5 sampleWorld =
        if pathIsLoadable sampleEnv path then
          processReadNodeLoad sampleEnv 5 path colorSpace sampleWorld
        else some (flushCache 5 sampleWorld)) ∧
    ∃ path colorSpace,
      readSelection (sampleWorld.nodes 5).allPropertyValues = some (path, colorSpace) ∧
      path ∈ (qSplit (sampleWorld.nodes 5).allPropertyValues).take
        ((qSplit (sampleWorld.nodes 5).allPropertyValues).length - 2) := by
  obtain ⟨indexField, hfield, hin, hfile⟩ :=
    processReadNode_path_position sampleEnv 5 sampleWorld (by decide)
  have hone : (qSplit (sampleWorld.nodes 5).allPropertyValues)[
      (qSplit (sampleWorld.nodes 5).allPropertyValues).length - 2]? = some "1" := by decide
  rw [hone] at hfield
  cases hfield
  exact ⟨hone, hin (by decide), hfile (by decide)⟩

end ReadPathWitness

section ProjectClaims

variable {α β : Type}

/-- C22: the document `getJsonFromNodeGraph` builds stores the node-graph
array under the key `nodegraph`; once `writeJsonToDisk` has written it to a
file that can be opened for writing, `loadProject` on that file (the dialog
accepted with it, the discard gate passed, the JSON reader of Qt undoing its
writer on this document) returns and hands `requestLoadProject` exactly that
array, in the same order, and nothing else. -/
theorem project_save_load_roundtrip (env : ProjectEnv α β) (dialogs : Dialogs)
    (s : ProjectState α β) (path : String) (rest : List String)
    (hwritable : env.writable path = true)
    (hqt : env.fromJson (env.toJson (getJsonFromNodeGraph env)) = getJsonFromNodeGraph env)
    (hfiles : dialogs.selectedFiles = some (path :: rest))
    (hgate : s.ui.projectManager.projectIsDirty = false ∨ dialogs.discardChanges = true) :
    (getJsonFromNodeGraph env).value "nodegraph" = QJsonValue.array env.getNodeGraphAsJson ∧
    (writeJsonToDisk env (getJsonFromNodeGraph env) path s).disk path =
      some (env.toJson (getJsonFromNodeGraph env)) ∧
    ∃ s2, loadProject env dialogs (writeJsonToDisk env (getJsonFromNodeGraph env) path s)
        = some s2 ∧
      loadRequests s2.signals = loadRequests s.signals ++ [env.getNodeGraphAsJson] ∧
      s2.ui.projectManager.currentProjectPath = path ∧
      s2.ui.projectManager.projectIsDirty = false := by
  have hvalue : (getJsonFromNodeGraph env).value "nodegraph"
      = QJsonValue.array env.getNodeGraphAsJson := by
    simp [getJsonFromNodeGraph, QJsonObject.value]
  have happ : ∀ a b : List (ProjectSignal α), loadRequests (a ++ b)
      = loadRequests a ++ loadRequests b := by
    intro a b
    induction a with
    | nil => rfl
    | cons e a ih => cases e <;> simp [loadRequests, ih]
  refine ⟨hvalue, by simp [writeJsonToDisk, hwritable], ?_⟩
  cases hdirty : s.ui.projectManager.projectIsDirty with
  | false =>
    refine ⟨_, by
      simp only [loadProject, checkIfDiscardChanges, writeJsonToDisk, hwritable, hdirty,
        hfiles, ProjectState.emit, if_true, List.head?_cons, Function.update_same, hqt, hvalue,
        QJsonValue.toArray, Bool.false_eq_true, if_false, Bool.not_false, Bool.or_true]
      rfl, ?_, rfl, rfl⟩
    simp [happ, loadRequests]
  | true =>
    have hyes : dialogs.discardChanges = true := by
      rcases hgate with h | h
      · rw [hdirty] at h; cases h
      · exact h
    refine ⟨_, by
      simp only [loadProject, checkIfDiscardChanges, writeJsonToDisk, hwritable, hdirty,
        hfiles, hyes, ProjectState.emit, if_true, List.head?_cons, Function.update_same, hqt,
        hvalue, QJsonValue.toArray, Bool.true_or]
      rfl, ?_, rfl, rfl⟩
    simp [happ, loadRequests]

theorem project_save_load_roundtrip_witness :
    (getJsonFromNodeGraph sampleProjectEnv).value "nodegraph" = QJsonValue.array [3, 1, 2] ∧
    (writeJsonToDisk sampleProjectEnv (getJsonFromNodeGraph sampleProjectEnv)
        "/projects/new.csc" sampleProject).disk "/projects/new.csc" =
      some (sampleProjectEnv.toJson (getJsonFromNodeGraph sampleProjectEnv)) ∧
    ∃ s2, loadProject sampleProjectEnv ⟨false, some ["/projects/new.csc"]⟩
        (writeJsonToDisk sampleProjectEnv (getJsonFromNodeGraph sampleProjectEnv)
          "/projects/new.csc" sampleProject) = some s2 ∧
      loadRequests s2.signals = loadRequests sampleProject.signals ++ [[3, 1, 2]] ∧
      s2.ui.projectManager.currentProjectPath = "/projects/new.csc" ∧
      s2.ui.projectManager.projectIsDirty = false :=
  project_save_load_roundtrip sampleProjectEnv ⟨false, some ["/projects/new.csc"]⟩
    sampleProject "/projects/new.csc" [] rfl rfl rfl (Or.inl rfl)

/-- C28 fails on the code for a project without unsaved changes: there
`checkIfDiscardChanges` returns false, so `createNewProject` emits nothing at
all, where `loadProject`, whose gate also passes a clean project, goes on to
its file dialog. With unsaved changes and the prompt confirmed the request is
emitted. -/
theorem createNewProject_ignores_clean_project :
    sampleProject.ui.projectManager.projectIsDirty = false ∧
    (createNewProject ⟨true, none⟩ sampleProject).signals = [] ∧
    (createNewProject ⟨false, none⟩ sampleProject).signals = [] ∧
    (loadProject sampleProjectEnv ⟨false, none⟩ sampleProject).map (fun s => s.signals)
      = some [ProjectSignal.openDialog] ∧
    (createNewProject ⟨true, none⟩ dirtyProject).signals =
      [ProjectSignal.discardPrompt, ProjectSignal.requestCreateNewProject] := by
  refine ⟨by decide, by decide, by decide, by decide, by decide⟩

/-- C29 fails on the code: after `createNewProject` has emitted
`requestCreateNewProject` for the modified project `shot.csc`, the manager
still names `shot.csc` and its path and is still dirty, and a following
`saveProject` opens no save dialog but writes to `/projects/shot.csc`. -/
theorem createNewProject_keeps_previous_project :
    (createNewProject ⟨true, none⟩ dirtyProject).signals =
      [ProjectSignal.discardPrompt, ProjectSignal.requestCreateNewProject] ∧
    (createNewProject ⟨true, none⟩ dirtyProject).ui.projectManager.currentProject
      = "shot.csc" ∧
    (createNewProject ⟨true, none⟩ dirtyProject).ui.projectManager.currentProjectPath
      = "/projects/shot.csc" ∧
    (createNewProject ⟨true, none⟩ dirtyProject).ui.projectManager.projectIsDirty = true ∧
    (saveProject sampleProjectEnv ⟨true, some ["/projects/new.csc"]⟩
        (createNewProject ⟨true, none⟩ dirtyProject)).map (fun s => s.signals) =
      some [ProjectSignal.discardPrompt, ProjectSignal.requestCreateNewProject,
        ProjectSignal.write "/projects/shot.csc" true] := by
  refine ⟨by decide, by decide, by decide, by decide, by decide⟩

end ProjectClaims

end Cascade
